import Mathlib

/-!
# NMEA sentence decoding of the MTK3339 driver

A shallow embedding of `src/src/MTK3339.cpp` (the enhanced variant of
`src/src/Adafruit_GPS.cpp`): the field tokenizer, the angle decoder, the
checksum stage, the dispatcher and the per-sentence decoders, followed by the
properties established about them.

Conventions of the embedding.

* A C string is the list of its characters up to (not including) the
  terminating NUL, so `strlen` is the length of the list; a pointer into a
  string is the suffix that starts there, and a null pointer is `none`.
* Unsigned machine integers are natural numbers reduced modulo `2 ^ w` where
  the source stores them; `int32_t` values are integers normalised by
  `wrap32` (two's complement wrap-around).
* `atoi`/`atol` return the mathematical value of the digits they read.
* What the C implementation leaves open (signedness of plain `char`, the
  floating-point library) is collected in a `Target`.
* A call that dereferences a null or out-of-range pointer ends the run with
  `Outcome.fault`, carrying the state reached at that point.
-/

namespace MTK3339

/-! ## Characters and C library functions -/

/-- The NUL character that terminates a C string. -/
def nul : Char := Char.ofNat 0

/-- Reading `*p`: the first character at a cursor, NUL at the end of the string. -/
def deref (p : List Char) : Char := p.headD nul

/-- Reading `s[i]`; indices used by the source stay inside the string. -/
def charAt (s : List Char) (i : Nat) : Char := s.getD i nul

/-- C `isspace` in the "C" locale: space, and the controls TAB, LF, VT, FF, CR. -/
def isspace (c : Char) : Bool := c.toNat = 32 || (9 ≤ c.toNat && c.toNat ≤ 13)

/-- C `isdigit` (Arduino `isDigit`). -/
def isdigit (c : Char) : Bool := 48 ≤ c.toNat && c.toNat ≤ 57

/-- Value of the run of decimal digits at the start of a string, continuing the
accumulator `acc`; conversion stops at the first character that is not a digit. -/
def digitsValue : Nat → List Char → Nat
  | acc, [] => acc
  | acc, c :: cs => if isdigit c then digitsValue (10 * acc + (c.toNat - 48)) cs else acc

/-- C `atol`: skip white space, read an optional sign, then decimal digits. -/
def atol (s : List Char) : Int :=
  match s.dropWhile isspace with
  | [] => 0
  | c :: cs =>
    if c = '-' then -(digitsValue 0 cs : Int)
    else if c = '+' then (digitsValue 0 cs : Int)
    else (digitsValue 0 (c :: cs) : Int)

/-- C `atoi`: the same conversion as `atol`. -/
def atoi (s : List Char) : Int := atol s

/-- C `strchr(s, c)`: the suffix starting at the first occurrence of `c`, if any. -/
def strchr : List Char → Char → Option (List Char)
  | [], _ => none
  | x :: xs, c => if x = c then some (x :: xs) else strchr xs c

/-- C `strstr(hay, needle)`: the suffix of `hay` starting at the first
occurrence of `needle`, if any. -/
def strstr : List Char → List Char → Option (List Char)
  | [], needle => if needle.isEmpty then some [] else none
  | c :: hay, needle =>
    if needle.isPrefixOf (c :: hay) then some (c :: hay) else strstr hay needle

/-- Two's complement normalisation of an integer to the `int32_t` range. -/
def wrap32 (x : Int) : Int := (x + 2147483648) % 4294967296 - 2147483648

/-! ## The target and the navigation state -/

/-- The parts of the C implementation that the source leaves to the platform:
whether plain `char` is signed, and the floating-point library, with `F` the
type of `float` values. -/
structure Target (F : Type) where
  /-- Plain `char` is a signed type (avr-gcc) or an unsigned one (arm-gcc). -/
  signedChar : Bool
  /-- The constant `0.0`. -/
  zero : F
  /-- `atof(p)` stored in a `float`. -/
  atof : List Char → F
  /-- Conversion of a `float` to `uint32_t`. -/
  toU32 : F → Nat
  /-- The expression `fmod(t, 1.0) * 1000` converted to `uint16_t`. -/
  fracMillis : F → Nat
  /-- The expression `x * 0.514444` (knots to metres per second). -/
  knots : F → F

/-- Antenna status reported by `$PGTOP`. -/
inductive Antenna where
  | AntennaUnknown
  | AntennaExternalProblem
  | AntennaUsingInternal
  | AntennaUsingExternal
deriving DecidableEq, Repr

/-- Fix mode reported by `$GPGSA`. -/
inductive Mode where
  | ModeNoFix
  | Mode2D
  | Mode3D
deriving DecidableEq, Repr

/-- Modelled from the spec: the class declaration (`MTK3339.h`) is not among
the sources, so the members are those assigned in `MTK3339.cpp`, with the
widths the spec and the original library give them: 8-bit time, date, fix
quality and satellite counts, 16-bit milliseconds, `int32_t` fixed-point
angles, `float` for the remaining measurements. -/
structure State (F : Type) where
  hour : Nat
  minute : Nat
  seconds : Nat
  milliseconds : Nat
  year : Nat
  month : Nat
  day : Nat
  fix : Bool
  fix_quality : Nat
  satellites_used : Nat
  satellites_in_views : Nat
  latitude_degree_minute : Int
  latitude_degree : Int
  longitude_degree_minute : Int
  longitude_degree : Int
  geoidheight : F
  altitude : F
  speed : F
  angle : F
  PDOP : F
  HDOP : F
  VDOP : F
  mode : Mode
  mode_selection : Char
  antenna : Antenna
  LOCUS_serial : Nat
  LOCUS_type : Nat
  LOCUS_mode : Nat
  LOCUS_config : Nat
  LOCUS_interval : Nat
  LOCUS_distance : Nat
  LOCUS_speed : Nat
  LOCUS_status : Bool
  LOCUS_records : Nat
  LOCUS_percent : Nat
deriving DecidableEq, Repr

/-- How a call ends: it returns a boolean, or it stops at a null or
out-of-range pointer access; both carry the navigation state reached. -/
inductive Outcome (σ : Type) where
  | ret (b : Bool) (st : σ)
  | fault (st : σ)
deriving DecidableEq, Repr

/-- The navigation state at the end of a call. -/
def Outcome.state {σ : Type} : Outcome σ → σ
  | .ret _ st => st
  | .fault st => st

/-- The boolean a call returned, if it returned. -/
def Outcome.value {σ : Type} : Outcome σ → Option Bool
  | .ret b _ => some b
  | .fault _ => none

/-! ## Field tokenizer and angle decoder (`MTK3339.cpp` lines 34-71) -/

/-- The tokenizer `next_data`: the cursor just past the next comma; null when there is no
comma or when the comma is the last character. -/
def next_data (nmea : List Char) : Option (List Char) :=
  match strchr nmea ',' with
  | none => none
  | some q =>
    let q1 := q.tail
    if deref q1 ≠ nul then some q1 else none

/-- The angle decoder `decode_angle`: the arguments `angle_degree_minute` and `angle_degree` are
the values the two output cells hold before the call; the result is the return
value and the two cells after it, in the same order. -/
def decode_angle (buffer : List Char) (angle_degree_minute angle_degree : Int) :
    Bool × Int × Int :=
  if buffer.length < 6 then (false, angle_degree_minute, angle_degree)
  else
    let layout : Option (List Char × List Char) :=
      if charAt buffer 4 = '.' then some ('0' :: buffer.take 2, buffer.drop 2)
      else if charAt buffer 5 = '.' then some (buffer.take 3, buffer.drop 3)
      else none
    match layout with
    | none => (false, 0, 0)
    | some (degreebuff, buffer) =>
      let degree := wrap32 (atol degreebuff * 10000000)
      let degreebuff := buffer.take 2 ++ (buffer.drop 3).take 4
      let minutes := atol degreebuff
      (true, wrap32 (degree + minutes * 10), wrap32 (degree + (50 * minutes).tdiv 3))

/-! ## Checksum stage (`MTK3339.cpp` lines 73-88 and 229-240) -/

/-- The value of a plain `char` after integer promotion. -/
def charInt {F : Type} (tg : Target F) (c : Char) : Int :=
  if tg.signedChar && 128 ≤ c.toNat then (c.toNat : Int) - 256 else (c.toNat : Int)

/-- The promoted `char` converted to `uint16_t`, as in `sum ^= nmea[i]`. -/
def charU16 {F : Type} (tg : Target F) (c : Char) : Nat :=
  (charInt tg c % 65536).toNat

/-- The function `parseHex`: the value of an uppercase hexadecimal digit, 0 for any other character. -/
def parseHex {F : Type} (tg : Target F) (c : Char) : Nat :=
  if charInt tg c < 48 then 0
  else if charInt tg c ≤ 57 then (charInt tg c - 48).toNat
  else if charInt tg c < 65 then 0
  else if charInt tg c ≤ 70 then (charInt tg c - 65).toNat + 10
  else 0

/-- The loop `for (uint8_t i = 2; i < strlen(nmea) - 4; i++) sum ^= nmea[i];`
started at counter `i` with accumulator `sum`. Every test of the loop condition
uses one unit of `fuel`; `none` means the fuel ran out. The counter is 8 bits
wide and wraps around at 256. -/
def checksumLoop {F : Type} (tg : Target F) :
    Nat → List Char → Nat → Nat → Option Nat
  | 0, _, _, _ => none
  | fuel + 1, nmea, i, sum =>
    if i < nmea.length - 4 then
      checksumLoop tg fuel nmea ((i + 1) % 256) (sum ^^^ charU16 tg (charAt nmea i))
    else some sum

/-- Result of the checksum stage of `parse`. -/
inductive Check where
  /-- `strlen(nmea) < 4`: the index `strlen(nmea) - 4` is outside the string. -/
  | outOfRange
  /-- The stage made `parse` return false. -/
  | reject
  /-- Control reached the dispatcher. -/
  | pass
deriving DecidableEq, Repr

/-- The checksum stage of `parse` (lines 74-88); `none` when the fuel ran out. -/
def checksumStage {F : Type} (tg : Target F) (fuel : Nat) (nmea : List Char) :
    Option Check :=
  if nmea.length < 4 then some .outOfRange
  else if charAt nmea (nmea.length - 4) ≠ '*' then some .reject
  else
    let sum := parseHex tg (charAt nmea (nmea.length - 3)) * 16 % 65536
    let sum := (sum + parseHex tg (charAt nmea (nmea.length - 2))) % 65536
    match checksumLoop tg fuel nmea 2 sum with
    | none => none
    | some sum => if sum ≠ 0 then some .reject else some .pass

/-! ## Latitude and longitude (`MTK3339.cpp` lines 504-540) -/

/-- The block `if (',' != **buffer) { if (!decode_angle(*buffer, &dm, &d)) return false; }`
on the two cells `dm`, `d`: the cells after the block, with the flag false when
the function returns false there. -/
def angleBlock (buffer : List Char) (dm d : Int) : Bool × Int × Int :=
  if deref buffer ≠ ',' then decode_angle buffer dm d else (true, dm, d)

/-- The block that applies a hemisphere letter to the two cells `dm`, `d`:
`neg` is the letter that negates (`S`, `W`) and `pos` the other accepted letter
(`N`, `E`); the flag is false when the function returns false there. -/
def hemisphereBlock (buffer : List Char) (neg pos : Char) (dm d : Int) : Bool × Int × Int :=
  if deref buffer ≠ ',' then
    let d1 := if deref buffer = neg then wrap32 (-d) else d
    let dm1 := if deref buffer = neg then wrap32 (-dm) else dm
    if deref buffer ≠ pos ∧ deref buffer ≠ neg ∧ deref buffer ≠ ',' then (false, dm1, d1)
    else (true, dm1, d1)
  else (true, dm, d)

/-- The sub-decoder `parse_latitude_longitude`: the argument is the cursor `*buffer` on entry;
the result is the return value, the cursor `*buffer` on exit and the state, in
which the four angle cells hold what the blocks executed so far have written. -/
def parse_latitude_longitude {F : Type} (st : State F) (buffer : List Char) :
    Bool × Option (List Char) × State F :=
  match next_data buffer with
  | none => (false, none, st)
  | some b1 =>
    let lat1 := angleBlock b1 st.latitude_degree_minute st.latitude_degree
    if !lat1.1 then
      (false, some b1, { st with latitude_degree_minute := lat1.2.1, latitude_degree := lat1.2.2 })
    else
      match next_data b1 with
      | none =>
        (false, none, { st with latitude_degree_minute := lat1.2.1, latitude_degree := lat1.2.2 })
      | some b2 =>
        let lat2 := hemisphereBlock b2 'S' 'N' lat1.2.1 lat1.2.2
        if !lat2.1 then
          (false, some b2,
            { st with latitude_degree_minute := lat2.2.1, latitude_degree := lat2.2.2 })
        else
          match next_data b2 with
          | none =>
            (false, none,
              { st with latitude_degree_minute := lat2.2.1, latitude_degree := lat2.2.2 })
          | some b3 =>
            let lon1 := angleBlock b3 st.longitude_degree_minute st.longitude_degree
            if !lon1.1 then
              (false, some b3,
                { st with latitude_degree_minute := lat2.2.1, latitude_degree := lat2.2.2,
                          longitude_degree_minute := lon1.2.1, longitude_degree := lon1.2.2 })
            else
              match next_data b3 with
              | none =>
                (false, none,
                  { st with latitude_degree_minute := lat2.2.1, latitude_degree := lat2.2.2,
                            longitude_degree_minute := lon1.2.1, longitude_degree := lon1.2.2 })
              | some b4 =>
                let lon2 := hemisphereBlock b4 'W' 'E' lon1.2.1 lon1.2.2
                (lon2.1, some b4,
                  { st with latitude_degree_minute := lat2.2.1, latitude_degree := lat2.2.2,
                            longitude_degree_minute := lon2.2.1, longitude_degree := lon2.2.2 })

/-! ## Per-sentence decoders (`MTK3339.cpp` lines 345-502) -/

/-- The statements that store the time of day from the cursor `p`
(`float timef = atof(p); uint32_t time = timef; ...`). -/
def setTime {F : Type} (tg : Target F) (st : State F) (p : List Char) : State F :=
  let timef := tg.atof p
  let time := tg.toU32 timef % 4294967296
  { st with hour := time / 10000 % 256,
            minute := time % 10000 / 100,
            seconds := time % 100,
            milliseconds := tg.fracMillis timef % 65536 }

/-- The fix-data decoder `parse_GPGGA`. The value returned by `parse_latitude_longitude` is not
used; when it leaves the cursor null, the following `next_data(p)` passes the
null pointer to `strchr`. -/
def parse_GPGGA {F : Type} (tg : Target F) (st : State F) (nmea : List Char) :
    Outcome (State F) :=
  match next_data nmea with
  | none => .ret false st
  | some p =>
    let st := setTime tg st p
    match parse_latitude_longitude st p with
    | (_, none, st) => .fault st
    | (_, some p, st) =>
      match next_data p with
      | none => .ret false st
      | some p =>
        let st := if deref p ≠ ',' then { st with fix_quality := (atoi p % 256).toNat } else st
        match next_data p with
        | none => .ret false st
        | some p =>
          let st :=
            if deref p ≠ ',' then { st with satellites_used := (atoi p % 256).toNat } else st
          match next_data p with
          | none => .ret false st
          | some p =>
            let st := if deref p ≠ ',' then { st with HDOP := tg.atof p } else st
            match next_data p with
            | none => .ret false st
            | some p =>
              let st := if deref p ≠ ',' then { st with altitude := tg.atof p } else st
              match next_data p with
              | none => .ret false st
              | some p =>
                match next_data p with
                | none => .ret false st
                | some p =>
                  let st := if deref p ≠ ',' then { st with geoidheight := tg.atof p } else st
                  .ret true st

/-- The recommended-minimum decoder `parse_GPRMC`. As in `parse_GPGGA`, the value returned by
`parse_latitude_longitude` is not used. -/
def parse_GPRMC {F : Type} (tg : Target F) (st : State F) (nmea : List Char) :
    Outcome (State F) :=
  match next_data nmea with
  | none => .ret false st
  | some p =>
    let st := setTime tg st p
    match next_data p with
    | none => .ret false st
    | some p =>
      let validity : Option Bool :=
        if deref p = 'A' then some true
        else if deref p = 'V' then some false
        else none
      match validity with
      | none => .ret false st
      | some v =>
        let st := { st with fix := v }
        match parse_latitude_longitude st p with
        | (_, none, st) => .fault st
        | (_, some p, st) =>
          match next_data p with
          | none => .ret false st
          | some p =>
            let st := if deref p ≠ ',' then { st with speed := tg.knots (tg.atof p) } else st
            match next_data p with
            | none => .ret false st
            | some p =>
              let st := if deref p ≠ ',' then { st with angle := tg.atof p } else st
              match next_data p with
              | none => .ret false st
              | some p =>
                let st :=
                  if deref p ≠ ',' then
                    let fulldate := tg.toU32 (tg.atof p) % 4294967296
                    { st with day := fulldate / 10000 % 256,
                              month := fulldate % 10000 / 100,
                              year := fulldate % 100 }
                  else st
                .ret true st

/-- The antenna-status decoder `parse_PGTOP`. -/
def parse_PGTOP {F : Type} (st : State F) (nmea : List Char) : Outcome (State F) :=
  match next_data nmea with
  | none => .ret false st
  | some p =>
    match next_data p with
    | none => .ret false st
    | some p =>
      let st :=
        if deref p ≠ ',' then
          let value := atoi p
          if value = 1 then { st with antenna := .AntennaExternalProblem }
          else if value = 2 then { st with antenna := .AntennaUsingInternal }
          else if value = 3 then { st with antenna := .AntennaUsingExternal }
          else { st with antenna := .AntennaUnknown }
        else st
      .ret true st

/-- The satellites-in-view decoder `parse_GPGSV`. -/
def parse_GPGSV {F : Type} (st : State F) (nmea : List Char) : Outcome (State F) :=
  match next_data nmea with
  | none => .ret false st
  | some p =>
    match next_data p with
    | none => .ret false st
    | some p =>
      match next_data p with
      | none => .ret false st
      | some p =>
        let st :=
          if deref p ≠ ',' then { st with satellites_in_views := (atoi p % 256).toNat } else st
        .ret true st

/-- The cursor after `n` consecutive `p = next_data(p); if (!p) return false;` steps. -/
def skipFields : Nat → List Char → Option (List Char)
  | 0, p => some p
  | n + 1, p =>
    match next_data p with
    | none => none
    | some q => skipFields n q

/-- The fix-mode decoder `parse_GPGSA`; the thirteen consecutive `next_data` steps of lines 480-492
are taken by `skipFields 13`. -/
def parse_GPGSA {F : Type} (tg : Target F) (st : State F) (nmea : List Char) :
    Outcome (State F) :=
  match next_data nmea with
  | none => .ret false st
  | some p =>
    let st := if deref p ≠ ',' then { st with mode_selection := deref p } else st
    match next_data p with
    | none => .ret false st
    | some p =>
      let st :=
        if deref p ≠ ',' then
          let modeInteger := atoi p
          if modeInteger = 2 then { st with mode := .Mode2D }
          else if modeInteger = 3 then { st with mode := .Mode3D }
          else { st with mode := .ModeNoFix }
        else st
      match skipFields 13 p with
      | none => .ret false st
      | some p =>
        let st := if deref p ≠ ',' then { st with PDOP := tg.atof p } else st
        match next_data p with
        | none => .ret false st
        | some p =>
          let st := if deref p ≠ ',' then { st with HDOP := tg.atof p } else st
          match next_data p with
          | none => .ret false st
          | some p =>
            let st := if deref p ≠ ',' then { st with VDOP := tg.atof p } else st
            .ret true st

/-! ## Dispatcher and `parse` (`MTK3339.cpp` lines 73-102) -/

/-- The dispatcher of `parse` (lines 89-101): the first identifier found in the
sentence selects the decoder. -/
def dispatch {F : Type} (tg : Target F) (st : State F) (nmea : List Char) :
    Outcome (State F) :=
  if (strstr nmea "$GPGGA".toList).isSome then parse_GPGGA tg st nmea
  else if (strstr nmea "$GPRMC".toList).isSome then parse_GPRMC tg st nmea
  else if (strstr nmea "$PGTOP".toList).isSome then parse_PGTOP st nmea
  else if (strstr nmea "$GPGSV".toList).isSome then parse_GPGSV st nmea
  else if (strstr nmea "$GPGSA".toList).isSome then parse_GPGSA tg st nmea
  else .ret false st

/-- The method `MTK3339::parse`: the checksum stage followed by the dispatcher; `none`
when the fuel given to the checksum loop ran out. -/
def parse {F : Type} (tg : Target F) (fuel : Nat) (st : State F) (nmea : List Char) :
    Option (Outcome (State F)) :=
  match checksumStage tg fuel nmea with
  | none => none
  | some .outOfRange => some (.fault st)
  | some .reject => some (.ret false st)
  | some .pass => some (dispatch tg st nmea)

/-! ## A reference target: exact decimal reading -/

/-- A decimal number `± num / 10 ^ scale`. -/
structure Dec where
  neg : Bool
  num : Nat
  scale : Nat
deriving DecidableEq, Repr

/-- The digits after a decimal point: continues the numerator `num` and counts
the digits in `scale`. -/
def fracDigits : Nat → Nat → List Char → Nat × Nat
  | num, scale, [] => (num, scale)
  | num, scale, c :: cs =>
    if isdigit c then fracDigits (10 * num + (c.toNat - 48)) (scale + 1) cs else (num, scale)

/-- An unsigned decimal literal `digits [ '.' digits ]`, continuing the
accumulator `acc` of the integer part. -/
def decLiteral : Nat → List Char → Nat × Nat
  | acc, [] => (acc, 0)
  | acc, c :: cs =>
    if isdigit c then decLiteral (10 * acc + (c.toNat - 48)) cs
    else if c = '.' then fracDigits acc 0 cs
    else (acc, 0)

/-- Reading of a plain decimal literal at the start of a string (white space,
optional sign, digits, optional fraction), without rounding. -/
def decAtof (s : List Char) : Dec :=
  match s.dropWhile isspace with
  | [] => ⟨false, 0, 0⟩
  | c :: cs =>
    if c = '-' then ⟨true, (decLiteral 0 cs).1, (decLiteral 0 cs).2⟩
    else if c = '+' then ⟨false, (decLiteral 0 cs).1, (decLiteral 0 cs).2⟩
    else ⟨false, (decLiteral 0 (c :: cs)).1, (decLiteral 0 (c :: cs)).2⟩

/-- The reference target: unsigned `char` and decimal numbers kept exactly. It
agrees with binary floating point wherever the value read is an integer below
`2 ^ 24`, which covers the time and date fields. -/
def decimalTarget : Target Dec where
  signedChar := false
  zero := ⟨false, 0, 0⟩
  atof := decAtof
  toU32 := fun d => if d.neg then 0 else d.num / 10 ^ d.scale
  fracMillis := fun d => if d.neg then 0 else d.num % 10 ^ d.scale * 1000 / 10 ^ d.scale
  knots := fun d => ⟨d.neg, d.num * 514444, d.scale + 6⟩

/-- The state written by `common_init` (lines 178-191); the logger-status
members are not assigned there and are taken as zero. -/
def common_init {F : Type} (tg : Target F) : State F where
  hour := 0
  minute := 0
  seconds := 0
  milliseconds := 0
  year := 0
  month := 0
  day := 0
  fix := false
  fix_quality := 0
  satellites_used := 0
  satellites_in_views := 0
  latitude_degree_minute := 0
  latitude_degree := 0
  longitude_degree_minute := 0
  longitude_degree := 0
  geoidheight := tg.zero
  altitude := tg.zero
  speed := tg.zero
  angle := tg.zero
  PDOP := tg.zero
  HDOP := tg.zero
  VDOP := tg.zero
  mode := .ModeNoFix
  mode_selection := '?'
  antenna := .AntennaUnknown
  LOCUS_serial := 0
  LOCUS_type := 0
  LOCUS_mode := 0
  LOCUS_config := 0
  LOCUS_interval := 0
  LOCUS_distance := 0
  LOCUS_speed := 0
  LOCUS_status := false
  LOCUS_records := 0
  LOCUS_percent := 0

/-! ## Notions taken from the specification -/

/-- Value of a hexadecimal digit in the words of the specification:
`'0'..'9'` give 0-9, `'A'..'F'` give 10-15, any other character gives 0. -/
def specHex (c : Char) : Nat :=
  if 48 ≤ c.toNat ∧ c.toNat ≤ 57 then c.toNat - 48
  else if 65 ≤ c.toNat ∧ c.toNat ≤ 70 then c.toNat - 65 + 10
  else 0

/-- XOR of the character codes of a list. -/
def xorBytes (l : List Char) : Nat := l.foldl (fun a c => a ^^^ c.toNat) 0

/-- The checksum condition in the words of the specification: the character
four before the end is `*`, and the XOR of the characters from offset 2 up to
(not including) the `*` equals the value encoded by the two characters after it. -/
def SpecChecksumOk (s : List Char) : Prop :=
  charAt s (s.length - 4) = '*' ∧
    xorBytes ((s.drop 2).take (s.length - 6)) =
      16 * specHex (charAt s (s.length - 3)) + specHex (charAt s (s.length - 2))

instance SpecChecksumOk.decidable (s : List Char) : Decidable (SpecChecksumOk s) := by
  unfold SpecChecksumOk; infer_instance

/-- The sentence identifiers known to the dispatcher of `MTK3339::parse`. -/
def identifiers : List (List Char) :=
  ["$GPGGA".toList, "$GPRMC".toList, "$PGTOP".toList, "$GPGSV".toList, "$GPGSA".toList]

/-- A sentence of 260 characters: 256 letters `A`, then `*01` and a carriage return. -/
def longSentence : List Char := List.replicate 256 'A' ++ "*01\r".toList

/-- A comma-separated field of a sentence: it holds no comma and, as part of a
C string, no NUL. -/
def IsField (f : List Char) : Prop := ',' ∉ f ∧ nul ∉ f

instance IsField.decidable (f : List Char) : Decidable (IsField f) := by
  unfold IsField; infer_instance

/-- An angle field in one of the two layouts of the decoder: at least six
characters with the decimal point at offset 4 or at offset 5. -/
def IsAngleField (f : List Char) : Prop :=
  IsField f ∧ 6 ≤ f.length ∧ (charAt f 4 = '.' ∨ charAt f 5 = '.')

instance IsAngleField.decidable (f : List Char) : Decidable (IsAngleField f) := by
  unfold IsAngleField; infer_instance

/-- A non-empty field of decimal digits. -/
def IsDigitField (f : List Char) : Prop := f ≠ [] ∧ ∀ c ∈ f, isdigit c = true

instance IsDigitField.decidable (f : List Char) : Decidable (IsDigitField f) := by
  unfold IsDigitField; infer_instance

/-- The fields of a sentence written out with commas between them. -/
def joinFields : List (List Char) → List Char
  | [] => []
  | [f] => f
  | f :: g :: fs => f ++ ',' :: joinFields (g :: fs)

/-- The float library reads a run of at most seven decimal digits that ends at
a comma exactly: such a number is below `2 ^ 24` and has an exact `float`
representation, so converting it back to `uint32_t` gives the number. -/
def Target.ReadsDigits {F : Type} (tg : Target F) : Prop :=
  ∀ ds r : List Char, ds.length ≤ 7 → (∀ c ∈ ds, isdigit c = true) →
    tg.toU32 (tg.atof (ds ++ ',' :: r)) = digitsValue 0 ds

/-! ## Line assembler (`MTK3339.cpp` lines 20-32, 104-149, 167-176, 215-226) -/

/-- The constant `MAXLINELENGTH`. -/
def MAXLINELENGTH : Nat := 120

/-- The two line buffers `line1` and `line2`, as targets of the pointers
`currentline` and `lastline`. -/
inductive Buf where
  | line1
  | line2
deriving DecidableEq, Repr

/-- The file-scope variables of the line assembler together with the member
`paused`. The two arrays are lists of `MAXLINELENGTH` characters. -/
structure Assembler where
  line1 : List Char
  line2 : List Char
  lineidx : Nat
  currentline : Buf
  lastline : Buf
  recvdflag : Bool
  paused : Bool
deriving DecidableEq, Repr

/-- The array a buffer pointer points to. -/
def Assembler.buffer (a : Assembler) : Buf → List Char
  | .line1 => a.line1
  | .line2 => a.line2

/-- The store `buf[i] = c` through a buffer pointer; `none` when the index is
outside the array. -/
def Assembler.store (a : Assembler) (b : Buf) (i : Nat) (c : Char) : Option Assembler :=
  match b with
  | .line1 => if i < a.line1.length then some { a with line1 := a.line1.set i c } else none
  | .line2 => if i < a.line2.length then some { a with line2 := a.line2.set i c } else none

/-- The state at program start after `common_init` (lines 172-176): the arrays
have static storage and start zeroed, `common_init` sets the flags, the index
and the two pointers. -/
def assemblerInit : Assembler where
  line1 := List.replicate MAXLINELENGTH nul
  line2 := List.replicate MAXLINELENGTH nul
  lineidx := 0
  currentline := .line1
  lastline := .line2
  recvdflag := false
  paused := false

/-- The part of `read` that handles a byte `c` obtained from the transport
(lines 126-148); `none` when a store falls outside its array. The index is a
`uint8_t`. -/
def feed (a : Assembler) (c : Char) : Option Assembler :=
  let afterLf : Option Assembler :=
    if c = '\n' then
      match a.store a.currentline a.lineidx nul with
      | none => none
      | some a1 =>
        let a2 :=
          if a1.currentline = .line1 then { a1 with currentline := .line2, lastline := .line1 }
          else { a1 with currentline := .line1, lastline := .line2 }
        some { a2 with lineidx := 0, recvdflag := true }
    else some a
  match afterLf with
  | none => none
  | some a3 =>
    match a3.store a3.currentline a3.lineidx c with
    | none => none
    | some a4 =>
      let idx := (a4.lineidx + 1) % 256
      some { a4 with lineidx := if idx ≥ MAXLINELENGTH then MAXLINELENGTH - 1 else idx }

/-- The method `read` with the transport given as the byte it has available, if
any: nothing happens while paused or when no byte is available. -/
def read (a : Assembler) (input : Option Char) : Option Assembler :=
  if a.paused then some a
  else
    match input with
    | none => some a
    | some c => feed a c

/-- The method `pause`. -/
def pause (a : Assembler) (p : Bool) : Assembler := { a with paused := p }

/-- The method `newNMEAreceived`. -/
def newNMEAreceived (a : Assembler) : Bool := a.recvdflag

/-- The C string held in an array: the characters before the first NUL; `none`
when the array holds no NUL, so that reading the string runs past its end. -/
def cstring (buf : List Char) : Option (List Char) :=
  if nul ∈ buf then some (buf.takeWhile (fun c => c ≠ nul)) else none

/-- The method `lastNMEA`: clears the flag and returns the last line. -/
def lastNMEA (a : Assembler) : Assembler × Option (List Char) :=
  ({ a with recvdflag := false }, cstring (a.buffer a.lastline))

/-- Feeding a sequence of bytes to `read`, one call per byte. -/
def feedAll : Assembler → List Char → Option Assembler
  | a, [] => some a
  | a, c :: cs =>
    match read a (some c) with
    | none => none
    | some a1 => feedAll a1 cs

/-- The states reached from the initial state by calls of `read` (with or
without a byte), `lastNMEA` and `pause`. -/
inductive Reachable : Assembler → Prop where
  | init : Reachable assemblerInit
  | read (a a1 : Assembler) (input : Option Char) :
      Reachable a → read a input = some a1 → Reachable a1
  | lastNMEA (a : Assembler) : Reachable a → Reachable (lastNMEA a).1
  | pause (a : Assembler) (p : Bool) : Reachable a → Reachable (pause a p)
/-! ## Logger status (`MTK3339.cpp` lines 275-319) -/

/-- C `isalpha` (Arduino `isAlpha`) on an integer value. -/
def isalpha (v : Nat) : Bool := (65 ≤ v && v ≤ 90) || (97 ≤ v && v ≤ 122)

/-- The inner `while` loop of `LOCUS_ReadStatus` (lines 293-302) on the 16-bit
accumulator `parsed[i]`: the value accumulated and the cursor where the loop
stops, at a comma, a `*` or the end of the string. -/
def locusField {F : Type} (tg : Target F) : Nat → List Char → Nat × List Char
  | acc, [] => (acc, [])
  | acc, c :: cs =>
    if c ≠ ',' ∧ c ≠ '*' ∧ c ≠ nul then
      let acc10 := acc * 10 % 65536
      locusField tg (if isdigit c then (acc10 + (c.toNat - 48)) % 65536 else charU16 tg c) cs
    else (acc, c :: cs)

/-- The `for` loop of `LOCUS_ReadStatus` (lines 288-303) from index `i` with
`n` iterations left: the array `parsed` after the loop. -/
def locusLoop {F : Type} (tg : Target F) : Nat → Nat → List Char → List Nat → List Nat
  | 0, _, _, parsed => parsed
  | n + 1, i, response, parsed =>
    if deref response = nul ∨ deref response = '*' then parsed
    else
      let r := locusField tg 0 response.tail
      locusLoop tg n (i + 1) r.2 (parsed.set i r.1)

/-- The field-decoding part of `LOCUS_ReadStatus` (lines 281-318), given the
line that `lastNMEA` returned after the wait for `$PMTKLOG`.

Modelled from the spec: the widths of the `LOCUS_*` members are declared in a
header that is not among the sources; the 16-bit values of `parsed` are stored
as they are. -/
def LOCUS_ReadStatus {F : Type} (tg : Target F) (st : State F) (response : List Char) :
    Outcome (State F) :=
  match next_data response with
  | none => .ret false st
  | some response =>
    let parsed := locusLoop tg 10 0 response (List.replicate 10 65535)
    let parsed2 :=
      if isalpha (parsed.getD 2 0) then (parsed.getD 2 0 + 65536 - 97 + 10) % 65536
      else parsed.getD 2 0
    .ret true
      { st with
        LOCUS_serial := parsed.getD 0 0,
        LOCUS_type := parsed.getD 1 0,
        LOCUS_mode := parsed2,
        LOCUS_config := parsed.getD 3 0,
        LOCUS_interval := parsed.getD 4 0,
        LOCUS_distance := parsed.getD 5 0,
        LOCUS_speed := parsed.getD 6 0,
        LOCUS_status := decide (parsed.getD 7 0 = 0),
        LOCUS_records := parsed.getD 8 0,
        LOCUS_percent := parsed.getD 9 0 }

/-- A field of a logger-status response: it holds no comma, no `*` and, as part
of a C string, no NUL. -/
def IsLocusField (f : List Char) : Prop := ∀ c ∈ f, c ≠ ',' ∧ c ≠ '*' ∧ c ≠ nul

instance IsLocusField.decidable (f : List Char) : Decidable (IsLocusField f) := by
  unfold IsLocusField; infer_instance

/-- The assembler states that make sense for the C program: both arrays have
`MAXLINELENGTH` elements, the index is inside them, and the two pointers point
to different arrays. -/
def WellFormed (a : Assembler) : Prop :=
  a.line1.length = MAXLINELENGTH ∧ a.line2.length = MAXLINELENGTH ∧
    a.lineidx ≤ MAXLINELENGTH - 1 ∧ a.currentline ≠ a.lastline

instance WellFormed.decidable (a : Assembler) : Decidable (WellFormed a) := by
  unfold WellFormed; infer_instance

/-- One uppercase hexadecimal digit. -/
def hexDigitChar (n : Nat) : Char := "0123456789ABCDEF".toList.getD n '0'

/-- The two uppercase hexadecimal digits of a byte value. -/
def hex2 (v : Nat) : List Char := [hexDigitChar (v / 16), hexDigitChar (v % 16)]

/-! ## Auxiliary notions for the idempotence of `parse` -/

/-- Applying a state transformer to the state of an outcome. -/
def Outcome.map {σ : Type} (h : σ → σ) : Outcome σ → Outcome σ
  | .ret b st => .ret b (h st)
  | .fault st => .fault (h st)

/-- The pattern shared by the decoders: a run of steps
`p = next_data(p); if (!p) return false; if (',' != *p) <store>`, ended by
`return true`. A step is `none` when it stores nothing, and otherwise the store
as a function of the cursor and the state. -/
def runFields {σ : Type} : List (Option (List Char → σ → σ)) → List Char → σ → Outcome σ
  | [], _, st => .ret true st
  | u :: us, p, st =>
    match next_data p with
    | none => .ret false st
    | some q =>
      runFields us q
        (match u with
         | none => st
         | some f => if deref q ≠ ',' then f q st else st)

/-- The transformer `h` commutes with every store of a list of steps. -/
def CommAll {σ : Type} (h : σ → σ) : List (Option (List Char → σ → σ)) → Prop
  | [] => True
  | none :: us => CommAll h us
  | some f :: us => (∀ q x, h (f q x) = f q (h x)) ∧ CommAll h us

/-- Every store of a list of steps, applied twice at the same cursor, gives
what it gives once, and commutes with the stores of the later steps. -/
def Absorbing {σ : Type} : List (Option (List Char → σ → σ)) → Prop
  | [] => True
  | none :: us => Absorbing us
  | some f :: us => (∀ q x, f q (f q x) = f q x) ∧ (∀ q, CommAll (f q) us) ∧ Absorbing us

/-- Every store of a list of steps leaves the projection `proj` of the state as it is. -/
def Preserves {σ α : Type} (proj : σ → α) : List (Option (List Char → σ → σ)) → Prop
  | [] => True
  | none :: us => Preserves proj us
  | some f :: us => (∀ q x, proj (f q x) = proj x) ∧ Preserves proj us

/-- The steps of `parse_GPGGA` after the latitude and longitude (lines 360-379). -/
def ggaSteps {F : Type} (tg : Target F) : List (Option (List Char → State F → State F)) :=
  [some fun p st => { st with fix_quality := (atoi p % 256).toNat },
   some fun p st => { st with satellites_used := (atoi p % 256).toNat },
   some fun p st => { st with HDOP := tg.atof p },
   some fun p st => { st with altitude := tg.atof p },
   none,
   some fun p st => { st with geoidheight := tg.atof p }]

/-- The steps of `parse_GPRMC` after the latitude and longitude (lines 408-424). -/
def rmcSteps {F : Type} (tg : Target F) : List (Option (List Char → State F → State F)) :=
  [some fun p st => { st with speed := tg.knots (tg.atof p) },
   some fun p st => { st with angle := tg.atof p },
   some fun p st =>
     { st with day := tg.toU32 (tg.atof p) % 4294967296 / 10000 % 256,
               month := tg.toU32 (tg.atof p) % 4294967296 % 10000 / 100,
               year := tg.toU32 (tg.atof p) % 4294967296 % 100 }]

/-- The steps of `parse_PGTOP`. -/
def pgtopSteps {F : Type} : List (Option (List Char → State F → State F)) :=
  [none,
   some fun p st =>
     if atoi p = 1 then { st with antenna := .AntennaExternalProblem }
     else if atoi p = 2 then { st with antenna := .AntennaUsingInternal }
     else if atoi p = 3 then { st with antenna := .AntennaUsingExternal }
     else { st with antenna := .AntennaUnknown }]

/-- The steps of `parse_GPGSV`. -/
def gsvSteps {F : Type} : List (Option (List Char → State F → State F)) :=
  [none, none, some fun p st => { st with satellites_in_views := (atoi p % 256).toNat }]

/-- The steps of `parse_GPGSA`. -/
def gsaSteps {F : Type} (tg : Target F) : List (Option (List Char → State F → State F)) :=
  [some fun p st => { st with mode_selection := deref p },
   some fun p st =>
     if atoi p = 2 then { st with mode := .Mode2D }
     else if atoi p = 3 then { st with mode := .Mode3D }
     else { st with mode := .ModeNoFix }] ++
  List.replicate 12 none ++
  [some fun p st => { st with PDOP := tg.atof p },
   some fun p st => { st with HDOP := tg.atof p },
   some fun p st => { st with VDOP := tg.atof p }]

/-- The four angle cells of a state: latitude and longitude, each as
degrees-minute-scaled and degrees-scaled. -/
def cellsOf {F : Type} (st : State F) : (Int × Int) × (Int × Int) :=
  ((st.latitude_degree_minute, st.latitude_degree),
   (st.longitude_degree_minute, st.longitude_degree))

/-- A state with its four angle cells replaced. -/
def withCells {F : Type} (st : State F) (c : (Int × Int) × (Int × Int)) : State F :=
  { st with latitude_degree_minute := c.1.1, latitude_degree := c.1.2,
            longitude_degree_minute := c.2.1, longitude_degree := c.2.2 }

/-- One coordinate of `parse_latitude_longitude` on its two cells, from the
cursor `b` at the angle field: the angle block, the step to the hemisphere
field and the hemisphere block. The result is the flag (false when the
function returns false), the cursor and the two cells. -/
def coordCells (b : List Char) (neg pos : Char) (c : Int × Int) :
    Bool × Option (List Char) × (Int × Int) :=
  let a := angleBlock b c.1 c.2
  if !a.1 then (false, some b, a.2)
  else
    match next_data b with
    | none => (false, none, a.2)
    | some h =>
      let r := hemisphereBlock h neg pos a.2.1 a.2.2
      (r.1, some h, r.2)

/-- The sub-decoder `parse_latitude_longitude` as a function of the four
angle cells alone. -/
def pllCells (buffer : List Char) (c : (Int × Int) × (Int × Int)) :
    Bool × Option (List Char) × ((Int × Int) × (Int × Int)) :=
  match next_data buffer with
  | none => (false, none, c)
  | some b1 =>
    let r1 := coordCells b1 'S' 'N' c.1
    if !r1.1 then (false, r1.2.1, (r1.2.2, c.2))
    else
      match r1.2.1 with
      | none => (false, none, (r1.2.2, c.2))
      | some b2 =>
        match next_data b2 with
        | none => (false, none, (r1.2.2, c.2))
        | some b3 =>
          let r2 := coordCells b3 'W' 'E' c.2
          (r2.1, r2.2.1, (r1.2.2, r2.2.2))

/-- An angle field is empty and the hemisphere field after it begins with the
negating letter: the hemisphere block then negates cells that this call has not
written. -/
def signOnEmpty (b : List Char) (neg : Char) : Bool :=
  match next_data b with
  | none => false
  | some h => deref b = ',' && deref h = neg

/-- The cursor at which `parse` starts the latitude/longitude sub-decoder: the
time field of a fix-data sentence, the validity field of a
recommended-minimum sentence. -/
def latLonCursor (s : List Char) : Option (List Char) :=
  if (strstr s "$GPGGA".toList).isSome then next_data s
  else if (strstr s "$GPRMC".toList).isSome then (next_data s).bind next_data
  else none

/-- The sentence has an empty latitude field followed by a hemisphere field
beginning with `S`, or an empty longitude field followed by one beginning with
`W`. -/
def staleSign (s : List Char) : Bool :=
  match latLonCursor s with
  | none => false
  | some buffer =>
    match next_data buffer with
    | none => false
    | some b1 =>
      signOnEmpty b1 'S' ||
        (match (next_data b1).bind next_data with
         | none => false
         | some b3 => signOnEmpty b3 'W')

/-- The part common to `parse_GPGGA` and `parse_GPRMC`: the stores `head` made before the
latitude and longitude, the sub-decoder at the cursor `p` (its return value is
not used), then the steps `us`. -/
def latLonThen {F : Type} (head : State F → State F)
    (us : List (Option (List Char → State F → State F))) (p : List Char) (st : State F) :
    Outcome (State F) :=
  match parse_latitude_longitude (head st) p with
  | (_, none, st) => .fault st
  | (_, some q, st) => runFields us q st

/-! ## Baseline variant: latitude and longitude (`Adafruit_GPS.cpp` lines 457-494) -/

/-- Modelled from the spec: the class declaration (`Adafruit_GPS.h`) is not
among the sources, so the members are those that `parse_latitude_longitude` of
`Adafruit_GPS.cpp` reads or writes: the four `int32_t` fixed-point cells handed
to `decode_angle`, and the hemisphere letters `lat` and `lon`. -/
structure Adafruit_GPS.Coordinates where
  latitude_degree_minute : Int
  latitude_degree : Int
  longitude_degree_minute : Int
  longitude_degree : Int
  lat : Char
  lon : Char
deriving DecidableEq, Repr

/-- The baseline block that applies a hemisphere letter: only the degrees cell
`d` is negated, for the letter `neg`; then the letter is stored, with the tests
in the order of the source (`first`, then `second`, then the comma). The result
is the flag (false when the function returns false there), the degrees cell and
the stored letter. -/
def Adafruit_GPS.hemisphereBlock (buffer : List Char) (neg first second : Char)
    (d : Int) (letter : Char) : Bool × Int × Char :=
  if deref buffer ≠ ',' then
    let d1 := if deref buffer = neg then wrap32 (-d) else d
    if deref buffer = first then (true, d1, first)
    else if deref buffer = second then (true, d1, second)
    else if deref buffer = ',' then (true, d1, nul)
    else (false, d1, letter)
  else (true, d, letter)

/-- The baseline sub-decoder `Adafruit_GPS::parse_latitude_longitude`, which uses the same
`next_data` and `decode_angle`. The result is the return value, the cursor
`*buffer` on exit and the members. The function has no `return` statement at
its end: the return value is `none` when control reaches the end, `some false`
at each `return false`. -/
def Adafruit_GPS.parse_latitude_longitude (c : Adafruit_GPS.Coordinates) (buffer : List Char) :
    Option Bool × Option (List Char) × Adafruit_GPS.Coordinates :=
  match next_data buffer with
  | none => (some false, none, c)
  | some b1 =>
    let lat1 := angleBlock b1 c.latitude_degree_minute c.latitude_degree
    let c := { c with latitude_degree_minute := lat1.2.1, latitude_degree := lat1.2.2 }
    if !lat1.1 then (some false, some b1, c)
    else
      match next_data b1 with
      | none => (some false, none, c)
      | some b2 =>
        let lat2 := Adafruit_GPS.hemisphereBlock b2 'S' 'N' 'S' c.latitude_degree c.lat
        let c := { c with latitude_degree := lat2.2.1, lat := lat2.2.2 }
        if !lat2.1 then (some false, some b2, c)
        else
          match next_data b2 with
          | none => (some false, none, c)
          | some b3 =>
            let lon1 := angleBlock b3 c.longitude_degree_minute c.longitude_degree
            let c := { c with longitude_degree_minute := lon1.2.1, longitude_degree := lon1.2.2 }
            if !lon1.1 then (some false, some b3, c)
            else
              match next_data b3 with
              | none => (some false, none, c)
              | some b4 =>
                let lon2 :=
                  Adafruit_GPS.hemisphereBlock b4 'W' 'W' 'E' c.longitude_degree c.lon
                let c := { c with longitude_degree := lon2.2.1, lon := lon2.2.2 }
                if !lon2.1 then (some false, some b4, c)
                else (none, some b4, c)

/-- The baseline members that hold the four angle cells of the state `st`, with the
hemisphere letters `lat` and `lon`. -/
def Adafruit_GPS.coordinatesOf {F : Type} (st : State F) (lat lon : Char) :
    Adafruit_GPS.Coordinates :=
  { latitude_degree_minute := st.latitude_degree_minute,
    latitude_degree := st.latitude_degree,
    longitude_degree_minute := st.longitude_degree_minute,
    longitude_degree := st.longitude_degree,
    lat := lat, lon := lon }

/-! # Properties -/

/-! ## Checksum stage -/

theorem specHex_lt (c : Char) : specHex c < 16 := by
  unfold specHex; split_ifs <;> omega

theorem charInt_cases {F : Type} (tg : Target F) (c : Char) :
    (charInt tg c = (c.toNat : Int) ∧ (tg.signedChar = false ∨ c.toNat < 128)) ∨
    (charInt tg c = (c.toNat : Int) - 256 ∧ 128 ≤ c.toNat) := by
  unfold charInt
  cases tg.signedChar <;> by_cases h : 128 ≤ c.toNat <;> simp [h]
  omega

theorem parseHex_eq_specHex {F : Type} (tg : Target F) (c : Char) (h : c.toNat < 256) :
    parseHex tg c = specHex c := by
  unfold parseHex specHex
  rcases charInt_cases tg c with ⟨he, _⟩ | ⟨he, h128⟩ <;> rw [he] <;> split_ifs <;> omega

theorem charU16_mod {F : Type} (tg : Target F) (c : Char) (h : c.toNat < 256) :
    charU16 tg c % 256 = c.toNat := by
  unfold charU16
  rcases charInt_cases tg c with ⟨he, _⟩ | ⟨he, h128⟩ <;> rw [he] <;> omega

theorem charU16_of_lt {F : Type} (tg : Target F) (c : Char) (h : c.toNat < 128) :
    charU16 tg c = c.toNat := by
  unfold charU16
  rcases charInt_cases tg c with ⟨he, _⟩ | ⟨he, h128⟩ <;> rw [he] <;> omega

theorem xor_mod_256 (a b : Nat) : (a ^^^ b) % 256 = (a % 256) ^^^ (b % 256) := by
  apply Nat.eq_of_testBit_eq
  intro i
  have h256 : (256 : Nat) = 2 ^ 8 := by norm_num
  rw [h256]
  simp only [Nat.testBit_mod_two_pow, Nat.testBit_xor]
  by_cases hi : i < 8 <;> simp [hi]

theorem foldl_xor_start {α : Type} (f : α → Nat) (l : List α) (a : Nat) :
    l.foldl (fun x c => x ^^^ f c) a = a ^^^ l.foldl (fun x c => x ^^^ f c) 0 := by
  induction l generalizing a with
  | nil => simp
  | cons c cs ih =>
    simp only [List.foldl_cons]
    rw [ih (a ^^^ f c), ih (0 ^^^ f c), Nat.zero_xor, Nat.xor_assoc]

/-- Modulo 256 the accumulator of the checksum loop is the XOR of the character codes. -/
theorem foldl_charU16_mod {F : Type} (tg : Target F) (l : List Char)
    (hl : ∀ c ∈ l, c.toNat < 256) (a : Nat) :
    l.foldl (fun x c => x ^^^ charU16 tg c) a % 256 = (a % 256) ^^^ xorBytes l := by
  unfold xorBytes
  induction l generalizing a with
  | nil => simp
  | cons c cs ih =>
    simp only [List.foldl_cons]
    rw [ih (fun d hd => hl d (List.mem_cons_of_mem _ hd)), xor_mod_256,
      charU16_mod tg c (hl c (List.mem_cons_self _ _)),
      foldl_xor_start (fun c => c.toNat) cs (0 ^^^ c.toNat), Nat.zero_xor, Nat.xor_assoc]

/-- On 7-bit characters the accumulator of the checksum loop is the plain XOR. -/
theorem foldl_charU16_ascii {F : Type} (tg : Target F) (l : List Char)
    (hl : ∀ c ∈ l, c.toNat < 128) (a : Nat) :
    l.foldl (fun x c => x ^^^ charU16 tg c) a = a ^^^ xorBytes l := by
  unfold xorBytes
  induction l generalizing a with
  | nil => simp
  | cons c cs ih =>
    simp only [List.foldl_cons]
    rw [ih (fun d hd => hl d (List.mem_cons_of_mem _ hd)),
      charU16_of_lt tg c (hl c (List.mem_cons_self _ _)),
      foldl_xor_start (fun c => c.toNat) cs (0 ^^^ c.toNat), Nat.zero_xor, Nat.xor_assoc]

/-- With a bound of at most 255 the loop ends and folds the characters from the counter
up to the bound. -/
theorem checksumLoop_eq {F : Type} (tg : Target F) (nmea : List Char)
    (hb : nmea.length - 4 ≤ 255) :
    ∀ (fuel i sum : Nat), nmea.length - 4 - i < fuel →
      checksumLoop tg fuel nmea i sum =
        some (((nmea.drop i).take (nmea.length - 4 - i)).foldl
          (fun x c => x ^^^ charU16 tg c) sum) := by
  intro fuel
  induction fuel with
  | zero => intro i sum h; omega
  | succ n ih =>
    intro i sum h
    unfold checksumLoop
    by_cases hi : i < nmea.length - 4
    · have hmod : (i + 1) % 256 = i + 1 := Nat.mod_eq_of_lt (by omega)
      have hlen : i < nmea.length := by omega
      rw [if_pos hi, hmod, ih (i + 1) _ (by omega)]
      have hd : nmea.drop i = charAt nmea i :: nmea.drop (i + 1) := by
        unfold charAt
        rw [List.getD_eq_getElem _ _ hlen]
        exact List.drop_eq_getElem_cons hlen
      have ht : nmea.length - 4 - i = (nmea.length - 4 - (i + 1)) + 1 := by omega
      rw [hd, ht, List.take_succ_cons, List.foldl_cons]
    · rw [if_neg hi]
      have : nmea.length - 4 - i = 0 := by omega
      simp [this]

/-- With a bound above 255 the 8-bit counter never reaches it: no amount of fuel
lets the loop end. -/
theorem checksumLoop_diverges {F : Type} (tg : Target F) (nmea : List Char)
    (hb : 256 ≤ nmea.length - 4) :
    ∀ (fuel i sum : Nat), i < 256 → checksumLoop tg fuel nmea i sum = none := by
  intro fuel
  induction fuel with
  | zero => intro i sum _; rfl
  | succ n ih =>
    intro i sum hi
    unfold checksumLoop
    rw [if_pos (by omega)]
    exact ih _ _ (Nat.mod_lt _ (by norm_num))

theorem mem_charAt (s : List Char) (i : Nat) (h : i < s.length) : charAt s i ∈ s := by
  unfold charAt
  rw [List.getD_eq_getElem _ _ h]
  exact List.getElem_mem _

/-- The checksum stage on a sentence of 4 to 259 characters, in terms of the
accumulator left by the loop. -/
theorem checksumStage_eq {F : Type} (tg : Target F) (fuel : Nat) (s : List Char)
    (hbytes : ∀ c ∈ s, c.toNat < 256) (h4 : 4 ≤ s.length) (h259 : s.length ≤ 259)
    (hfuel : 256 ≤ fuel) :
    checksumStage tg fuel s =
      if charAt s (s.length - 4) ≠ '*' then some .reject
      else if ((s.drop 2).take (s.length - 6)).foldl (fun x c => x ^^^ charU16 tg c)
          (16 * specHex (charAt s (s.length - 3)) + specHex (charAt s (s.length - 2))) ≠ 0
        then some .reject else some .pass := by
  unfold checksumStage
  have h1 := specHex_lt (charAt s (s.length - 3))
  have h2 := specHex_lt (charAt s (s.length - 2))
  rw [if_neg (by omega)]
  by_cases hstar : charAt s (s.length - 4) = '*'
  · rw [if_neg (by simpa using hstar), if_neg (by simpa using hstar)]
    rw [parseHex_eq_specHex tg _ (hbytes _ (mem_charAt s _ (by omega))),
      parseHex_eq_specHex tg _ (hbytes _ (mem_charAt s _ (by omega)))]
    have hs : (specHex (charAt s (s.length - 3)) * 16 % 65536 +
        specHex (charAt s (s.length - 2))) % 65536 =
        16 * specHex (charAt s (s.length - 3)) + specHex (charAt s (s.length - 2)) := by
      omega
    simp only [hs]
    rw [checksumLoop_eq tg s (by omega) fuel 2 _ (by omega)]
    have : s.length - 4 - 2 = s.length - 6 := by omega
    rw [this]
  · rw [if_pos hstar, if_pos hstar]

/-- C1. For every sentence of 7-bit characters with 4 to 259 characters and
enough fuel for the loop, the checksum stage of `parse` passes exactly when the
character four before the end is `*` and the XOR of the characters from offset
2 up to the `*` equals `16 * hex + hex` of the two characters after it; when
the condition fails `parse` returns false with the state untouched, and when it
holds `parse` returns what the dispatcher returns. -/
theorem parse_checksum_iff {F : Type} (tg : Target F) (fuel : Nat) (st : State F)
    (s : List Char) (hascii : ∀ c ∈ s, c.toNat < 128) (h4 : 4 ≤ s.length)
    (h259 : s.length ≤ 259) (hfuel : 256 ≤ fuel) :
    (checksumStage tg fuel s = some .pass ↔ SpecChecksumOk s) ∧
    parse tg fuel st s =
      some (if SpecChecksumOk s then dispatch tg st s else .ret false st) := by
  have hstage := checksumStage_eq tg fuel s (fun c hc => by have := hascii c hc; omega)
    h4 h259 hfuel
  have hsub : ∀ c ∈ (s.drop 2).take (s.length - 6), c.toNat < 128 := fun c hc =>
    hascii c (List.mem_of_mem_drop (List.mem_of_mem_take hc))
  rw [foldl_charU16_ascii tg _ hsub] at hstage
  have hiff : checksumStage tg fuel s = some .pass ↔ SpecChecksumOk s := by
    rw [hstage]
    unfold SpecChecksumOk
    by_cases hstar : charAt s (s.length - 4) = '*'
    · by_cases hx : xorBytes ((s.drop 2).take (s.length - 6)) =
          16 * specHex (charAt s (s.length - 3)) + specHex (charAt s (s.length - 2))
      · simp [hstar, hx]
      · have : ¬ ((16 * specHex (charAt s (s.length - 3)) + specHex (charAt s (s.length - 2)))
            ^^^ xorBytes ((s.drop 2).take (s.length - 6)) = 0) := by
          rw [Nat.xor_eq_zero]; exact fun h => hx h.symm
        simp [hstar, hx, this]
    · simp [hstar]
  refine ⟨hiff, ?_⟩
  unfold parse
  by_cases hok : SpecChecksumOk s
  · rw [hiff.mpr hok, if_pos hok]
  · rw [if_neg hok]
    have hne : checksumStage tg fuel s ≠ some .pass := fun h => hok (hiff.mp h)
    rw [hstage] at hne ⊢
    split_ifs at hne ⊢ <;> first | rfl | (exfalso; exact hne rfl)

/-- The sample fix-data sentence of the specification as `parse` receives it from the line
assembler: the stored line feed first, the carriage return last. -/
theorem parse_checksum_iff_witness :
    (checksumStage decimalTarget 256
        "\n$GPGGA,123519,4807.038,N,01131.000,E,1,08,0.9,545.4,M,46.9,M,,*47\r".toList
        = some .pass ↔
      SpecChecksumOk
        "\n$GPGGA,123519,4807.038,N,01131.000,E,1,08,0.9,545.4,M,46.9,M,,*47\r".toList) ∧
    parse decimalTarget 256 (common_init decimalTarget)
        "\n$GPGGA,123519,4807.038,N,01131.000,E,1,08,0.9,545.4,M,46.9,M,,*47\r".toList =
      some (if SpecChecksumOk
          "\n$GPGGA,123519,4807.038,N,01131.000,E,1,08,0.9,545.4,M,46.9,M,,*47\r".toList
        then dispatch decimalTarget (common_init decimalTarget)
          "\n$GPGGA,123519,4807.038,N,01131.000,E,1,08,0.9,545.4,M,46.9,M,,*47\r".toList
        else .ret false (common_init decimalTarget)) :=
  parse_checksum_iff decimalTarget 256 (common_init decimalTarget)
    "\n$GPGGA,123519,4807.038,N,01131.000,E,1,08,0.9,545.4,M,46.9,M,,*47\r".toList
    (by decide) (by decide) (by decide) (by decide)

set_option maxRecDepth 100000 in
/-- C2 as stated fails. The 260-character sentence `longSentence` has `*` four
before its end and a checksum that does not match, yet `parse` never returns on
it: whatever the fuel, the checksum loop does not end, because its 8-bit counter
wraps around before reaching the bound 256. -/
theorem parse_long_sentence_never_returns :
    4 ≤ longSentence.length ∧ ¬ SpecChecksumOk longSentence ∧
    ∀ fuel, parse decimalTarget fuel (common_init decimalTarget) longSentence = none := by
  refine ⟨by decide, by decide, ?_⟩
  intro fuel
  have hloop := checksumLoop_diverges decimalTarget longSentence (by decide) fuel 2
  unfold parse checksumStage
  rw [if_neg (by decide), if_neg (by decide)]
  simp only [hloop _ (by norm_num)]

/-- C2, amended. For every sentence of 4 to 259 bytes, every prior state
and enough fuel for the loop: when the checksum condition of the specification
fails, `parse` returns false and the state is the prior state. -/
theorem parse_checksum_failure_atomic {F : Type} (tg : Target F) (fuel : Nat) (st : State F)
    (s : List Char) (hbytes : ∀ c ∈ s, c.toNat < 256) (h4 : 4 ≤ s.length)
    (h259 : s.length ≤ 259) (hfuel : 256 ≤ fuel) (hfail : ¬ SpecChecksumOk s) :
    parse tg fuel st s = some (.ret false st) := by
  have hstage := checksumStage_eq tg fuel s hbytes h4 h259 hfuel
  unfold parse
  rw [hstage]
  by_cases hstar : charAt s (s.length - 4) = '*'
  · have hx : xorBytes ((s.drop 2).take (s.length - 6)) ≠
        16 * specHex (charAt s (s.length - 3)) + specHex (charAt s (s.length - 2)) :=
      fun h => hfail ⟨hstar, h⟩
    have hsub : ∀ c ∈ (s.drop 2).take (s.length - 6), c.toNat < 256 := fun c hc =>
      hbytes c (List.mem_of_mem_drop (List.mem_of_mem_take hc))
    have hmod := foldl_charU16_mod tg _ hsub
      (16 * specHex (charAt s (s.length - 3)) + specHex (charAt s (s.length - 2)))
    have h1 := specHex_lt (charAt s (s.length - 3))
    have h2 := specHex_lt (charAt s (s.length - 2))
    have hne : ((s.drop 2).take (s.length - 6)).foldl (fun x c => x ^^^ charU16 tg c)
        (16 * specHex (charAt s (s.length - 3)) + specHex (charAt s (s.length - 2))) ≠ 0 := by
      intro h0
      rw [h0, Nat.mod_eq_of_lt (by omega : 16 * specHex (charAt s (s.length - 3)) +
        specHex (charAt s (s.length - 2)) < 256)] at hmod
      exact hx (Nat.xor_eq_zero.mp hmod.symm).symm
    rw [if_neg (by simpa using hstar), if_pos hne]
  · rw [if_pos hstar]

/-- A fix-data sentence whose checksum digits are wrong is rejected without any change. -/
theorem parse_checksum_failure_atomic_witness :
    parse decimalTarget 256 (common_init decimalTarget)
        "\n$GPGGA,123519,4807.038,N,01131.000,E,1,08,0.9,545.4,M,46.9,M,,*48\r".toList =
      some (.ret false (common_init decimalTarget)) :=
  parse_checksum_failure_atomic decimalTarget 256 (common_init decimalTarget)
    "\n$GPGGA,123519,4807.038,N,01131.000,E,1,08,0.9,545.4,M,46.9,M,,*48\r".toList
    (by decide) (by decide) (by decide) (by decide) (by decide)

/-! ## Dispatcher -/

/-- The search `strstr` finds something exactly when the needle is a contiguous part of the string. -/
theorem strstr_isSome_iff (hay needle : List Char) :
    (strstr hay needle).isSome = true ↔ needle <:+: hay := by
  induction hay with
  | nil =>
    unfold strstr
    cases needle <;> simp
  | cons c cs ih =>
    unfold strstr
    by_cases hp : needle.isPrefixOf (c :: cs) = true
    · rw [if_pos hp]
      simp only [Option.isSome_some, true_iff]
      exact (List.isPrefixOf_iff_prefix.mp hp).isInfix
    · rw [if_neg hp, ih, List.infix_cons_iff]
      constructor
      · exact fun h => Or.inr h
      · rintro (h | h)
        · exact absurd (List.isPrefixOf_iff_prefix.mpr h) hp
        · exact h

/-- C3. For every sentence on which the checksum stage of `parse` passes and
which contains none of the identifiers `$GPGGA`, `$GPRMC`, `$PGTOP`, `$GPGSV`,
`$GPGSA` as a contiguous part, `parse` returns false and the navigation state
is the prior state. -/
theorem parse_unrecognized_ignored {F : Type} (tg : Target F) (fuel : Nat) (st : State F)
    (s : List Char) (hpass : checksumStage tg fuel s = some .pass)
    (hnone : ∀ ident ∈ identifiers, ¬ ident <:+: s) :
    parse tg fuel st s = some (.ret false st) := by
  have hno : ∀ ident ∈ identifiers, (strstr s ident).isSome = false := by
    intro ident hi
    have := hnone ident hi
    rw [← strstr_isSome_iff] at this
    simpa using this
  unfold parse dispatch
  rw [hpass]
  simp only [identifiers, List.mem_cons, List.mem_singleton, List.not_mem_nil, or_false,
    forall_eq_or_imp, forall_eq] at hno
  obtain ⟨h1, h2, h3, h4, h5⟩ := hno
  simp only [h1, h2, h3, h4, h5, Bool.false_eq_true, if_false]

/-- A checksum-valid sentence of an unknown type is ignored. -/
theorem parse_unrecognized_ignored_witness :
    parse decimalTarget 256 (common_init decimalTarget) "\n$XXYYY,1,2*5A\r".toList =
      some (.ret false (common_init decimalTarget)) :=
  parse_unrecognized_ignored decimalTarget 256 (common_init decimalTarget)
    "\n$XXYYY,1,2*5A\r".toList (by decide) (by decide)

/-! ## Angle decoder -/

theorem isdigit_iff (c : Char) : isdigit c = true ↔ 48 ≤ c.toNat ∧ c.toNat ≤ 57 := by
  unfold isdigit; simp

theorem isspace_of_isdigit {c : Char} (h : isdigit c = true) : isspace c = false := by
  rw [isdigit_iff] at h
  unfold isspace
  have h1 : ¬ c.toNat = 32 := by omega
  have h2 : ¬ c.toNat ≤ 13 := by omega
  simp [h1, h2]

theorem ne_of_isdigit {c d : Char} (h : isdigit c = true) (hd : isdigit d = false) : c ≠ d := by
  rintro rfl; rw [h] at hd; exact absurd hd (by decide)

/-- On a string that starts with a digit `atol` reads the digit run. -/
theorem atol_of_isdigit {c : Char} (cs : List Char) (h : isdigit c = true) :
    atol (c :: cs) = (digitsValue 0 (c :: cs) : Int) := by
  unfold atol
  rw [List.dropWhile_cons_of_neg (by simp [isspace_of_isdigit h])]
  simp only
  rw [if_neg (ne_of_isdigit h (by decide)), if_neg (ne_of_isdigit h (by decide))]

theorem wrap32_of_range {x : Int} (h1 : -2147483648 ≤ x) (h2 : x < 2147483648) :
    wrap32 x = x := by
  unfold wrap32; omega

theorem list_of_six_le (buf : List Char) (h6 : 6 ≤ buf.length) :
    ∃ c0 c1 c2 c3 c4 c5 r, buf = c0 :: c1 :: c2 :: c3 :: c4 :: c5 :: r := by
  match buf, h6 with
  | c0 :: c1 :: c2 :: c3 :: c4 :: c5 :: r, _ => exact ⟨c0, c1, c2, c3, c4, c5, r, rfl⟩

theorem digitsValue_zero_cons (cs : List Char) :
    digitsValue 0 ('0' :: cs) = digitsValue 0 cs := by
  rw [digitsValue, if_pos (by decide)]
  have h : 10 * 0 + ('0'.toNat - 48) = 0 := by decide
  rw [h]

/-- The angle decoder in the two-digit-degree layout, when the four characters before the
point are digits and the result fits `int32_t`. -/
theorem decode_angle_layout4 (buf : List Char) (a b : Int) (h6 : 6 ≤ buf.length)
    (hdot : charAt buf 4 = '.') (hdig : ∀ i < 4, isdigit (charAt buf i) = true)
    (hfit : atol (buf.take 2) * 10000000 +
      50 * atol ((buf.drop 2).take 2 ++ (buf.drop 5).take 4) / 3 < 2147483648) :
    decode_angle buf a b =
      (true,
       atol (buf.take 2) * 10000000 + 10 * atol ((buf.drop 2).take 2 ++ (buf.drop 5).take 4),
       atol (buf.take 2) * 10000000 +
         50 * atol ((buf.drop 2).take 2 ++ (buf.drop 5).take 4) / 3) := by
  obtain ⟨c0, c1, c2, c3, c4, c5, r, rfl⟩ := list_of_six_le buf h6
  have h0 : isdigit c0 = true := by simpa [charAt] using hdig 0 (by norm_num)
  have h2 : isdigit c2 = true := by simpa [charAt] using hdig 2 (by norm_num)
  have hdot4 : c4 = '.' := by simpa [charAt] using hdot
  subst hdot4
  unfold decode_angle
  simp only [List.length_cons, charAt, List.getD_cons_succ, List.getD_cons_zero,
    List.take_succ_cons, List.take_zero, List.drop_succ_cons, List.drop_zero, if_true,
    List.cons_append, List.nil_append] at hfit ⊢
  rw [if_neg (by omega)]
  have hD : atol ('0' :: [c0, c1]) = atol [c0, c1] := by
    rw [atol_of_isdigit _ (by decide), atol_of_isdigit _ h0, digitsValue_zero_cons]
  rw [hD]
  rw [atol_of_isdigit _ h0, atol_of_isdigit _ h2] at hfit ⊢
  generalize digitsValue 0 [c0, c1] = D at hfit ⊢
  generalize digitsValue 0 (c2 :: c3 :: c5 :: List.take 3 r) = M at hfit ⊢
  have htd : (50 * (M : Int)).tdiv 3 = 50 * (M : Int) / 3 :=
    Int.tdiv_eq_ediv (by omega) (by norm_num)
  rw [htd, wrap32_of_range (x := (D : Int) * 10000000) (by omega) (by omega),
    wrap32_of_range (by omega) (by omega), wrap32_of_range (by omega) (by omega)]
  simp only [Prod.mk.injEq, true_and, and_true]
  ring

/-- The angle decoder in the three-digit-degree layout, when the five characters before the
point are digits and the result fits `int32_t`. -/
theorem decode_angle_layout5 (buf : List Char) (a b : Int) (h6 : 6 ≤ buf.length)
    (hdot : charAt buf 5 = '.') (hdig : ∀ i < 5, isdigit (charAt buf i) = true)
    (hfit : atol (buf.take 3) * 10000000 +
      50 * atol ((buf.drop 3).take 2 ++ (buf.drop 6).take 4) / 3 < 2147483648) :
    decode_angle buf a b =
      (true,
       atol (buf.take 3) * 10000000 + 10 * atol ((buf.drop 3).take 2 ++ (buf.drop 6).take 4),
       atol (buf.take 3) * 10000000 +
         50 * atol ((buf.drop 3).take 2 ++ (buf.drop 6).take 4) / 3) := by
  obtain ⟨c0, c1, c2, c3, c4, c5, r, rfl⟩ := list_of_six_le buf h6
  have h0 : isdigit c0 = true := by simpa [charAt] using hdig 0 (by norm_num)
  have h3 : isdigit c3 = true := by simpa [charAt] using hdig 3 (by norm_num)
  have h4 : isdigit c4 = true := by simpa [charAt] using hdig 4 (by norm_num)
  have hdot5 : c5 = '.' := by simpa [charAt] using hdot
  subst hdot5
  have hne : c4 ≠ '.' := ne_of_isdigit h4 (by decide)
  unfold decode_angle
  simp only [List.length_cons, charAt, List.getD_cons_succ, List.getD_cons_zero,
    List.take_succ_cons, List.take_zero, List.drop_succ_cons, List.drop_zero, if_true,
    List.cons_append, List.nil_append, if_neg hne] at hfit ⊢
  rw [if_neg (by omega)]
  rw [atol_of_isdigit _ h0, atol_of_isdigit _ h3] at hfit ⊢
  generalize digitsValue 0 [c0, c1, c2] = D at hfit ⊢
  generalize digitsValue 0 (c3 :: c4 :: List.take 4 r) = M at hfit ⊢
  have htd : (50 * (M : Int)).tdiv 3 = 50 * (M : Int) / 3 :=
    Int.tdiv_eq_ediv (by omega) (by norm_num)
  rw [htd, wrap32_of_range (x := (D : Int) * 10000000) (by omega) (by omega),
    wrap32_of_range (by omega) (by omega), wrap32_of_range (by omega) (by omega)]
  simp only [Prod.mk.injEq, true_and, and_true]
  ring

/-- C6 as stated fails. The input `48-0.0001` has 9 characters and a point at
offset 4; its first two characters have the integer value 48 and the six minute
characters `-00001` the integer value -1, so the claim gives
`48 * 10^7 + floor(50 * (-1) / 3) = 479999983` for the degrees-scaled output;
the decoder, whose division truncates toward zero, gives 479999984. -/
theorem decode_angle_negative_minutes :
    6 ≤ "48-0.0001".toList.length ∧ charAt "48-0.0001".toList 4 = '.' ∧
    atol ("48-0.0001".toList.take 2) = 48 ∧
    atol (("48-0.0001".toList.drop 2).take 2 ++ ("48-0.0001".toList.drop 5).take 4) = -1 ∧
    (48 : Int) * 10 ^ 7 + 50 * (-1) / 3 = 479999983 ∧
    decode_angle "48-0.0001".toList 0 0 = (true, 479999990, 479999984) := by
  decide

/-- C6, amended. For every input of at least 6 characters with `.` at offset
4 (resp. offset 5) in which the characters before the `.` are decimal digits:
with `D` the integer value of the first 2 (resp. 3) characters and `M` the
integer value of the two characters before the `.` followed by the up to four
characters after it, and the results fitting `int32_t`, `decode_angle` succeeds
with degrees-minute-scaled `D * 10^7 + 10 * M` and degrees-scaled
`D * 10^7 + floor(50 * M / 3)`, whatever the output cells held before. -/
theorem decode_angle_formula (buf : List Char) (a b : Int) (h6 : 6 ≤ buf.length) :
    (charAt buf 4 = '.' → (∀ i < 4, isdigit (charAt buf i) = true) →
      atol (buf.take 2) * 10 ^ 7 +
        50 * atol ((buf.drop 2).take 2 ++ (buf.drop 5).take 4) / 3 < 2 ^ 31 →
      decode_angle buf a b =
        (true,
         atol (buf.take 2) * 10 ^ 7 + 10 * atol ((buf.drop 2).take 2 ++ (buf.drop 5).take 4),
         atol (buf.take 2) * 10 ^ 7 +
           50 * atol ((buf.drop 2).take 2 ++ (buf.drop 5).take 4) / 3)) ∧
    (charAt buf 5 = '.' → (∀ i < 5, isdigit (charAt buf i) = true) →
      atol (buf.take 3) * 10 ^ 7 +
        50 * atol ((buf.drop 3).take 2 ++ (buf.drop 6).take 4) / 3 < 2 ^ 31 →
      decode_angle buf a b =
        (true,
         atol (buf.take 3) * 10 ^ 7 + 10 * atol ((buf.drop 3).take 2 ++ (buf.drop 6).take 4),
         atol (buf.take 3) * 10 ^ 7 +
           50 * atol ((buf.drop 3).take 2 ++ (buf.drop 6).take 4) / 3)) := by
  have e7 : (10 : Int) ^ 7 = 10000000 := by norm_num
  have e31 : (2 : Int) ^ 31 = 2147483648 := by norm_num
  rw [e7, e31]
  exact ⟨fun hdot hdig hfit => decode_angle_layout4 buf a b h6 hdot hdig hfit,
    fun hdot hdig hfit => decode_angle_layout5 buf a b h6 hdot hdig hfit⟩

/-- Both layouts on sample fields: latitude `4807.0380` and longitude `01131.0000`. -/
theorem decode_angle_formula_witness :
    decode_angle "4807.0380,N".toList 0 0 = (true, 480703800, 481173000) ∧
    decode_angle "01131.0000,E".toList 0 0 = (true, 113100000, 115166666) :=
  ⟨(decode_angle_formula "4807.0380,N".toList 0 0 (by decide)).1 (by decide) (by decide)
      (by decide),
   (decode_angle_formula "01131.0000,E".toList 0 0 (by decide)).2 (by decide) (by decide)
      (by decide)⟩

/-! ## Latitude and longitude -/

/-- The sub-decoder `parse_latitude_longitude` writes the four angle cells only. -/
theorem parse_latitude_longitude_frame {F : Type} (st : State F) (p : List Char) :
    ∃ a b c d : Int, (parse_latitude_longitude st p).2.2 =
      { st with latitude_degree_minute := a, latitude_degree := b,
                longitude_degree_minute := c, longitude_degree := d } := by
  unfold parse_latitude_longitude
  split
  · exact ⟨_, _, _, _, rfl⟩
  · try dsimp only
    split
    · exact ⟨_, _, _, _, rfl⟩
    · split
      · exact ⟨_, _, _, _, rfl⟩
      · try dsimp only
        split
        · exact ⟨_, _, _, _, rfl⟩
        · split
          · exact ⟨_, _, _, _, rfl⟩
          · try dsimp only
            split
            · exact ⟨_, _, _, _, rfl⟩
            · split
              · exact ⟨_, _, _, _, rfl⟩
              · exact ⟨_, _, _, _, rfl⟩

theorem angleBlock_of_decodes (a : List Char) (dm d : Int) (ha : deref a ≠ ',') :
    angleBlock a dm d = decode_angle a dm d := by
  unfold angleBlock
  rw [if_pos ha]

theorem hemisphereBlock_neg (h : List Char) (neg pos : Char) (dm d : Int)
    (hn : deref h = neg) (hc : neg ≠ ',') :
    hemisphereBlock h neg pos dm d = (true, wrap32 (-dm), wrap32 (-d)) := by
  unfold hemisphereBlock
  simp [hn, hc]

theorem hemisphereBlock_pos (h : List Char) (neg pos : Char) (dm d : Int)
    (hp : deref h = pos ∨ deref h = ',') (hn : deref h ≠ neg) :
    hemisphereBlock h neg pos dm d = (true, dm, d) := by
  unfold hemisphereBlock
  by_cases hc : deref h = ','
  · rw [if_neg (not_not.mpr hc)]
  · have hp' : deref h = pos := hp.resolve_right hc
    rw [if_pos hc]
    simp only [if_neg hn]
    rw [if_neg (fun h => h.1 hp')]

theorem hemisphereBlock_other (h : List Char) (neg pos : Char) (dm d : Int)
    (hn : deref h ≠ neg) (hp : deref h ≠ pos) (hc : deref h ≠ ',') :
    hemisphereBlock h neg pos dm d = (false, dm, d) := by
  unfold hemisphereBlock
  simp [hn, hp, hc]

/-- The latitude cells are settled once the latitude hemisphere has been handled: with the
cursor at an angle field that decodes and a hemisphere field after it, the call leaves the
decoded values, negated after `S`, and fails on a letter other than `N`, `S`. -/
theorem parse_latitude_longitude_lat {F : Type} (st : State F) (p a h : List Char)
    (hp : next_data p = some a) (ha : deref a ≠ ',')
    (hdec : (decode_angle a st.latitude_degree_minute st.latitude_degree).1 = true)
    (hh : next_data a = some h) :
    (deref h = 'S' →
      (parse_latitude_longitude st p).2.2.latitude_degree =
        wrap32 (-(decode_angle a st.latitude_degree_minute st.latitude_degree).2.2) ∧
      (parse_latitude_longitude st p).2.2.latitude_degree_minute =
        wrap32 (-(decode_angle a st.latitude_degree_minute st.latitude_degree).2.1)) ∧
    (deref h = 'N' ∨ deref h = ',' →
      (parse_latitude_longitude st p).2.2.latitude_degree =
        (decode_angle a st.latitude_degree_minute st.latitude_degree).2.2 ∧
      (parse_latitude_longitude st p).2.2.latitude_degree_minute =
        (decode_angle a st.latitude_degree_minute st.latitude_degree).2.1) ∧
    (deref h ≠ 'S' → deref h ≠ 'N' → deref h ≠ ',' →
      (parse_latitude_longitude st p).1 = false) := by
  unfold parse_latitude_longitude
  simp only [hp, hh, angleBlock_of_decodes a _ _ ha, hdec, Bool.not_true, Bool.false_eq_true,
    if_false]
  refine ⟨?_, ?_, ?_⟩
  · intro hS
    rw [hemisphereBlock_neg h 'S' 'N' _ _ hS (by decide)]
    simp only [Bool.not_true, Bool.false_eq_true, if_false]
    repeat' split
    all_goals exact ⟨rfl, rfl⟩
  · intro hN
    rw [hemisphereBlock_pos h 'S' 'N' _ _ hN (by rcases hN with hN | hN <;> rw [hN] <;> decide)]
    simp only [Bool.not_true, Bool.false_eq_true, if_false]
    repeat' split
    all_goals exact ⟨rfl, rfl⟩
  · intro hS hN hc
    rw [hemisphereBlock_other h 'S' 'N' _ _ hS hN hc]
    simp

/-- The whole path through `parse_latitude_longitude`: both angle fields decode, the latitude
hemisphere is `N`, `S` or empty, and all four fields are followed by a further field. The
cursor ends at the longitude hemisphere, and the call succeeds unless that field starts with a
character other than `E`, `W`. -/
theorem parse_latitude_longitude_path {F : Type} (st : State F) (p a h b g : List Char)
    (hp : next_data p = some a) (ha : deref a ≠ ',')
    (hdec : (decode_angle a st.latitude_degree_minute st.latitude_degree).1 = true)
    (hh : next_data a = some h) (hhem : deref h = 'N' ∨ deref h = 'S' ∨ deref h = ',')
    (hb : next_data h = some b) (hbne : deref b ≠ ',')
    (hdecb : (decode_angle b st.longitude_degree_minute st.longitude_degree).1 = true)
    (hg : next_data b = some g) :
    parse_latitude_longitude st p =
      (decide (deref g = 'E' ∨ deref g = 'W' ∨ deref g = ','), some g,
        { st with
          latitude_degree_minute :=
            if deref h = 'S' then
              wrap32 (-(decode_angle a st.latitude_degree_minute st.latitude_degree).2.1)
            else (decode_angle a st.latitude_degree_minute st.latitude_degree).2.1,
          latitude_degree :=
            if deref h = 'S' then
              wrap32 (-(decode_angle a st.latitude_degree_minute st.latitude_degree).2.2)
            else (decode_angle a st.latitude_degree_minute st.latitude_degree).2.2,
          longitude_degree_minute :=
            if deref g = 'W' then
              wrap32 (-(decode_angle b st.longitude_degree_minute st.longitude_degree).2.1)
            else (decode_angle b st.longitude_degree_minute st.longitude_degree).2.1,
          longitude_degree :=
            if deref g = 'W' then
              wrap32 (-(decode_angle b st.longitude_degree_minute st.longitude_degree).2.2)
            else (decode_angle b st.longitude_degree_minute st.longitude_degree).2.2 }) := by
  have hlat : hemisphereBlock h 'S' 'N'
      (decode_angle a st.latitude_degree_minute st.latitude_degree).2.1
      (decode_angle a st.latitude_degree_minute st.latitude_degree).2.2 =
      (true,
        if deref h = 'S' then
          wrap32 (-(decode_angle a st.latitude_degree_minute st.latitude_degree).2.1)
        else (decode_angle a st.latitude_degree_minute st.latitude_degree).2.1,
        if deref h = 'S' then
          wrap32 (-(decode_angle a st.latitude_degree_minute st.latitude_degree).2.2)
        else (decode_angle a st.latitude_degree_minute st.latitude_degree).2.2) := by
    by_cases hS : deref h = 'S'
    · rw [hemisphereBlock_neg h 'S' 'N' _ _ hS (by decide), if_pos hS, if_pos hS]
    · rw [hemisphereBlock_pos h 'S' 'N' _ _ (by tauto) hS, if_neg hS, if_neg hS]
  have hlon : hemisphereBlock g 'W' 'E'
      (decode_angle b st.longitude_degree_minute st.longitude_degree).2.1
      (decode_angle b st.longitude_degree_minute st.longitude_degree).2.2 =
      (decide (deref g = 'E' ∨ deref g = 'W' ∨ deref g = ','),
        if deref g = 'W' then
          wrap32 (-(decode_angle b st.longitude_degree_minute st.longitude_degree).2.1)
        else (decode_angle b st.longitude_degree_minute st.longitude_degree).2.1,
        if deref g = 'W' then
          wrap32 (-(decode_angle b st.longitude_degree_minute st.longitude_degree).2.2)
        else (decode_angle b st.longitude_degree_minute st.longitude_degree).2.2) := by
    by_cases hW : deref g = 'W'
    · rw [hemisphereBlock_neg g 'W' 'E' _ _ hW (by decide), if_pos hW, if_pos hW]
      simp [hW]
    · by_cases hE : deref g = 'E' ∨ deref g = ','
      · rw [hemisphereBlock_pos g 'W' 'E' _ _ hE hW, if_neg hW, if_neg hW]
        rcases hE with hE | hE <;> simp [hE]
      · rw [hemisphereBlock_other g 'W' 'E' _ _ hW (by tauto) (by tauto), if_neg hW, if_neg hW]
        have h1 : ¬ deref g = 'E' := by tauto
        have h2 : ¬ deref g = ',' := by tauto
        simp [hW, h1, h2]
  unfold parse_latitude_longitude
  simp only [hp, hh, hb, hg, angleBlock_of_decodes a _ _ ha, angleBlock_of_decodes b _ _ hbne,
    hdec, hdecb, hlat, hlon, Bool.not_true, Bool.false_eq_true, if_false]

/-- C7. With the cursor before a latitude field that decodes and a hemisphere
field after it: a hemisphere starting with `S` leaves both latitude outputs
negated (in `int32_t`), one starting with `N` or empty leaves them as decoded,
and any other first character makes `parse_latitude_longitude` return false.
The same holds for the longitude field with `W` and `E`, once the latitude
hemisphere is `N`, `S` or empty. -/
theorem hemisphere_sign_handling {F : Type} (st : State F) (p a h : List Char)
    (hp : next_data p = some a) (ha : deref a ≠ ',')
    (hdec : (decode_angle a st.latitude_degree_minute st.latitude_degree).1 = true)
    (hh : next_data a = some h) :
    ((deref h = 'S' →
      (parse_latitude_longitude st p).2.2.latitude_degree =
        wrap32 (-(decode_angle a st.latitude_degree_minute st.latitude_degree).2.2) ∧
      (parse_latitude_longitude st p).2.2.latitude_degree_minute =
        wrap32 (-(decode_angle a st.latitude_degree_minute st.latitude_degree).2.1)) ∧
    (deref h = 'N' ∨ deref h = ',' →
      (parse_latitude_longitude st p).2.2.latitude_degree =
        (decode_angle a st.latitude_degree_minute st.latitude_degree).2.2 ∧
      (parse_latitude_longitude st p).2.2.latitude_degree_minute =
        (decode_angle a st.latitude_degree_minute st.latitude_degree).2.1) ∧
    (deref h ≠ 'S' → deref h ≠ 'N' → deref h ≠ ',' →
      (parse_latitude_longitude st p).1 = false)) ∧
    ∀ b g : List Char, deref h = 'N' ∨ deref h = 'S' ∨ deref h = ',' →
      next_data h = some b → deref b ≠ ',' →
      (decode_angle b st.longitude_degree_minute st.longitude_degree).1 = true →
      next_data b = some g →
      (deref g = 'W' →
        (parse_latitude_longitude st p).2.2.longitude_degree =
          wrap32 (-(decode_angle b st.longitude_degree_minute st.longitude_degree).2.2) ∧
        (parse_latitude_longitude st p).2.2.longitude_degree_minute =
          wrap32 (-(decode_angle b st.longitude_degree_minute st.longitude_degree).2.1)) ∧
      (deref g = 'E' ∨ deref g = ',' →
        (parse_latitude_longitude st p).2.2.longitude_degree =
          (decode_angle b st.longitude_degree_minute st.longitude_degree).2.2 ∧
        (parse_latitude_longitude st p).2.2.longitude_degree_minute =
          (decode_angle b st.longitude_degree_minute st.longitude_degree).2.1) ∧
      (deref g ≠ 'W' → deref g ≠ 'E' → deref g ≠ ',' →
        (parse_latitude_longitude st p).1 = false) := by
  refine ⟨parse_latitude_longitude_lat st p a h hp ha hdec hh, ?_⟩
  intro b g hhem hb hbne hdecb hg
  rw [parse_latitude_longitude_path st p a h b g hp ha hdec hh hhem hb hbne hdecb hg]
  refine ⟨?_, ?_, ?_⟩
  · intro hW
    simp [hW]
  · rintro (hE | hE)
    · simp only [hE]
      simp
    · simp only [hE]
      simp
  · intro hW hE hc
    simp [hW, hE, hc]

/-- A southern latitude and a western longitude: all four outputs are negated. -/
theorem hemisphere_sign_handling_witness :
    (parse_latitude_longitude (common_init decimalTarget)
        "123519,4807.0380,S,01131.0000,W,1".toList).2.2.latitude_degree = -481173000 ∧
    (parse_latitude_longitude (common_init decimalTarget)
        "123519,4807.0380,S,01131.0000,W,1".toList).2.2.latitude_degree_minute = -480703800 ∧
    (parse_latitude_longitude (common_init decimalTarget)
        "123519,4807.0380,S,01131.0000,W,1".toList).2.2.longitude_degree = -115166666 ∧
    (parse_latitude_longitude (common_init decimalTarget)
        "123519,4807.0380,S,01131.0000,W,1".toList).2.2.longitude_degree_minute = -113100000 :=
  have T := hemisphere_sign_handling (common_init decimalTarget)
    "123519,4807.0380,S,01131.0000,W,1".toList "4807.0380,S,01131.0000,W,1".toList
    "S,01131.0000,W,1".toList (by decide) (by decide) (by decide) (by decide)
  have L := T.2 "01131.0000,W,1".toList "W,1".toList (by decide) (by decide) (by decide)
    (by decide) (by decide)
  ⟨(T.1.1 (by decide)).1, (T.1.1 (by decide)).2, (L.1 (by decide)).1, (L.1 (by decide)).2⟩

/-! ## Tokenizer steps over fields -/

theorem strchr_append_comma (f t : List Char) (hf : ',' ∉ f) :
    strchr (f ++ ',' :: t) ',' = some (',' :: t) := by
  induction f with
  | nil => simp [strchr]
  | cons c cs ih =>
    have hc : c ≠ ',' := fun h => hf (by simp [h])
    have hcs : ',' ∉ cs := fun h => hf (List.mem_cons_of_mem _ h)
    simp only [List.cons_append, strchr, if_neg hc]
    exact ih hcs

/-- From inside a field, `next_data` moves to the start of the following field, provided
something follows the comma. -/
theorem next_data_field (f : List Char) (c : Char) (r : List Char) (hf : ',' ∉ f)
    (hc : c ≠ nul) : next_data (f ++ ',' :: c :: r) = some (c :: r) := by
  unfold next_data
  rw [strchr_append_comma f _ hf]
  simp [deref, hc]

theorem isdigit_ne_nul {c : Char} (h : isdigit c = true) : c ≠ nul :=
  ne_of_isdigit h (by decide)

theorem isdigit_ne_comma {c : Char} (h : isdigit c = true) : c ≠ ',' :=
  ne_of_isdigit h (by decide)

theorem isdigit_ne_dot {c : Char} (h : isdigit c = true) : c ≠ '.' :=
  ne_of_isdigit h (by decide)

/-- The angle decoder on a field `ddmm.mmmm` of digits, whatever follows the field. -/
theorem decode_angle_ddmm (c0 c1 c2 c3 f1 f2 f3 f4 : Char) (r : List Char) (a b : Int)
    (h0 : isdigit c0 = true) (h1 : isdigit c1 = true) (h2 : isdigit c2 = true)
    (h3 : isdigit c3 = true) (g1 : isdigit f1 = true) (g2 : isdigit f2 = true)
    (g3 : isdigit f3 = true) (g4 : isdigit f4 = true) :
    decode_angle (c0 :: c1 :: c2 :: c3 :: '.' :: f1 :: f2 :: f3 :: f4 :: r) a b =
      (true,
       (digitsValue 0 [c0, c1] : Int) * 10000000 +
         10 * (digitsValue 0 [c2, c3, f1, f2, f3, f4] : Int),
       (digitsValue 0 [c0, c1] : Int) * 10000000 +
         50 * (digitsValue 0 [c2, c3, f1, f2, f3, f4] : Int) / 3) ∧
    digitsValue 0 [c0, c1] ≤ 99 ∧ digitsValue 0 [c2, c3, f1, f2, f3, f4] ≤ 999999 := by
  have hD : digitsValue 0 [c0, c1] ≤ 99 := by
    rw [isdigit_iff] at h0 h1
    simp only [digitsValue, isdigit_iff, h0, h1, and_self, if_true]
    omega
  have hM : digitsValue 0 [c2, c3, f1, f2, f3, f4] ≤ 999999 := by
    rw [isdigit_iff] at h2 h3 g1 g2 g3 g4
    simp only [digitsValue, isdigit_iff, h2, h3, g1, g2, g3, g4, and_self, if_true]
    omega
  refine ⟨?_, hD, hM⟩
  have key := decode_angle_layout4 (c0 :: c1 :: c2 :: c3 :: '.' :: f1 :: f2 :: f3 :: f4 :: r)
    a b (by simp) (by simp [charAt])
    (by
      intro i hi
      interval_cases i <;> simp [charAt, h0, h1, h2, h3])
  have hA : atol (List.take 2 (c0 :: c1 :: c2 :: c3 :: '.' :: f1 :: f2 :: f3 :: f4 :: r)) =
      (digitsValue 0 [c0, c1] : Int) := by
    simp only [List.take_succ_cons, List.take_zero]
    exact atol_of_isdigit _ h0
  have hB : atol (List.take 2 (List.drop 2
        (c0 :: c1 :: c2 :: c3 :: '.' :: f1 :: f2 :: f3 :: f4 :: r)) ++
      List.take 4 (List.drop 5 (c0 :: c1 :: c2 :: c3 :: '.' :: f1 :: f2 :: f3 :: f4 :: r))) =
      (digitsValue 0 [c2, c3, f1, f2, f3, f4] : Int) := by
    simp only [List.take_succ_cons, List.take_zero, List.drop_succ_cons, List.drop_zero,
      List.cons_append, List.nil_append]
    exact atol_of_isdigit _ h2
  rw [hA, hB] at key
  exact key (by omega)

/-- The degrees-scaled value of the decoder is the floor of the decimal degrees times `10^7`. -/
theorem floor_degrees (D M : Nat) :
    ⌊((D : ℚ) + (M : ℚ) / 10000 / 60) * 10 ^ 7⌋ = (D : Int) * 10000000 + 50 * (M : Int) / 3 := by
  have h : ((D : ℚ) + (M : ℚ) / 10000 / 60) * 10 ^ 7 =
      (((3 * (D : Int) * 10000000 + 50 * (M : Int) : Int) : ℚ)) / ((3 : ℕ) : ℚ) := by
    push_cast
    ring
  rw [h, Rat.floor_intCast_div_natCast]
  omega

/-- C5 as stated fails. On the sample field `4807.038` (three fraction digits)
with hemisphere `N` the degrees-scaled latitude is 480117300, while
`(48 + 07.038 / 60) * 10^7` is 481173000: the decoder copies four characters
after the point, so the comma ends the minute digits and the minutes are read
as 0.7038. -/
theorem latitude_three_fraction_digits :
    (parse_latitude_longitude (common_init decimalTarget)
        "$GPGGA,4807.038,N,01131.000,E".toList).2.2.latitude_degree = 480117300 ∧
    ⌊((48 : ℚ) + 7.038 / 60) * 10 ^ 7⌋ = 481173000 ∧
    ¬ |(480117300 : Int) - 481173000| ≤ 1 := by
  refine ⟨by decide, ?_, by decide⟩
  have h : ((48 : ℚ) + 7.038 / 60) * 10 ^ 7 = ((481173000 : Int) : ℚ) := by norm_num
  rw [h, Int.floor_intCast]

/-- C5, amended. For every latitude field of the form `ddmm.mmmm` (two degree
digits, two minute digits, `.`, four fractional-minute digits) followed by
hemisphere `N`, the degrees-scaled latitude is the floor of
`(dd + mm.mmmm / 60) * 10^7` and is non-negative; with hemisphere `S` both
latitude outputs are the negation of the `N` outputs. -/
theorem latitude_degrees_scaled {F : Type} (st : State F) (pre rest : List Char)
    (c0 c1 c2 c3 f1 f2 f3 f4 : Char) (hpre : ',' ∉ pre)
    (h0 : isdigit c0 = true) (h1 : isdigit c1 = true) (h2 : isdigit c2 = true)
    (h3 : isdigit c3 = true) (g1 : isdigit f1 = true) (g2 : isdigit f2 = true)
    (g3 : isdigit f3 = true) (g4 : isdigit f4 = true) :
    (parse_latitude_longitude st (pre ++ ',' ::
        ([c0, c1, c2, c3, '.', f1, f2, f3, f4] ++ ',' :: 'N' :: rest))).2.2.latitude_degree =
      ⌊((digitsValue 0 [c0, c1] : ℚ) +
        (digitsValue 0 [c2, c3, f1, f2, f3, f4] : ℚ) / 10000 / 60) * 10 ^ 7⌋ ∧
    0 ≤ (parse_latitude_longitude st (pre ++ ',' ::
        ([c0, c1, c2, c3, '.', f1, f2, f3, f4] ++ ',' :: 'N' :: rest))).2.2.latitude_degree ∧
    (parse_latitude_longitude st (pre ++ ',' ::
        ([c0, c1, c2, c3, '.', f1, f2, f3, f4] ++ ',' :: 'S' :: rest))).2.2.latitude_degree =
      -(parse_latitude_longitude st (pre ++ ',' ::
        ([c0, c1, c2, c3, '.', f1, f2, f3, f4] ++ ',' :: 'N' :: rest))).2.2.latitude_degree ∧
    (parse_latitude_longitude st (pre ++ ',' ::
        ([c0, c1, c2, c3, '.', f1, f2, f3, f4] ++ ',' :: 'S' :: rest))).2.2.latitude_degree_minute =
      -(parse_latitude_longitude st (pre ++ ',' ::
        ([c0, c1, c2, c3, '.', f1, f2, f3, f4] ++ ',' :: 'N' :: rest))).2.2.latitude_degree_minute
    := by
  have hfld : ',' ∉ [c0, c1, c2, c3, '.', f1, f2, f3, f4] := by
    simp only [List.mem_cons, List.mem_singleton, List.not_mem_nil, or_false, not_or]
    exact ⟨(isdigit_ne_comma h0).symm, (isdigit_ne_comma h1).symm, (isdigit_ne_comma h2).symm,
      (isdigit_ne_comma h3).symm, by decide, (isdigit_ne_comma g1).symm,
      (isdigit_ne_comma g2).symm, (isdigit_ne_comma g3).symm, (isdigit_ne_comma g4).symm⟩
  have side : ∀ (x : Char), x ≠ nul →
      (deref (x :: rest) = 'S' →
        (parse_latitude_longitude st (pre ++ ',' ::
          ([c0, c1, c2, c3, '.', f1, f2, f3, f4] ++ ',' :: x :: rest))).2.2.latitude_degree =
          wrap32 (-((digitsValue 0 [c0, c1] : Int) * 10000000 +
            50 * (digitsValue 0 [c2, c3, f1, f2, f3, f4] : Int) / 3)) ∧
        (parse_latitude_longitude st (pre ++ ',' ::
          ([c0, c1, c2, c3, '.', f1, f2, f3, f4] ++ ',' :: x :: rest))).2.2.latitude_degree_minute =
          wrap32 (-((digitsValue 0 [c0, c1] : Int) * 10000000 +
            10 * (digitsValue 0 [c2, c3, f1, f2, f3, f4] : Int)))) ∧
      (deref (x :: rest) = 'N' ∨ deref (x :: rest) = ',' →
        (parse_latitude_longitude st (pre ++ ',' ::
          ([c0, c1, c2, c3, '.', f1, f2, f3, f4] ++ ',' :: x :: rest))).2.2.latitude_degree =
          (digitsValue 0 [c0, c1] : Int) * 10000000 +
            50 * (digitsValue 0 [c2, c3, f1, f2, f3, f4] : Int) / 3 ∧
        (parse_latitude_longitude st (pre ++ ',' ::
          ([c0, c1, c2, c3, '.', f1, f2, f3, f4] ++ ',' :: x :: rest))).2.2.latitude_degree_minute =
          (digitsValue 0 [c0, c1] : Int) * 10000000 +
            10 * (digitsValue 0 [c2, c3, f1, f2, f3, f4] : Int)) := by
    intro x hx
    have hdec := (decode_angle_ddmm c0 c1 c2 c3 f1 f2 f3 f4 (',' :: x :: rest)
      st.latitude_degree_minute st.latitude_degree h0 h1 h2 h3 g1 g2 g3 g4).1
    have hp : next_data (pre ++ ',' ::
        ([c0, c1, c2, c3, '.', f1, f2, f3, f4] ++ ',' :: x :: rest)) =
        some ([c0, c1, c2, c3, '.', f1, f2, f3, f4] ++ ',' :: x :: rest) :=
      next_data_field pre c0 _ hpre (isdigit_ne_nul h0)
    have hh : next_data ([c0, c1, c2, c3, '.', f1, f2, f3, f4] ++ ',' :: x :: rest) =
        some (x :: rest) := next_data_field _ x rest hfld hx
    have L := parse_latitude_longitude_lat st _ _ _ hp
      (by simpa [deref] using isdigit_ne_comma h0)
      (by
        have := congrArg Prod.fst hdec
        simpa using this) hh
    have e1 : (decode_angle ([c0, c1, c2, c3, '.', f1, f2, f3, f4] ++ ',' :: x :: rest)
        st.latitude_degree_minute st.latitude_degree).2.2 =
        (digitsValue 0 [c0, c1] : Int) * 10000000 +
            50 * (digitsValue 0 [c2, c3, f1, f2, f3, f4] : Int) / 3 := by
      have := congrArg (fun t => t.2.2) hdec
      simpa using this
    have e2 : (decode_angle ([c0, c1, c2, c3, '.', f1, f2, f3, f4] ++ ',' :: x :: rest)
        st.latitude_degree_minute st.latitude_degree).2.1 =
        (digitsValue 0 [c0, c1] : Int) * 10000000 +
            10 * (digitsValue 0 [c2, c3, f1, f2, f3, f4] : Int) := by
      have := congrArg (fun t => t.2.1) hdec
      simpa using this
    rw [e1, e2] at L
    exact ⟨L.1, L.2.1⟩
  obtain ⟨-, hD, hM⟩ := decode_angle_ddmm c0 c1 c2 c3 f1 f2 f3 f4 rest 0 0 h0 h1 h2 h3 g1 g2 g3 g4
  have hN := (side 'N' (by decide)).2 (Or.inl rfl)
  have hS := (side 'S' (by decide)).1 rfl
  rw [hN.1, hN.2, hS.1, hS.2, floor_degrees]
  refine ⟨rfl, by omega, ?_, ?_⟩
  · exact wrap32_of_range (by omega) (by omega)
  · exact wrap32_of_range (by omega) (by omega)

/-- The sample latitude written with four fraction digits, north and south. -/
theorem latitude_degrees_scaled_witness :
    (parse_latitude_longitude (common_init decimalTarget)
        "$GPGGA,4807.0380,N,01131.0000,E".toList).2.2.latitude_degree = 481173000 ∧
    (parse_latitude_longitude (common_init decimalTarget)
        "$GPGGA,4807.0380,S,01131.0000,E".toList).2.2.latitude_degree =
      -(parse_latitude_longitude (common_init decimalTarget)
        "$GPGGA,4807.0380,N,01131.0000,E".toList).2.2.latitude_degree :=
  ⟨by decide,
   (latitude_degrees_scaled (common_init decimalTarget) "$GPGGA".toList
    ",01131.0000,E".toList '4' '8' '0' '7' '0' '3' '8' '0' (by decide) (by decide) (by decide)
    (by decide) (by decide) (by decide) (by decide) (by decide) (by decide)).2.2.1⟩

/-! ## Fix-data decoder -/

theorem digitsValue_append_stop (ds r : List Char) (c : Char) (acc : Nat)
    (hds : ∀ d ∈ ds, isdigit d = true) (hc : isdigit c = false) :
    digitsValue acc (ds ++ c :: r) = digitsValue acc ds := by
  induction ds generalizing acc with
  | nil => simp [digitsValue, hc]
  | cons d ds ih =>
    have hd : isdigit d = true := hds d (List.mem_cons_self _ _)
    simp only [List.cons_append, digitsValue, hd, if_true]
    exact ih _ (fun e he => hds e (List.mem_cons_of_mem _ he))

/-- The conversion `atoi` at the start of a digit field reads the field. -/
theorem atoi_digit_field (q r : List Char) (hq : IsDigitField q) :
    atoi (q ++ ',' :: r) = (digitsValue 0 q : Int) := by
  obtain ⟨hne, hd⟩ := hq
  cases q with
  | nil => exact absurd rfl hne
  | cons c cs =>
    unfold atoi
    rw [List.cons_append, atol_of_isdigit _ (hd c (List.mem_cons_self _ _)),
      ← List.cons_append, digitsValue_append_stop _ _ _ _ hd (by decide)]

theorem decLiteral_digits (ds r : List Char) (acc : Nat)
    (hds : ∀ d ∈ ds, isdigit d = true) :
    decLiteral acc (ds ++ ',' :: r) = (digitsValue acc ds, 0) := by
  induction ds generalizing acc with
  | nil =>
    simp only [List.nil_append, decLiteral, digitsValue]
    rw [if_neg (by decide), if_neg (by decide)]
  | cons d ds ih =>
    have hd : isdigit d = true := hds d (List.mem_cons_self _ _)
    simp only [List.cons_append, decLiteral, digitsValue, hd, if_true]
    exact ih _ (fun e he => hds e (List.mem_cons_of_mem _ he))

/-- The reference target reads digit runs exactly. -/
theorem decimalTarget_readsDigits : decimalTarget.ReadsDigits := by
  intro ds r _ hds
  have hlit := decLiteral_digits ds r 0 hds
  show (if (decAtof (ds ++ ',' :: r)).neg then 0
    else (decAtof (ds ++ ',' :: r)).num / 10 ^ (decAtof (ds ++ ',' :: r)).scale) = _
  have hA : decAtof (ds ++ ',' :: r) = ⟨false, digitsValue 0 ds, 0⟩ := by
    unfold decAtof
    cases ds with
    | nil =>
      simp only [List.nil_append] at hlit ⊢
      rw [List.dropWhile_cons_of_neg (by decide)]
      simp only
      rw [if_neg (by decide), if_neg (by decide), hlit]
    | cons d ds =>
      have hd : isdigit d = true := hds d (List.mem_cons_self _ _)
      simp only [List.cons_append] at hlit ⊢
      rw [List.dropWhile_cons_of_neg (by simp [isspace_of_isdigit hd])]
      simp only
      rw [if_neg (ne_of_isdigit hd (by decide)), if_neg (ne_of_isdigit hd (by decide)), hlit]
  rw [hA]
  simp

/-- The angle decoder succeeds at the start of an angle field, whatever follows it. -/
theorem decode_angle_ok (f r : List Char) (x y : Int) (hf : IsAngleField f) :
    (decode_angle (f ++ r) x y).1 = true := by
  obtain ⟨-, h6, hdot⟩ := hf
  have e4 : charAt (f ++ r) 4 = charAt f 4 := by
    unfold charAt
    rw [List.getD_append _ _ _ _ (by omega)]
  have e5 : charAt (f ++ r) 5 = charAt f 5 := by
    unfold charAt
    rw [List.getD_append _ _ _ _ (by omega)]
  unfold decode_angle
  rw [if_neg (by rw [List.length_append]; omega), e4, e5]
  by_cases h4 : charAt f 4 = '.'
  · simp [h4]
  · have h5 : charAt f 5 = '.' := hdot.resolve_left h4
    simp [h4, h5]

theorem field_head_ne_nul {f : List Char} (hf : IsField f) (x : Char) (r : List Char) :
    deref (f ++ x :: r) ≠ nul ∨ f = [] := by
  cases f with
  | nil => exact Or.inr rfl
  | cons c cs =>
    left
    simp only [List.cons_append, deref, List.headD_cons]
    exact fun h => hf.2 (by simp [h])

/-- Stepping from a field to the next one when the next one is followed by a comma. -/
theorem next_data_fields (f g r : List Char) (hf : IsField f) (hg : IsField g) :
    next_data (f ++ ',' :: (g ++ ',' :: r)) = some (g ++ ',' :: r) := by
  cases g with
  | nil => exact next_data_field f ',' r hf.1 (by decide)
  | cons c cs =>
    exact next_data_field f c (cs ++ ',' :: r) hf.1 (fun h => hg.2 (by simp [h]))

theorem deref_append {f : List Char} (r : List Char) (hf : f ≠ []) :
    deref (f ++ r) = deref f := by
  cases f with
  | nil => exact absurd rfl hf
  | cons c cs => rfl

theorem deref_mem {f : List Char} (hf : f ≠ []) : deref f ∈ f := by
  cases f with
  | nil => exact absurd rfl hf
  | cons c cs => simp [deref]

theorem deref_field_ne_comma {f : List Char} (r : List Char) (hf : IsField f) (hne : f ≠ []) :
    deref (f ++ r) ≠ ',' := by
  rw [deref_append r hne]
  exact fun h => hf.1 (h ▸ deref_mem hne)

theorem isField_of_digits {f : List Char} (hf : ∀ c ∈ f, isdigit c = true) : IsField f :=
  ⟨fun h => absurd (hf _ h) (by decide), fun h => absurd (hf _ h) (by decide)⟩

theorem ne_nil_of_deref {f : List Char} {c : Char} (h : deref f = c) (hc : c ≠ nul) : f ≠ [] := by
  rintro rfl
  exact hc h.symm

/-- Splitting a six-digit time `HHMMSS` into its pairs, with the reductions the source
applies. -/
theorem time_pairs (t0 t1 t2 t3 t4 t5 : Char)
    (htime : ∀ c ∈ [t0, t1, t2, t3, t4, t5], isdigit c = true) :
    digitsValue 0 [t0, t1, t2, t3, t4, t5] % 4294967296 / 10000 % 256 = digitsValue 0 [t0, t1] ∧
    digitsValue 0 [t0, t1, t2, t3, t4, t5] % 4294967296 % 10000 / 100 = digitsValue 0 [t2, t3] ∧
    digitsValue 0 [t0, t1, t2, t3, t4, t5] % 4294967296 % 100 = digitsValue 0 [t4, t5] := by
  simp only [List.mem_cons, List.mem_singleton, List.not_mem_nil, or_false, forall_eq_or_imp,
    forall_eq, isdigit_iff] at htime
  obtain ⟨h0, h1, h2, h3, h4, h5⟩ := htime
  simp only [digitsValue, isdigit_iff, h0, h1, h2, h3, h4, h5, and_self, if_true]
  have b0 : t0.toNat - 48 ≤ 9 := by omega
  have b1 : t1.toNat - 48 ≤ 9 := by omega
  have b2 : t2.toNat - 48 ≤ 9 := by omega
  have b3 : t3.toNat - 48 ≤ 9 := by omega
  have b4 : t4.toNat - 48 ≤ 9 := by omega
  have b5 : t5.toNat - 48 ≤ 9 := by omega
  generalize t0.toNat - 48 = a at b0 ⊢
  generalize t1.toNat - 48 = b at b1 ⊢
  generalize t2.toNat - 48 = c at b2 ⊢
  generalize t3.toNat - 48 = d at b3 ⊢
  generalize t4.toNat - 48 = e at b4 ⊢
  generalize t5.toNat - 48 = f at b5 ⊢
  have hmod : (10 * (10 * (10 * (10 * (10 * (10 * 0 + a) + b) + c) + d) + e) + f) % 4294967296 =
      10 * (10 * (10 * (10 * (10 * (10 * 0 + a) + b) + c) + d) + e) + f :=
    Nat.mod_eq_of_lt (by omega)
  rw [hmod]
  refine ⟨?_, ?_, ?_⟩ <;> omega

/-- C4. For every fix-data sentence made of an identifier, a six-digit time,
an angle field, a hemisphere `N` or `S`, an angle field, a hemisphere `E` or
`W`, a decimal fix quality below 256, a decimal satellite count below 256, an
HDOP field, a non-empty altitude field, a units field and a non-empty geoid
field (with anything after it), on a target whose float library reads short
digit runs exactly: `parse_GPGGA` returns true, the time of day is the three
digit pairs, fix quality and satellites used are the decimal values of their
fields, altitude is `atof` at the ninth field and geoid height `atof` at the
eleventh field. -/
theorem parse_GPGGA_decodes {F : Type} (tg : Target F) (st : State F)
    (ident lat latH lon lonH q n hdop alt units tail : List Char)
    (t0 t1 t2 t3 t4 t5 : Char) (htg : tg.ReadsDigits) (hident : IsField ident)
    (htime : ∀ c ∈ [t0, t1, t2, t3, t4, t5], isdigit c = true)
    (hlat : IsAngleField lat) (hlatH : IsField latH) (hNS : deref latH = 'N' ∨ deref latH = 'S')
    (hlon : IsAngleField lon) (hlonH : IsField lonH) (hEW : deref lonH = 'E' ∨ deref lonH = 'W')
    (hq : IsDigitField q) (hq256 : digitsValue 0 q < 256)
    (hn : IsDigitField n) (hn256 : digitsValue 0 n < 256)
    (hhdop : IsField hdop) (halt : IsField alt) (haltne : alt ≠ [])
    (hunits : IsField units) (htail1 : deref tail ≠ ',') (htail2 : deref tail ≠ nul) :
    ∃ st' : State F,
      parse_GPGGA tg st (joinFields [ident, [t0, t1, t2, t3, t4, t5], lat, latH, lon, lonH,
        q, n, hdop, alt, units, tail]) = .ret true st' ∧
      st'.hour = digitsValue 0 [t0, t1] ∧ st'.minute = digitsValue 0 [t2, t3] ∧
      st'.seconds = digitsValue 0 [t4, t5] ∧
      st'.fix_quality = digitsValue 0 q ∧ st'.satellites_used = digitsValue 0 n ∧
      st'.altitude = tg.atof (joinFields [alt, units, tail]) ∧
      st'.geoidheight = tg.atof tail := by
  have htm : IsField [t0, t1, t2, t3, t4, t5] := isField_of_digits htime
  have hqf : IsField q := isField_of_digits hq.2
  have hnf : IsField n := isField_of_digits hn.2
  have hlatne : lat ≠ [] := by
    have := hlat.2.1
    rintro rfl
    simp at this
  have hlonne : lon ≠ [] := by
    have := hlon.2.1
    rintro rfl
    simp at this
  have hlatHne : latH ≠ [] := by
    rcases hNS with h | h
    · exact ne_nil_of_deref h (by decide)
    · exact ne_nil_of_deref h (by decide)
  have hlonHne : lonH ≠ [] := by
    rcases hEW with h | h
    · exact ne_nil_of_deref h (by decide)
    · exact ne_nil_of_deref h (by decide)
  obtain ⟨g0, gr, rfl⟩ : ∃ g0 gr, tail = g0 :: gr := by
    cases tail with
    | nil => exact absurd rfl htail2
    | cons c cs => exact ⟨c, cs, rfl⟩
  have hg0 : g0 ≠ nul := by simpa [deref] using htail2
  simp only [joinFields]
  -- the cursors of the successive fields
  generalize hcU : units ++ ',' :: g0 :: gr = cU
  generalize hcA : alt ++ ',' :: cU = cA
  generalize hcH : hdop ++ ',' :: cA = cH
  generalize hcN : n ++ ',' :: cH = cN
  generalize hcQ : q ++ ',' :: cN = cQ
  generalize hcLonH : lonH ++ ',' :: cQ = cLonH
  generalize hcLon : lon ++ ',' :: cLonH = cLon
  generalize hcLatH : latH ++ ',' :: cLon = cLatH
  generalize hcLat : lat ++ ',' :: cLatH = cLat
  generalize hcT : [t0, t1, t2, t3, t4, t5] ++ ',' :: cLat = cT
  have n1 : next_data (ident ++ ',' :: cT) = some cT := by
    rw [← hcT, ← hcLat]; exact next_data_fields _ _ _ hident htm
  have n2 : next_data cT = some cLat := by
    rw [← hcT, ← hcLat, ← hcLatH]; exact next_data_fields _ _ _ htm hlat.1
  have n3 : next_data cLat = some cLatH := by
    rw [← hcLat, ← hcLatH, ← hcLon]; exact next_data_fields _ _ _ hlat.1 hlatH
  have n4 : next_data cLatH = some cLon := by
    rw [← hcLatH, ← hcLon, ← hcLonH]; exact next_data_fields _ _ _ hlatH hlon.1
  have n5 : next_data cLon = some cLonH := by
    rw [← hcLon, ← hcLonH, ← hcQ]; exact next_data_fields _ _ _ hlon.1 hlonH
  have n6 : next_data cLonH = some cQ := by
    rw [← hcLonH, ← hcQ, ← hcN]; exact next_data_fields _ _ _ hlonH hqf
  have n7 : next_data cQ = some cN := by
    rw [← hcQ, ← hcN, ← hcH]; exact next_data_fields _ _ _ hqf hnf
  have n8 : next_data cN = some cH := by
    rw [← hcN, ← hcH, ← hcA]; exact next_data_fields _ _ _ hnf hhdop
  have n9 : next_data cH = some cA := by
    rw [← hcH, ← hcA, ← hcU]; exact next_data_fields _ _ _ hhdop halt
  have n10 : next_data cA = some cU := by
    rw [← hcA, ← hcU]
    cases units with
    | nil => exact next_data_field alt ',' _ halt.1 (by decide)
    | cons c cs =>
      exact next_data_field alt c _ halt.1 (fun h => hunits.2 (by simp [h]))
  have n11 : next_data cU = some (g0 :: gr) := by
    rw [← hcU]; exact next_data_field units g0 gr hunits.1 hg0
  have d1 : deref cLat ≠ ',' := by rw [← hcLat]; exact deref_field_ne_comma _ hlat.1 hlatne
  have d2 : deref cLatH = 'N' ∨ deref cLatH = 'S' ∨ deref cLatH = ',' := by
    rw [← hcLatH, deref_append _ hlatHne]
    rcases hNS with h | h
    · exact Or.inl h
    · exact Or.inr (Or.inl h)
  have d3 : deref cLon ≠ ',' := by rw [← hcLon]; exact deref_field_ne_comma _ hlon.1 hlonne
  have d4 : deref cLonH = 'E' ∨ deref cLonH = 'W' ∨ deref cLonH = ',' := by
    rw [← hcLonH, deref_append _ hlonHne]
    rcases hEW with h | h
    · exact Or.inl h
    · exact Or.inr (Or.inl h)
  have d5 : deref cQ ≠ ',' := by rw [← hcQ]; exact deref_field_ne_comma _ hqf hq.1
  have d6 : deref cN ≠ ',' := by rw [← hcN]; exact deref_field_ne_comma _ hnf hn.1
  have d7 : deref cA ≠ ',' := by rw [← hcA]; exact deref_field_ne_comma _ halt haltne
  have a1 : (atoi cQ % 256).toNat = digitsValue 0 q := by
    rw [← hcQ, atoi_digit_field q cN hq]; omega
  have a2 : (atoi cN % 256).toNat = digitsValue 0 n := by
    rw [← hcN, atoi_digit_field n cH hn]; omega
  have tU : tg.toU32 (tg.atof cT) = digitsValue 0 [t0, t1, t2, t3, t4, t5] := by
    rw [← hcT]; exact htg _ _ (by simp) htime
  have path := parse_latitude_longitude_path (setTime tg st cT) cT cLat cLatH cLon cLonH
    n2 d1 (by rw [← hcLat]; exact decode_angle_ok _ _ _ _ hlat) n3 d2 n4 d3
    (by rw [← hcLon]; exact decode_angle_ok _ _ _ _ hlon) n5
  obtain ⟨p1, p2, p3⟩ := time_pairs t0 t1 t2 t3 t4 t5 htime
  unfold parse_GPGGA
  simp only [n1, path, n6, n7, n8, n9, n10, n11, d5, d6, d7, a1, a2, ne_eq, not_false_eq_true,
    if_true, htail1]
  refine ⟨_, rfl, ?_⟩
  by_cases hH : deref cH = ','
  · simp only [hH, not_true_eq_false, if_false, setTime, tU, p1, p2, p3, and_self]
  · simp only [hH, not_false_eq_true, if_true, setTime, tU, p1, p2, p3, and_self]

/-- The sample fix-data sentence of the specification: 12:35:19, fix quality 1, 8 satellites,
altitude 545.4, geoid height 46.9, latitude and longitude not negative. -/
theorem parse_GPGGA_decodes_witness :
    (∃ st' : State Dec,
      parse_GPGGA decimalTarget (common_init decimalTarget)
        "$GPGGA,123519,4807.038,N,01131.000,E,1,08,0.9,545.4,M,46.9,M,,*47".toList =
          .ret true st' ∧
      st'.hour = 12 ∧ st'.minute = 35 ∧ st'.seconds = 19 ∧
      st'.fix_quality = 1 ∧ st'.satellites_used = 8 ∧
      st'.altitude = decAtof "545.4,M,46.9,M,,*47".toList ∧
      st'.geoidheight = decAtof "46.9,M,,*47".toList) ∧
    decAtof "545.4,M,46.9,M,,*47".toList = ⟨false, 5454, 1⟩ ∧
    decAtof "46.9,M,,*47".toList = ⟨false, 469, 1⟩ ∧
    0 ≤ (parse_GPGGA decimalTarget (common_init decimalTarget)
        "$GPGGA,123519,4807.038,N,01131.000,E,1,08,0.9,545.4,M,46.9,M,,*47".toList
        ).state.latitude_degree ∧
    0 ≤ (parse_GPGGA decimalTarget (common_init decimalTarget)
        "$GPGGA,123519,4807.038,N,01131.000,E,1,08,0.9,545.4,M,46.9,M,,*47".toList
        ).state.longitude_degree :=
  ⟨parse_GPGGA_decodes decimalTarget (common_init decimalTarget) "$GPGGA".toList
      "4807.038".toList "N".toList "01131.000".toList "E".toList "1".toList "08".toList
      "0.9".toList "545.4".toList "M".toList "46.9,M,,*47".toList '1' '2' '3' '5' '1' '9'
      decimalTarget_readsDigits (by decide) (by decide) (by decide) (by decide) (by decide)
      (by decide) (by decide) (by decide) (by decide) (by decide) (by decide) (by decide)
      (by decide) (by decide) (by decide) (by decide) (by decide) (by decide),
    by decide, by decide, by decide, by decide⟩

/-! ## Recommended-minimum decoder -/

/-- The sub-decoder `parse_latitude_longitude` does not write the fix flag. -/
theorem parse_latitude_longitude_fix {F : Type} (st : State F) (p : List Char) :
    (parse_latitude_longitude st p).2.2.fix = st.fix := by
  obtain ⟨a, b, c, d, h⟩ := parse_latitude_longitude_frame st p
  rw [h]

/-- C10. For every recommended-minimum sentence with a time field and a
validity field after it, and every prior state: when the validity field starts
with `A` the call ends with `fix = true`, when it starts with `V` it ends with
`fix = false`, and when it starts with any other character `parse_GPRMC`
returns false with fix, the four latitude/longitude outputs, speed, course
angle and date as they were before the call. -/
theorem parse_GPRMC_validity {F : Type} (tg : Target F) (st : State F) (nmea p q : List Char)
    (hp : next_data nmea = some p) (hq : next_data p = some q) :
    (deref q = 'A' → (parse_GPRMC tg st nmea).state.fix = true) ∧
    (deref q = 'V' → (parse_GPRMC tg st nmea).state.fix = false) ∧
    (deref q ≠ 'A' → deref q ≠ 'V' →
      ∃ st' : State F, parse_GPRMC tg st nmea = .ret false st' ∧
        st'.fix = st.fix ∧
        st'.latitude_degree = st.latitude_degree ∧
        st'.latitude_degree_minute = st.latitude_degree_minute ∧
        st'.longitude_degree = st.longitude_degree ∧
        st'.longitude_degree_minute = st.longitude_degree_minute ∧
        st'.speed = st.speed ∧ st'.angle = st.angle ∧
        st'.day = st.day ∧ st'.month = st.month ∧ st'.year = st.year) := by
  have tail : ∀ (v : Bool), (deref q = 'A' ∧ v = true) ∨ (deref q ≠ 'A' ∧ deref q = 'V' ∧ v = false) →
      (parse_GPRMC tg st nmea).state.fix = v := by
    intro v hv
    unfold parse_GPRMC
    simp only [hp, hq]
    have hval : (if deref q = 'A' then some true else if deref q = 'V' then some false
        else none) = some v := by
      rcases hv with ⟨h, rfl⟩ | ⟨h1, h2, rfl⟩
      · rw [if_pos h]
      · rw [if_neg h1, if_pos h2]
    simp only [hval]
    generalize hst1 : ({ setTime tg st p with fix := v } : State F) = st1
    have hfix1 : st1.fix = v := by rw [← hst1]
    have hfix2 := parse_latitude_longitude_fix st1 q
    rw [hfix1] at hfix2
    rcases hres : parse_latitude_longitude st1 q with ⟨r, c, st2⟩
    rw [hres] at hfix2
    cases c with
    | none => exact hfix2
    | some c =>
      simp only
      repeat' split
      all_goals exact hfix2
  refine ⟨fun hA => tail true (Or.inl ⟨hA, rfl⟩), fun hV => tail false (Or.inr ⟨?_, hV, rfl⟩), ?_⟩
  · rw [hV]; decide
  · intro hA hV
    unfold parse_GPRMC
    simp only [hp, hq, if_neg hA, if_neg hV]
    exact ⟨_, rfl, rfl, rfl, rfl, rfl, rfl, rfl, rfl, rfl, rfl, rfl⟩

/-- Validity `A`, validity `V`, and a sentence whose validity field is a digit. -/
theorem parse_GPRMC_validity_witness :
    (parse_GPRMC decimalTarget (common_init decimalTarget)
      "$GPRMC,123519,A,4807.0380,N,01131.0000,E,022.4,084.4,230394,003.1,W*6A".toList
      ).state.fix = true ∧
    (parse_GPRMC decimalTarget { common_init decimalTarget with fix := true }
      "$GPRMC,123519,V,4807.0380,N,01131.0000,E,022.4,084.4,230394,003.1,W*7D".toList
      ).state.fix = false ∧
    ∃ st' : State Dec,
      parse_GPRMC decimalTarget { common_init decimalTarget with fix := true }
        "$GPRMC,123519,1,4807.0380,N,01131.0000,E,022.4,084.4,230394,003.1,W*1A".toList =
          .ret false st' ∧ st'.fix = true :=
  ⟨(parse_GPRMC_validity decimalTarget (common_init decimalTarget)
      "$GPRMC,123519,A,4807.0380,N,01131.0000,E,022.4,084.4,230394,003.1,W*6A".toList
      "123519,A,4807.0380,N,01131.0000,E,022.4,084.4,230394,003.1,W*6A".toList
      "A,4807.0380,N,01131.0000,E,022.4,084.4,230394,003.1,W*6A".toList
      (by decide) (by decide)).1 (by decide),
   (parse_GPRMC_validity decimalTarget { common_init decimalTarget with fix := true }
      "$GPRMC,123519,V,4807.0380,N,01131.0000,E,022.4,084.4,230394,003.1,W*7D".toList
      "123519,V,4807.0380,N,01131.0000,E,022.4,084.4,230394,003.1,W*7D".toList
      "V,4807.0380,N,01131.0000,E,022.4,084.4,230394,003.1,W*7D".toList
      (by decide) (by decide)).2.1 (by decide),
   (((parse_GPRMC_validity decimalTarget { common_init decimalTarget with fix := true }
      "$GPRMC,123519,1,4807.0380,N,01131.0000,E,022.4,084.4,230394,003.1,W*1A".toList
      "123519,1,4807.0380,N,01131.0000,E,022.4,084.4,230394,003.1,W*1A".toList
      "1,4807.0380,N,01131.0000,E,022.4,084.4,230394,003.1,W*1A".toList
      (by decide) (by decide)).2.2 (by decide) (by decide)).imp fun _ h => ⟨h.1, h.2.1⟩)⟩

/-! ## Defects found at concrete sentences -/

/-- C8: the time of day is not covered by the empty-field rule. The sentence
`$GPRMC,,V,,,,,,,,,,N*53`, which a receiver sends before it knows the time, has
an empty time field; from a state holding 12:35:19.250 `parse` returns true and
leaves 00:00:00.000, because the time is stored from `atof` of the cursor
without the `',' != *p` test that guards every other field. -/
theorem parse_empty_time_overwrites :
    (parse decimalTarget 256
        { common_init decimalTarget with
          hour := 12, minute := 35, seconds := 19, milliseconds := 250 }
        "\n$GPRMC,,V,,,,,,,,,,N*53\r".toList).map
      (fun o => (o.value, o.state.hour, o.state.minute, o.state.seconds, o.state.milliseconds))
      = some (some true, 0, 0, 0, 0) := by
  decide

/-- C8, second instance: with an empty latitude field and hemisphere `S` the
stale latitude is negated, so the latitude outputs change although their angle
field is empty. -/
theorem parse_empty_latitude_negates :
    (parse_latitude_longitude
        { common_init decimalTarget with
          latitude_degree := 481173000, latitude_degree_minute := 480703800 }
        "123519,,S,,W,1".toList).2.2.latitude_degree = -481173000 := by
  decide

/-- C9: a malformed latitude does not make the fix-data decoder fail. In the
sentence below the latitude field `48.038` has its point at offset 2, so
`decode_angle` fails and `parse_latitude_longitude` returns false with the
cursor still on that field; `parse_GPGGA` ignores the returned value, goes on
reading the following fields from there, and returns true. -/
theorem parse_GPGGA_malformed_latitude_returns_true :
    (decode_angle "48.038,N,01131.000,E,1,08,0.9,545.4,M,46.9,M,,*40\r".toList 0 0).1 = false ∧
    (parse_latitude_longitude (common_init decimalTarget)
      "123519,48.038,N,01131.000,E,1,08,0.9,545.4,M,46.9,M,,*40\r".toList).1 = false ∧
    (parse decimalTarget 256 (common_init decimalTarget)
        "\n$GPGGA,123519,48.038,N,01131.000,E,1,08,0.9,545.4,M,46.9,M,,*40\r".toList).map
      (fun o => (o.value, o.state.fix_quality, o.state.satellites_used))
      = some (some true, 0, 107) := by
  decide

/-- C9, hemisphere letter: with the letter `X` in the latitude hemisphere field the sub-decoder
returns false and the fix-data decoder still returns true. -/
theorem parse_GPGGA_bad_hemisphere_returns_true :
    (parse_latitude_longitude (common_init decimalTarget)
      "123519,4807.0380,X,01131.0000,E,1,08,0.9,545.4,M,46.9,M,,*47".toList).1 = false ∧
    (parse_GPGGA decimalTarget (common_init decimalTarget)
      "$GPGGA,123519,4807.0380,X,01131.0000,E,1,08,0.9,545.4,M,46.9,M,,*47".toList
      ).value = some true := by
  decide

/-! ## Tokenizer, dispatch order and decoder failure modes -/

theorem strchr_none_of_not_mem (s : List Char) (c : Char) (h : c ∉ s) : strchr s c = none := by
  induction s with
  | nil => rfl
  | cons x xs ih =>
    have hx : x ≠ c := fun e => h (by simp [e])
    simp only [strchr, if_neg hx]
    exact ih (fun hm => h (List.mem_cons_of_mem _ hm))

/-- C16. For every C string `s` (no NUL inside): when `s` is `pre ++ "," ++ post`
with no comma in `pre` and `post` not empty, `next_data` returns `post`, the
suffix right after the first comma; when `s` holds no comma, or its first comma
is its last character, `next_data` returns null. -/
theorem next_data_spec (s : List Char) (hnul : nul ∉ s) :
    (∀ pre post : List Char, s = pre ++ ',' :: post → ',' ∉ pre → post ≠ [] →
      next_data s = some post) ∧
    (',' ∉ s → next_data s = none) ∧
    (∀ pre : List Char, s = pre ++ [','] → ',' ∉ pre → next_data s = none) := by
  refine ⟨?_, ?_, ?_⟩
  · intro pre post hs hpre hpost
    cases post with
    | nil => exact absurd rfl hpost
    | cons c r =>
      subst hs
      exact next_data_field pre c r hpre (fun h => hnul (by simp [h]))
  · intro h
    unfold next_data
    rw [strchr_none_of_not_mem s ',' h]
  · intro pre hs hpre
    subst hs
    unfold next_data
    rw [strchr_append_comma pre [] hpre]
    simp [deref]

/-- The tokenizer on a sentence start, on a string without comma and on a trailing comma. -/
theorem next_data_spec_witness :
    next_data "$GPGGA,123519,4807.038".toList = some "123519,4807.038".toList ∧
    next_data "$GPGGA".toList = none ∧ next_data "$GPGGA,".toList = none :=
  ⟨(next_data_spec "$GPGGA,123519,4807.038".toList (by decide)).1 "$GPGGA".toList
      "123519,4807.038".toList (by decide) (by decide) (by decide),
   (next_data_spec "$GPGGA".toList (by decide)).2.1 (by decide),
   (next_data_spec "$GPGGA,".toList (by decide)).2.2 "$GPGGA".toList (by decide) (by decide)⟩

theorem strstr_isSome_false_iff (hay needle : List Char) :
    (strstr hay needle).isSome = false ↔ ¬ needle <:+: hay := by
  rw [← strstr_isSome_iff]
  simp

/-- C17. On every sentence on which the checksum stage passes, `parse` returns
the outcome of exactly the decoder of the first identifier, in the order
`$GPGGA`, `$GPRMC`, `$PGTOP`, `$GPGSV`, `$GPGSA`, that occurs in the sentence as
a contiguous part; in particular a sentence holding `$GPGGA` is decoded by the
fix-data decoder whether or not `$GPRMC` occurs in it too. -/
theorem parse_dispatch_order {F : Type} (tg : Target F) (fuel : Nat) (st : State F)
    (s : List Char) (hpass : checksumStage tg fuel s = some .pass) :
    ("$GPGGA".toList <:+: s → parse tg fuel st s = some (parse_GPGGA tg st s)) ∧
    (¬ "$GPGGA".toList <:+: s → "$GPRMC".toList <:+: s →
      parse tg fuel st s = some (parse_GPRMC tg st s)) ∧
    (¬ "$GPGGA".toList <:+: s → ¬ "$GPRMC".toList <:+: s → "$PGTOP".toList <:+: s →
      parse tg fuel st s = some (parse_PGTOP st s)) ∧
    (¬ "$GPGGA".toList <:+: s → ¬ "$GPRMC".toList <:+: s → ¬ "$PGTOP".toList <:+: s →
      "$GPGSV".toList <:+: s → parse tg fuel st s = some (parse_GPGSV st s)) ∧
    (¬ "$GPGGA".toList <:+: s → ¬ "$GPRMC".toList <:+: s → ¬ "$PGTOP".toList <:+: s →
      ¬ "$GPGSV".toList <:+: s → "$GPGSA".toList <:+: s →
      parse tg fuel st s = some (parse_GPGSA tg st s)) := by
  unfold parse dispatch
  rw [hpass]
  refine ⟨?_, ?_, ?_, ?_, ?_⟩
  · intro h1
    rw [if_pos ((strstr_isSome_iff _ _).mpr h1)]
  · intro h1 h2
    rw [if_neg (by rw [strstr_isSome_iff]; exact h1), if_pos ((strstr_isSome_iff _ _).mpr h2)]
  · intro h1 h2 h3
    rw [if_neg (by rw [strstr_isSome_iff]; exact h1), if_neg (by rw [strstr_isSome_iff]; exact h2),
      if_pos ((strstr_isSome_iff _ _).mpr h3)]
  · intro h1 h2 h3 h4
    rw [if_neg (by rw [strstr_isSome_iff]; exact h1), if_neg (by rw [strstr_isSome_iff]; exact h2),
      if_neg (by rw [strstr_isSome_iff]; exact h3), if_pos ((strstr_isSome_iff _ _).mpr h4)]
  · intro h1 h2 h3 h4 h5
    rw [if_neg (by rw [strstr_isSome_iff]; exact h1), if_neg (by rw [strstr_isSome_iff]; exact h2),
      if_neg (by rw [strstr_isSome_iff]; exact h3), if_neg (by rw [strstr_isSome_iff]; exact h4),
      if_pos ((strstr_isSome_iff _ _).mpr h5)]

/-- C18. The angle decoder returns failure, leaving both outputs as they
were, on an input of fewer than 6 characters; on an input of at least 6
characters with `.` neither at offset 4 nor at offset 5 it returns failure and
sets both outputs to zero; in every remaining case it returns success. -/
theorem decode_angle_failure_modes (buffer : List Char) (dm d : Int) :
    (buffer.length < 6 → decode_angle buffer dm d = (false, dm, d)) ∧
    (6 ≤ buffer.length → charAt buffer 4 ≠ '.' → charAt buffer 5 ≠ '.' →
      decode_angle buffer dm d = (false, 0, 0)) ∧
    (6 ≤ buffer.length → charAt buffer 4 = '.' ∨ charAt buffer 5 = '.' →
      (decode_angle buffer dm d).1 = true) := by
  refine ⟨?_, ?_, ?_⟩
  · intro h
    unfold decode_angle
    rw [if_pos h]
  · intro h h4 h5
    unfold decode_angle
    rw [if_neg (by omega)]
    simp [h4, h5]
  · intro h hdot
    unfold decode_angle
    rw [if_neg (by omega)]
    by_cases h4 : charAt buffer 4 = '.'
    · simp [h4]
    · have h5 : charAt buffer 5 = '.' := hdot.resolve_left h4
      simp [h4, h5]

/-- The three modes on sample inputs: too short, no point in place, and both layouts. -/
theorem decode_angle_failure_modes_witness :
    decode_angle "4807".toList 7 9 = (false, 7, 9) ∧
    decode_angle "48.038,N".toList 7 9 = (false, 0, 0) ∧
    (decode_angle "4807.0380".toList 7 9).1 = true ∧
    (decode_angle "01131.0000".toList 7 9).1 = true :=
  ⟨(decode_angle_failure_modes "4807".toList 7 9).1 (by decide),
   (decode_angle_failure_modes "48.038,N".toList 7 9).2.1 (by decide) (by decide) (by decide),
   (decode_angle_failure_modes "4807.0380".toList 7 9).2.2 (by decide) (by decide),
   (decode_angle_failure_modes "01131.0000".toList 7 9).2.2 (by decide) (by decide)⟩

/-- A sentence that holds both `$GPGGA` and `$GPRMC` goes to the fix-data decoder. -/
theorem parse_dispatch_order_witness :
    parse decimalTarget 256 (common_init decimalTarget)
        "\n$GPGGA,123519,$GPRMC,1*29\r".toList =
      some (parse_GPGGA decimalTarget (common_init decimalTarget)
        "\n$GPGGA,123519,$GPRMC,1*29\r".toList) :=
  (parse_dispatch_order decimalTarget 256 (common_init decimalTarget)
    "\n$GPGGA,123519,$GPRMC,1*29\r".toList (by decide)).1 (by decide)

/-! ## Single-byte corruption -/

/-- A sentence on which the checksum stage passes has 4 to 259 characters. -/
theorem length_of_pass {F : Type} (tg : Target F) (fuel : Nat) (s : List Char)
    (hpass : checksumStage tg fuel s = some .pass) : 4 ≤ s.length ∧ s.length ≤ 259 := by
  unfold checksumStage at hpass
  by_cases h4 : s.length < 4
  · rw [if_pos h4] at hpass
    exact absurd hpass (by decide)
  · rw [if_neg h4] at hpass
    refine ⟨by omega, ?_⟩
    by_contra hlong
    by_cases hstar : charAt s (s.length - 4) = '*'
    · rw [if_neg (by simpa using hstar)] at hpass
      simp only [checksumLoop_diverges tg s (by omega) fuel 2 _ (by norm_num)] at hpass
      exact absurd hpass (by decide)
    · rw [if_pos hstar] at hpass
      exact absurd hpass (by decide)

/-- On 7-bit sentences a pass of the checksum stage gives the condition of the
specification. -/
theorem specOk_of_pass {F : Type} (tg : Target F) (fuel : Nat) (s : List Char)
    (hascii : ∀ c ∈ s, c.toNat < 128) (hfuel : 256 ≤ fuel)
    (hpass : checksumStage tg fuel s = some .pass) : SpecChecksumOk s := by
  obtain ⟨h4, h259⟩ := length_of_pass tg fuel s hpass
  have hstage := checksumStage_eq tg fuel s (fun c hc => by have := hascii c hc; omega)
    h4 h259 hfuel
  have hsub : ∀ c ∈ (s.drop 2).take (s.length - 6), c.toNat < 128 := fun c hc =>
    hascii c (List.mem_of_mem_drop (List.mem_of_mem_take hc))
  rw [foldl_charU16_ascii tg _ hsub, hpass] at hstage
  by_cases hstar : charAt s (s.length - 4) = '*'
  · refine ⟨hstar, ?_⟩
    by_contra hx
    have hne : ¬ ((16 * specHex (charAt s (s.length - 3)) + specHex (charAt s (s.length - 2)))
        ^^^ xorBytes ((s.drop 2).take (s.length - 6)) = 0) := by
      rw [Nat.xor_eq_zero]; exact fun h => hx h.symm
    rw [if_neg (by simpa using hstar), if_pos hne] at hstage
    exact absurd hstage (by decide)
  · rw [if_pos hstar] at hstage
    exact absurd hstage (by decide)

/-- The checksum stage rejects a sentence of 4 to 259 bytes that does not meet the
condition of the specification. -/
theorem checksumStage_reject {F : Type} (tg : Target F) (fuel : Nat) (s : List Char)
    (hbytes : ∀ c ∈ s, c.toNat < 256) (h4 : 4 ≤ s.length) (h259 : s.length ≤ 259)
    (hfuel : 256 ≤ fuel) (hfail : ¬ SpecChecksumOk s) :
    checksumStage tg fuel s = some .reject := by
  rw [checksumStage_eq tg fuel s hbytes h4 h259 hfuel]
  by_cases hstar : charAt s (s.length - 4) = '*'
  · have hx : xorBytes ((s.drop 2).take (s.length - 6)) ≠
        16 * specHex (charAt s (s.length - 3)) + specHex (charAt s (s.length - 2)) :=
      fun h => hfail ⟨hstar, h⟩
    have hsub : ∀ c ∈ (s.drop 2).take (s.length - 6), c.toNat < 256 := fun c hc =>
      hbytes c (List.mem_of_mem_drop (List.mem_of_mem_take hc))
    have hmod := foldl_charU16_mod tg _ hsub
      (16 * specHex (charAt s (s.length - 3)) + specHex (charAt s (s.length - 2)))
    have h1 := specHex_lt (charAt s (s.length - 3))
    have h2 := specHex_lt (charAt s (s.length - 2))
    have hne : ((s.drop 2).take (s.length - 6)).foldl (fun x c => x ^^^ charU16 tg c)
        (16 * specHex (charAt s (s.length - 3)) + specHex (charAt s (s.length - 2))) ≠ 0 := by
      intro h0
      rw [h0, Nat.mod_eq_of_lt (by omega : 16 * specHex (charAt s (s.length - 3)) +
        specHex (charAt s (s.length - 2)) < 256)] at hmod
      exact hx (Nat.xor_eq_zero.mp hmod.symm).symm
    rw [if_neg (by simpa using hstar), if_pos hne]
  · rw [if_pos hstar]

/-- Replacing one character changes the XOR of a list by the XOR of the old and the new
character. -/
theorem xorBytes_set (l : List Char) (j : Nat) (b : Char) (hj : j < l.length) :
    xorBytes (l.set j b) = xorBytes l ^^^ (charAt l j).toNat ^^^ b.toNat := by
  unfold xorBytes charAt
  induction l generalizing j with
  | nil => simp at hj
  | cons c cs ih =>
    cases j with
    | zero =>
      simp only [List.set_cons_zero, List.foldl_cons, List.getD_cons_zero, Nat.zero_xor]
      rw [foldl_xor_start (fun c => c.toNat) cs b.toNat,
        foldl_xor_start (fun c => c.toNat) cs c.toNat]
      generalize List.foldl (fun x c => x ^^^ c.toNat) 0 cs = X
      rw [Nat.xor_comm c.toNat X, Nat.xor_assoc X, Nat.xor_self, Nat.xor_zero, Nat.xor_comm]
    | succ j =>
      simp only [List.set_cons_succ, List.foldl_cons, List.getD_cons_succ, Nat.zero_xor]
      rw [foldl_xor_start (fun c => c.toNat) (cs.set j b) c.toNat,
        foldl_xor_start (fun c => c.toNat) cs c.toNat,
        ih j (by simpa using hj)]
      simp only [Nat.xor_assoc]

theorem charAt_set_ne (s : List Char) (i j : Nat) (b : Char) (h : i ≠ j) :
    charAt (s.set i b) j = charAt s j := by
  unfold charAt
  simp only [List.getD_eq_getElem?_getD]
  rw [List.getElem?_set_ne h]

/-- C19. For every sentence of 7-bit characters on which the checksum stage
passes and every index `i` with `2 ≤ i < |s| - 4`, replacing the character at
`i` by a different non-NUL byte gives a sentence that `parse` rejects: it
returns false and the state is untouched. -/
theorem single_byte_corruption_detected {F : Type} (tg : Target F) (fuel : Nat)
    (st : State F) (s : List Char) (i : Nat) (b : Char)
    (hascii : ∀ c ∈ s, c.toNat < 128) (hfuel : 256 ≤ fuel)
    (hpass : checksumStage tg fuel s = some .pass)
    (hi2 : 2 ≤ i) (hi : i < s.length - 4)
    (hb : b ≠ charAt s i) (_hbnul : b ≠ nul) (hbyte : b.toNat < 256) :
    parse tg fuel st (s.set i b) = some (.ret false st) := by
  obtain ⟨h4, h259⟩ := length_of_pass tg fuel s hpass
  obtain ⟨hstar, hxor⟩ := specOk_of_pass tg fuel s hascii hfuel hpass
  have hlen : (s.set i b).length = s.length := List.length_set ..
  have hbytes : ∀ c ∈ s.set i b, c.toNat < 256 := by
    intro c hc
    rcases List.mem_or_eq_of_mem_set hc with h | h
    · have := hascii c h; omega
    · rw [h]; exact hbyte
  have hrange : (List.drop 2 (s.set i b)).take (s.length - 6) =
      ((s.drop 2).take (s.length - 6)).set (i - 2) b := by
    rw [List.drop_set, if_neg (by omega), List.set_take]
  have hj : i - 2 < ((s.drop 2).take (s.length - 6)).length := by
    rw [List.length_take, List.length_drop]; omega
  have hget : charAt ((s.drop 2).take (s.length - 6)) (i - 2) = charAt s i := by
    unfold charAt
    simp only [List.getD_eq_getElem?_getD]
    rw [List.getElem?_take_of_lt (by omega), List.getElem?_drop]
    congr 2
    omega
  have hfail : ¬ SpecChecksumOk (s.set i b) := by
    rintro ⟨-, hx⟩
    rw [hlen, hrange, xorBytes_set _ _ _ hj, hget, hxor,
      charAt_set_ne s i _ b (by omega), charAt_set_ne s i _ b (by omega)] at hx
    have h0 : (charAt s i).toNat ^^^ b.toNat = 0 := by
      generalize 16 * specHex (charAt s (s.length - 3)) + specHex (charAt s (s.length - 2)) = E
        at hx
      have := congrArg (fun x => E ^^^ x) hx
      simp only [Nat.xor_self] at this
      rw [Nat.xor_assoc, ← Nat.xor_assoc E E, Nat.xor_self, Nat.zero_xor] at this
      exact this
    have heq : (charAt s i).toNat = b.toNat := Nat.xor_eq_zero.mp h0
    exact hb (Char.ext (UInt32.ext (by simpa [Char.toNat] using heq))).symm
  unfold parse
  rw [checksumStage_reject tg fuel _ hbytes (by omega) (by omega) hfuel hfail]

/-- One digit of the sample fix-data sentence changed from `5` to `6`. -/
theorem single_byte_corruption_detected_witness :
    parse decimalTarget 256 (common_init decimalTarget)
        "\n$GPGGA,123619,4807.038,N,01131.000,E,1,08,0.9,545.4,M,46.9,M,,*47\r".toList =
      some (.ret false (common_init decimalTarget)) :=
  single_byte_corruption_detected decimalTarget 256 (common_init decimalTarget)
    "\n$GPGGA,123519,4807.038,N,01131.000,E,1,08,0.9,545.4,M,46.9,M,,*47\r".toList 11 '6'
    (by decide) (by decide) (by decide) (by decide) (by decide) (by decide) (by decide)
    (by decide)

/-! ## Line assembler -/

theorem store_current_eq (a a1 : Assembler) (b : Buf) (i : Nat) (c : Char)
    (h : a.store b i c = some a1) :
    a1.buffer b = (a.buffer b).set i c ∧ i < (a.buffer b).length ∧
    (∀ b', b' ≠ b → a1.buffer b' = a.buffer b') ∧
    a1.lineidx = a.lineidx ∧ a1.currentline = a.currentline ∧ a1.lastline = a.lastline ∧
    a1.recvdflag = a.recvdflag ∧ a1.paused = a.paused := by
  cases b
  · simp only [Assembler.store] at h
    split at h
    · cases h
      refine ⟨rfl, by assumption, ?_, rfl, rfl, rfl, rfl, rfl⟩
      intro b' hb'
      cases b'
      · exact absurd rfl hb'
      · rfl
    · exact absurd h (by simp)
  · simp only [Assembler.store] at h
    split at h
    · cases h
      refine ⟨rfl, by assumption, ?_, rfl, rfl, rfl, rfl, rfl⟩
      intro b' hb'
      cases b'
      · rfl
      · exact absurd rfl hb'
    · exact absurd h (by simp)

theorem store_some (a : Assembler) (b : Buf) (i : Nat) (c : Char)
    (h : i < (a.buffer b).length) : ∃ a1, a.store b i c = some a1 := by
  cases b <;> simp only [Assembler.store, Assembler.buffer] at h ⊢ <;> rw [if_pos h] <;>
    exact ⟨_, rfl⟩

theorem buffer_length (a : Assembler) (h : WellFormed a) (b : Buf) :
    (a.buffer b).length = 120 := by
  cases b
  · exact h.1
  · exact h.2.1

theorem buf_other {b c d : Buf} (h1 : b ≠ c) (h2 : d ≠ c) : d = b := by
  cases b <;> cases c <;> cases d <;> simp_all

/-- What feeding a line feed does to a well-formed state. -/
theorem feed_lf (a : Assembler) (h : WellFormed a) :
    ∃ a1, feed a '\n' = some a1 ∧ WellFormed a1 ∧
      a1.lastline = a.currentline ∧ a1.currentline = a.lastline ∧
      a1.buffer a1.lastline = (a.buffer a.currentline).set a.lineidx nul ∧
      a1.buffer a1.currentline = (a.buffer a.lastline).set 0 '\n' ∧
      a1.recvdflag = true ∧ a1.lineidx = 1 ∧ a1.paused = a.paused := by
  obtain ⟨h1, h2, h3, h4⟩ := h
  rcases a with ⟨l1, l2, idx, cur, last, fl, pz⟩
  simp only [MAXLINELENGTH] at h1 h2 h3
  simp only at h1 h2 h3 h4
  cases cur <;> cases last <;> first | exact absurd rfl h4 | skip
  · have i1 : idx < l1.length := by omega
    have i2 : 0 < l2.length := by omega
    refine ⟨_, by simp [feed, Assembler.store, i1, i2, MAXLINELENGTH]; rfl, ?_⟩
    simp [WellFormed, Assembler.buffer, MAXLINELENGTH, h1, h2]
  · have i1 : idx < l2.length := by omega
    have i2 : 0 < l1.length := by omega
    refine ⟨_, by simp [feed, Assembler.store, i1, i2, MAXLINELENGTH]; rfl, ?_⟩
    simp [WellFormed, Assembler.buffer, MAXLINELENGTH, h1, h2]

/-- What feeding a byte other than a line feed does to a well-formed state. -/
theorem feed_other (a : Assembler) (h : WellFormed a) (c : Char) (hc : c ≠ '\n') :
    ∃ a1, feed a c = some a1 ∧ WellFormed a1 ∧
      a1.currentline = a.currentline ∧ a1.lastline = a.lastline ∧
      a1.buffer a1.currentline = (a.buffer a.currentline).set a.lineidx c ∧
      a1.buffer a1.lastline = a.buffer a.lastline ∧
      a1.recvdflag = a.recvdflag ∧
      a1.lineidx = (if 119 ≤ a.lineidx then 119 else a.lineidx + 1) ∧
      a1.paused = a.paused := by
  obtain ⟨h1, h2, h3, h4⟩ := h
  rcases a with ⟨l1, l2, idx, cur, last, fl, pz⟩
  simp only [MAXLINELENGTH] at h1 h2 h3
  simp only at h1 h2 h3 h4
  have hmod : (idx + 1) % 256 = idx + 1 := Nat.mod_eq_of_lt (by omega)
  cases cur <;> cases last <;> first | exact absurd rfl h4 | skip
  · have i1 : idx < l1.length := by omega
    refine ⟨_, by simp [feed, Assembler.store, i1, hc, hmod, MAXLINELENGTH]; rfl, ?_⟩
    by_cases hi : 119 ≤ idx
    · have : 120 ≤ idx + 1 := by omega
      simp [WellFormed, Assembler.buffer, MAXLINELENGTH, h1, h2, hi, this]
    · have : ¬ 120 ≤ idx + 1 := by omega
      simp [WellFormed, Assembler.buffer, MAXLINELENGTH, h1, h2, hi, this]
      omega
  · have i1 : idx < l2.length := by omega
    refine ⟨_, by simp [feed, Assembler.store, i1, hc, hmod, MAXLINELENGTH]; rfl, ?_⟩
    by_cases hi : 119 ≤ idx
    · have : 120 ≤ idx + 1 := by omega
      simp [WellFormed, Assembler.buffer, MAXLINELENGTH, h1, h2, hi, this]
    · have : ¬ 120 ≤ idx + 1 := by omega
      simp [WellFormed, Assembler.buffer, MAXLINELENGTH, h1, h2, hi, this]
      omega

theorem mem_set_self (l : List Char) (i : Nat) (c : Char) (h : i < l.length) :
    c ∈ l.set i c := by
  rw [List.mem_iff_getElem]
  exact ⟨i, by simpa using h, by simp⟩

/-- The invariant of the assembler: the state is well-formed and the last buffer holds a
NUL. -/
theorem read_invariant (a a1 : Assembler) (input : Option Char)
    (h : WellFormed a ∧ nul ∈ a.buffer a.lastline) (hr : read a input = some a1) :
    WellFormed a1 ∧ nul ∈ a1.buffer a1.lastline := by
  unfold read at hr
  by_cases hp : a.paused = true
  · rw [if_pos hp] at hr
    cases hr
    exact h
  · rw [if_neg hp] at hr
    cases input with
    | none =>
      cases hr
      exact h
    | some c =>
      simp only at hr
      by_cases hc : c = '\n'
      · subst hc
        obtain ⟨a2, e, hw, -, -, hl, -⟩ := feed_lf a h.1
        rw [e] at hr
        cases hr
        refine ⟨hw, ?_⟩
        rw [hl]
        exact mem_set_self _ _ _ (by rw [buffer_length a h.1]; have := h.1.2.2.1; simp only [MAXLINELENGTH] at this; omega)
      · obtain ⟨a2, e, hw, -, -, -, hl, -⟩ := feed_other a h.1 c hc
        rw [e] at hr
        cases hr
        exact ⟨hw, by rw [hl]; exact h.2⟩

theorem read_some (a : Assembler) (input : Option Char) (h : WellFormed a) :
    ∃ a1, read a input = some a1 := by
  unfold read
  by_cases hp : a.paused = true
  · exact ⟨a, by rw [if_pos hp]⟩
  · rw [if_neg hp]
    cases input with
    | none => exact ⟨a, rfl⟩
    | some c =>
      by_cases hc : c = '\n'
      · subst hc
        obtain ⟨a2, e, -⟩ := feed_lf a h
        exact ⟨a2, e⟩
      · obtain ⟨a2, e, -⟩ := feed_other a h c hc
        exact ⟨a2, e⟩

theorem init_invariant : WellFormed assemblerInit ∧ nul ∈ assemblerInit.buffer assemblerInit.lastline := by
  decide

theorem reachable_invariant (a : Assembler) (h : Reachable a) :
    WellFormed a ∧ nul ∈ a.buffer a.lastline := by
  induction h with
  | init => exact init_invariant
  | read a a1 input _ hr ih => exact read_invariant a a1 input ih hr
  | lastNMEA a _ ih => exact ih
  | pause a p _ ih => exact ih

theorem feedAll_invariant (bytes : List Char) :
    ∀ a : Assembler, (WellFormed a ∧ nul ∈ a.buffer a.lastline) →
      ∃ a1, feedAll a bytes = some a1 ∧ WellFormed a1 ∧ nul ∈ a1.buffer a1.lastline := by
  induction bytes with
  | nil => exact fun a h => ⟨a, rfl, h⟩
  | cons c cs ih =>
    intro a h
    obtain ⟨a2, e⟩ := read_some a (some c) h.1
    obtain ⟨a3, e3, h3⟩ := ih a2 (read_invariant a a2 _ h e)
    exact ⟨a3, by simp only [feedAll, e, e3], h3⟩

theorem takeWhile_length_lt (l : List Char) (h : nul ∈ l) :
    (l.takeWhile (fun c => c ≠ nul)).length < l.length := by
  induction l with
  | nil => simp at h
  | cons c cs ih =>
    by_cases hc : c = nul
    · rw [List.takeWhile_cons_of_neg (by simp [hc])]
      simp
    · have : nul ∈ cs := by
        rcases List.mem_cons.mp h with e | e
        · exact absurd e.symm hc
        · exact e
      rw [List.takeWhile_cons_of_pos (by simp [hc])]
      simp only [List.length_cons]
      exact Nat.succ_lt_succ (ih this)

/-- C14. For every sequence of bytes fed to `read` from the initial state:
no store falls outside its 120-byte array (every call succeeds), the write
index afterwards is at most 119, and the line that `lastNMEA` returns is a
terminated string of at most 119 characters. -/
theorem assembler_bounds (bytes : List Char) :
    ∃ a : Assembler, feedAll assemblerInit bytes = some a ∧
      a.lineidx ≤ MAXLINELENGTH - 1 ∧
      a.line1.length = MAXLINELENGTH ∧ a.line2.length = MAXLINELENGTH ∧
      ∃ line, (lastNMEA a).2 = some line ∧ line.length ≤ MAXLINELENGTH - 1 := by
  obtain ⟨a, e, hw, hn⟩ := feedAll_invariant bytes assemblerInit init_invariant
  refine ⟨a, e, hw.2.2.1, hw.1, hw.2.1, (a.buffer a.lastline).takeWhile (fun c => c ≠ nul),
    by simp only [lastNMEA, cstring, if_pos hn], ?_⟩
  have := takeWhile_length_lt _ hn
  rw [buffer_length a hw] at this
  simp only [MAXLINELENGTH]
  omega

/-- C15. In every state reached from the initial state by calls of `read`,
`lastNMEA` and `pause`, the current and the last buffer are different arrays,
and feeding a byte other than a line feed succeeds and leaves the contents of
the last buffer and the flag `recvdflag` as they were. -/
theorem double_buffer_roles (a : Assembler) (h : Reachable a) :
    a.currentline ≠ a.lastline ∧
    ∀ c : Char, c ≠ '\n' →
      ∃ a1, read a (some c) = some a1 ∧
        a1.buffer a1.lastline = a.buffer a.lastline ∧ a1.lastline = a.lastline ∧
        a1.recvdflag = a.recvdflag := by
  obtain ⟨hw, -⟩ := reachable_invariant a h
  refine ⟨hw.2.2.2, ?_⟩
  intro c hc
  unfold read
  by_cases hp : a.paused = true
  · exact ⟨a, by rw [if_pos hp], rfl, rfl, rfl⟩
  · obtain ⟨a1, e, -, -, hl, -, hb, hf, -⟩ := feed_other a hw c hc
    exact ⟨a1, by rw [if_neg hp]; exact e, hb, hl, hf⟩

theorem reachable_feedAll (bytes : List Char) :
    ∀ a a1 : Assembler, Reachable a → feedAll a bytes = some a1 → Reachable a1 := by
  induction bytes with
  | nil =>
    intro a a1 h e
    cases e
    exact h
  | cons c cs ih =>
    intro a a1 h e
    simp only [feedAll] at e
    cases hr : read a (some c) with
    | none => rw [hr] at e; exact absurd e (by simp)
    | some a2 =>
      rw [hr] at e
      exact ih a2 a1 (Reachable.read a a2 _ h hr) e

set_option maxRecDepth 100000 in
/-- The state after a first line and the start of a second one: the roles are distinct and a
further byte leaves the completed line in place. -/
theorem double_buffer_roles_witness :
    ∃ a : Assembler, feedAll assemblerInit "\n$GPGGA,1*4B\r\n$GP".toList = some a ∧
      a.currentline ≠ a.lastline ∧
      ∀ c : Char, c ≠ '\n' →
        ∃ a1, read a (some c) = some a1 ∧
          a1.buffer a1.lastline = a.buffer a.lastline ∧ a1.lastline = a.lastline ∧
          a1.recvdflag = a.recvdflag :=
  match h : feedAll assemblerInit "\n$GPGGA,1*4B\r\n$GP".toList with
  | none => absurd h (by decide)
  | some a =>
    ⟨a, rfl, double_buffer_roles a (reachable_feedAll _ _ _ Reachable.init h)⟩

theorem take_succ_set (l : List Char) (i : Nat) (c : Char) (h : i < l.length) :
    (l.set i c).take (i + 1) = l.take i ++ [c] := by
  induction l generalizing i with
  | nil => simp at h
  | cons x xs ih =>
    cases i with
    | zero => simp
    | succ i =>
      simp only [List.set_cons_succ, List.take_succ_cons, List.cons_append, List.cons.injEq,
        true_and]
      exact ih i (by simpa using h)

theorem takeWhile_set_nul (l : List Char) (i : Nat) (h : i < l.length) (hn : nul ∉ l.take i) :
    (l.set i nul).takeWhile (fun c => c ≠ nul) = l.take i := by
  induction l generalizing i with
  | nil => simp at h
  | cons x xs ih =>
    cases i with
    | zero =>
      simp only [List.set_cons_zero, List.take_zero]
      rw [List.takeWhile_cons_of_neg (by simp)]
    | succ i =>
      simp only [List.take_succ_cons, List.mem_cons, not_or] at hn
      simp only [List.set_cons_succ, List.take_succ_cons]
      rw [List.takeWhile_cons_of_pos (by simpa using fun e => hn.1 e.symm)]
      rw [ih i (by simpa using h) hn.2]

/-- Feeding bytes other than line feeds while they fit: they are appended at the write
index of the current buffer, and nothing else changes. -/
theorem feedAll_plain (w : List Char) :
    ∀ a : Assembler, WellFormed a → a.paused = false → (∀ c ∈ w, c ≠ '\n') →
      a.lineidx + w.length ≤ 119 →
      ∃ a1, feedAll a w = some a1 ∧ WellFormed a1 ∧ a1.paused = false ∧
        a1.currentline = a.currentline ∧ a1.lastline = a.lastline ∧
        a1.lineidx = a.lineidx + w.length ∧
        (a1.buffer a1.currentline).take a1.lineidx =
          (a.buffer a.currentline).take a.lineidx ++ w ∧
        a1.buffer a1.lastline = a.buffer a.lastline ∧ a1.recvdflag = a.recvdflag := by
  induction w with
  | nil =>
    intro a hw hp _ _
    exact ⟨a, rfl, hw, hp, rfl, rfl, rfl, by simp, rfl, rfl⟩
  | cons c cs ih =>
    intro a hw hp hc hlen
    simp only [List.length_cons] at hlen
    obtain ⟨a1, e, hw1, hcur, hlast, hbuf, hlb, hfl, hidx, hpz⟩ :=
      feed_other a hw c (hc c (List.mem_cons_self _ _))
    rw [if_neg (by omega)] at hidx
    obtain ⟨a2, e2, hw2, hp2, hcur2, hlast2, hidx2, hbuf2, hlb2, hfl2⟩ :=
      ih a1 hw1 (by rw [hpz, hp]) (fun d hd => hc d (List.mem_cons_of_mem _ hd))
        (by rw [hidx]; omega)
    refine ⟨a2, ?_, hw2, hp2, by rw [hcur2, hcur], by rw [hlast2, hlast], ?_, ?_,
      by rw [hlb2, hlb], by rw [hfl2, hfl]⟩
    · simp only [feedAll, read, hp, Bool.false_eq_true, if_false, e, e2]
    · rw [hidx2, hidx, List.length_cons]; omega
    · rw [hbuf2, hbuf, hidx, take_succ_set _ _ _ (by rw [buffer_length a hw]; omega)]
      simp

/-- A whole line: from a well-formed unpaused state, after a line feed, bytes `w` without LF
or NUL that fit, and a line feed, the last line is the first line feed followed by `w`. -/
theorem feed_line (a : Assembler) (hw : WellFormed a) (hp : a.paused = false)
    (w : List Char) (hwc : ∀ c ∈ w, c ≠ '\n' ∧ c ≠ nul) (hlen : w.length ≤ 118) :
    ∃ a2, feedAll a ('\n' :: (w ++ ['\n'])) = some a2 ∧
      (lastNMEA a2).2 = some ('\n' :: w) ∧ a2.recvdflag = true := by
  obtain ⟨a1, e1, hw1, hl1, hc1, hlb1, hcb1, hf1, hi1, hp1⟩ := feed_lf a hw
  have hread : read a (some '\n') = some a1 := by
    simp only [read, hp, Bool.false_eq_true, if_false, e1]
  have h0 : 0 < (a.buffer a.lastline).length := by rw [buffer_length a hw]; omega
  obtain ⟨a2, e2, hw2, hp2, hcur2, hlast2, hidx2, hbuf2, hlb2, hfl2⟩ :=
    feedAll_plain w a1 hw1 (by rw [hp1, hp]) (fun c hc => (hwc c hc).1) (by rw [hi1]; omega)
  obtain ⟨a3, e3, hw3, hl3, hc3, hlb3, hcb3, hf3, hi3, hp3⟩ := feed_lf a2 hw2
  have hread3 : read a2 (some '\n') = some a3 := by
    simp only [read, hp2, Bool.false_eq_true, if_false, e3]
  have hall : feedAll a ('\n' :: (w ++ ['\n'])) = some a3 := by
    have happ : ∀ (u : List Char) (x y z : Assembler), feedAll x u = some y →
        read y (some '\n') = some z → feedAll x (u ++ ['\n']) = some z := by
      intro u
      induction u with
      | nil =>
        intro x y z hxy hyz
        cases hxy
        simp only [List.nil_append, feedAll, hyz]
      | cons c cs ih =>
        intro x y z hxy hyz
        simp only [feedAll, List.cons_append] at hxy ⊢
        cases hr : read x (some c) with
        | none => rw [hr] at hxy; exact absurd hxy (by simp)
        | some x1 =>
          rw [hr] at hxy
          simp only [] at hxy ⊢
          exact ih x1 y z hxy hyz
    simp only [feedAll, hread]
    exact happ w a1 a2 a3 e2 hread3
  refine ⟨a3, hall, ?_, hf3⟩
  have hpre : (a2.buffer a2.currentline).take a2.lineidx = '\n' :: w := by
    rw [hbuf2, hi1, hcb1, take_succ_set _ 0 _ h0]
    simp
  have hidx : a2.lineidx < (a2.buffer a2.currentline).length := by
    rw [buffer_length a2 hw2, hidx2, hi1]; omega
  have hnn : nul ∉ (a2.buffer a2.currentline).take a2.lineidx := by
    rw [hpre]
    simp only [List.mem_cons, not_or]
    exact ⟨by decide, fun h => (hwc _ h).2 rfl⟩
  have hmem : nul ∈ a3.buffer a3.lastline := by
    rw [hlb3]; exact mem_set_self _ _ _ hidx
  simp only [lastNMEA, cstring, if_pos hmem]
  rw [hlb3, takeWhile_set_nul _ _ hidx hnn, hpre]

set_option maxRecDepth 100000 in
/-- C12 as stated fails. From the initial state, the call of `read` that
receives a line feed leaves the write index at 1 with the line feed stored at
index 0 of the new current buffer, and after the bytes LF, `A`, `B`, LF the
line returned by `lastNMEA` is LF, `A`, `B`, not `A`, `B`. -/
theorem line_feed_is_stored :
    (read assemblerInit (some '\n')).map
        (fun a => (a.lineidx, charAt (a.buffer a.currentline) 0)) = some (1, '\n') ∧
    (feedAll assemblerInit "\nAB\n".toList).map (fun a => (lastNMEA a).2) =
      some (some "\nAB".toList) ∧
    "\nAB".toList ≠ "AB".toList := by
  decide

/-- C12, amended. From every well-formed unpaused state, feeding a line feed
null-terminates the current buffer at the write index, swaps the current and
last roles, sets the flag, then stores the line feed at index 0 of the new
current buffer and leaves the write index at 1; consequently, after feeding
LF, then bytes `w` without LF or NUL with `|w| ≤ 118`, then LF, the line
returned by `lastNMEA` is LF followed by `w`. -/
theorem line_feed_handling (a : Assembler) (hw : WellFormed a) (hp : a.paused = false) :
    (∃ a1, read a (some '\n') = some a1 ∧
      a1.buffer a1.lastline = (a.buffer a.currentline).set a.lineidx nul ∧
      a1.lastline = a.currentline ∧ a1.currentline = a.lastline ∧
      a1.recvdflag = true ∧ a1.lineidx = 1 ∧
      charAt (a1.buffer a1.currentline) 0 = '\n') ∧
    ∀ w : List Char, (∀ c ∈ w, c ≠ '\n' ∧ c ≠ nul) → w.length ≤ 118 →
      ∃ a2, feedAll a ('\n' :: (w ++ ['\n'])) = some a2 ∧
        (lastNMEA a2).2 = some ('\n' :: w) ∧ a2.recvdflag = true := by
  obtain ⟨a1, e1, hw1, hl1, hc1, hlb1, hcb1, hf1, hi1, hp1⟩ := feed_lf a hw
  have hread : read a (some '\n') = some a1 := by
    simp only [read, hp, Bool.false_eq_true, if_false, e1]
  have h0 : 0 < (a.buffer a.lastline).length := by rw [buffer_length a hw]; omega
  refine ⟨⟨a1, hread, hlb1, hl1, hc1, hf1, hi1, ?_⟩, ?_⟩
  · rw [hcb1]
    unfold charAt
    rw [List.getD_eq_getElem _ _ (by simpa using h0)]
    simp
  · exact fun w hwc hlen => feed_line a hw hp w hwc hlen

set_option maxRecDepth 100000 in
/-- From the initial state: the line feed is stored, and LF, `$GP`, LF gives the line LF,
`$GP`. -/
theorem line_feed_handling_witness :
    (∃ a1, read assemblerInit (some '\n') = some a1 ∧
      a1.buffer a1.lastline =
        (assemblerInit.buffer assemblerInit.currentline).set assemblerInit.lineidx nul ∧
      a1.lastline = assemblerInit.currentline ∧ a1.currentline = assemblerInit.lastline ∧
      a1.recvdflag = true ∧ a1.lineidx = 1 ∧
      charAt (a1.buffer a1.currentline) 0 = '\n') ∧
    ∃ a2, feedAll assemblerInit ('\n' :: ("$GP".toList ++ ['\n'])) = some a2 ∧
      (lastNMEA a2).2 = some ('\n' :: "$GP".toList) ∧ a2.recvdflag = true :=
  ⟨(line_feed_handling assemblerInit (by decide) (by decide)).1,
   (line_feed_handling assemblerInit (by decide) (by decide)).2 "$GP".toList (by decide)
     (by decide)⟩

/-! ## End-to-end acceptance -/

/-- The checksum stage passes on a 7-bit sentence of 4 to 259 characters that meets the
condition of the specification. -/
theorem checksumStage_pass_of_spec {F : Type} (tg : Target F) (fuel : Nat) (s : List Char)
    (hascii : ∀ c ∈ s, c.toNat < 128) (h4 : 4 ≤ s.length) (h259 : s.length ≤ 259)
    (hfuel : 256 ≤ fuel) (hok : SpecChecksumOk s) : checksumStage tg fuel s = some .pass := by
  have hstage := checksumStage_eq tg fuel s (fun c hc => by have := hascii c hc; omega)
    h4 h259 hfuel
  have hsub : ∀ c ∈ (s.drop 2).take (s.length - 6), c.toNat < 128 := fun c hc =>
    hascii c (List.mem_of_mem_drop (List.mem_of_mem_take hc))
  rw [foldl_charU16_ascii tg _ hsub] at hstage
  rw [hstage, if_neg (by simpa using hok.1), hok.2, Nat.xor_self]
  simp

theorem specHex_hexDigitChar (n : Nat) (h : n < 16) :
    specHex (hexDigitChar n) = n ∧ (hexDigitChar n).toNat < 128 := by
  interval_cases n <;> decide

theorem xorBytes_lt (l : List Char) (h : ∀ c ∈ l, c.toNat < 128) : xorBytes l < 128 := by
  unfold xorBytes
  suffices H : ∀ a, a < 2 ^ 7 → l.foldl (fun a c => a ^^^ c.toNat) a < 2 ^ 7 by
    exact H 0 (by norm_num)
  induction l with
  | nil => exact fun a ha => ha
  | cons c cs ih =>
    intro a ha
    simp only [List.foldl_cons]
    exact ih (fun d hd => h d (List.mem_cons_of_mem _ hd)) _
      (Nat.xor_lt_two_pow ha (h c (List.mem_cons_self _ _)))

/-- The sentence `$ t * HH` followed by one more character `x`, with a line feed in front,
meets the checksum condition of the specification when `HH` is the XOR of `t`. -/
theorem specOk_framed (t : List Char) (x : Char) (ht : ∀ c ∈ t, c.toNat < 128) :
    SpecChecksumOk ('\n' :: '$' :: (t ++ '*' :: (hex2 (xorBytes t) ++ [x]))) := by
  have hv := xorBytes_lt t ht
  have hlen : ('\n' :: '$' :: (t ++ '*' :: (hex2 (xorBytes t) ++ [x]))).length =
      t.length + 6 := by
    simp [hex2]
  have hat : ∀ k, charAt ('\n' :: '$' :: (t ++ '*' :: (hex2 (xorBytes t) ++ [x])))
      (t.length + 2 + k) =
      charAt ('*' :: (hex2 (xorBytes t) ++ [x])) k := by
    intro k
    unfold charAt
    have e : t.length + 2 + k = (t.length + k) + 1 + 1 := by omega
    rw [e, List.getD_cons_succ, List.getD_cons_succ]
    simp only [List.getD_eq_getElem?_getD]
    rw [List.getElem?_append_right (by omega)]
    congr 2
    omega
  unfold SpecChecksumOk
  rw [hlen]
  have e4 : t.length + 6 - 4 = t.length + 2 + 0 := by omega
  have e3 : t.length + 6 - 3 = t.length + 2 + 1 := by omega
  have e2 : t.length + 6 - 2 = t.length + 2 + 2 := by omega
  have e6 : t.length + 6 - 6 = t.length := by omega
  rw [e4, e3, e2, e6, hat 0, hat 1, hat 2]
  refine ⟨rfl, ?_⟩
  have hd : List.take t.length (List.drop 2
      ('\n' :: '$' :: (t ++ '*' :: (hex2 (xorBytes t) ++ [x])))) = t := by
    simp
  rw [hd]
  simp only [hex2, charAt, List.cons_append, List.getD_cons_succ, List.getD_cons_zero]
  rw [(specHex_hexDigitChar _ (by omega)).1, (specHex_hexDigitChar _ (Nat.mod_lt _ (by norm_num))).1]
  omega

set_option maxRecDepth 100000 in
/-- C13 as stated fails. The sentence `$GPGGA,1*4B` carries the right checksum
(`4B` is the XOR of `GPGGA,1`); fed after a line feed and ended by the line
feed alone, it is retrieved as LF `$GPGGA,1*4B`, whose character four before
the end is `1`, not `*`, and the checksum stage rejects it. -/
theorem line_feed_terminator_rejected :
    hex2 (xorBytes "GPGGA,1".toList) = "4B".toList ∧
    (feedAll assemblerInit ('\n' :: ("$GPGGA,1*4B".toList ++ ['\n']))).map
        (fun a => (lastNMEA a).2) = some (some "\n$GPGGA,1*4B".toList) ∧
    checksumStage decimalTarget 256 "\n$GPGGA,1*4B".toList = some .reject := by
  decide

/-- C13, amended. For every text `t` of at most 113 characters, all 7-bit and
none LF or NUL, with `HH` the two uppercase hexadecimal digits of the XOR of
`t`: feeding a line feed, the sentence `$ t * HH`, a carriage return and the
line feed to a well-formed unpaused assembler makes `lastNMEA` return the line
LF `$ t * HH` CR, and the checksum stage of `parse` passes on that line. -/
theorem documented_format_accepted {F : Type} (tg : Target F) (fuel : Nat) (a : Assembler)
    (t : List Char) (hw : WellFormed a) (hp : a.paused = false)
    (ht : ∀ c ∈ t, c.toNat < 128 ∧ c ≠ '\n' ∧ c ≠ nul) (hlen : t.length ≤ 113)
    (hfuel : 256 ≤ fuel) :
    ∃ a2, feedAll a ('\n' :: (('$' :: (t ++ '*' :: (hex2 (xorBytes t) ++ ['\r']))) ++ ['\n']))
        = some a2 ∧
      (lastNMEA a2).2 = some ('\n' :: '$' :: (t ++ '*' :: (hex2 (xorBytes t) ++ ['\r']))) ∧
      checksumStage tg fuel ('\n' :: '$' :: (t ++ '*' :: (hex2 (xorBytes t) ++ ['\r'])))
        = some .pass := by
  have hv := xorBytes_lt t (fun c hc => (ht c hc).1)
  have hh1 := specHex_hexDigitChar (xorBytes t / 16) (by omega)
  have hh2 := specHex_hexDigitChar (xorBytes t % 16) (Nat.mod_lt _ (by norm_num))
  have hx1 : hexDigitChar (xorBytes t / 16) ≠ '\n' ∧ hexDigitChar (xorBytes t / 16) ≠ nul := by
    have : xorBytes t / 16 < 16 := by omega
    generalize xorBytes t / 16 = n at this
    interval_cases n <;> decide
  have hx2 : hexDigitChar (xorBytes t % 16) ≠ '\n' ∧ hexDigitChar (xorBytes t % 16) ≠ nul := by
    have : xorBytes t % 16 < 16 := Nat.mod_lt _ (by norm_num)
    generalize xorBytes t % 16 = n at this
    interval_cases n <;> decide
  have hwc : ∀ c ∈ '$' :: (t ++ '*' :: (hex2 (xorBytes t) ++ ['\r'])), c ≠ '\n' ∧ c ≠ nul := by
    intro c hc
    simp only [hex2, List.cons_append, List.nil_append, List.mem_cons, List.mem_append,
      List.mem_singleton, List.not_mem_nil, or_false] at hc
    rcases hc with rfl | h | rfl | rfl | rfl | rfl
    · decide
    · exact (ht c h).2
    · decide
    · exact hx1
    · exact hx2
    · decide
  obtain ⟨a2, e, hl, -⟩ := feed_line a hw hp _ hwc (by simp [hex2]; omega)
  refine ⟨a2, e, hl, ?_⟩
  apply checksumStage_pass_of_spec tg fuel _ _ (by simp [hex2]) (by simp [hex2]; omega) hfuel
    (specOk_framed t '\r' (fun c hc => (ht c hc).1))
  intro c hc
  simp only [hex2, List.cons_append, List.nil_append, List.mem_cons, List.mem_append,
    List.mem_singleton, List.not_mem_nil, or_false] at hc
  rcases hc with rfl | rfl | h | rfl | rfl | rfl | rfl
  · decide
  · decide
  · exact (ht c h).1
  · decide
  · exact hh1.2
  · exact hh2.2
  · decide

set_option maxRecDepth 100000 in
/-- The sentence `$GPGGA,1*4B` ended by carriage return and line feed is accepted. -/
theorem documented_format_accepted_witness :
    ∃ a2, feedAll assemblerInit ('\n' :: (("$GPGGA,1*4B\r".toList) ++ ['\n'])) = some a2 ∧
      (lastNMEA a2).2 = some "\n$GPGGA,1*4B\r".toList ∧
      checksumStage decimalTarget 256 "\n$GPGGA,1*4B\r".toList = some .pass :=
  documented_format_accepted decimalTarget 256 assemblerInit "GPGGA,1".toList (by decide)
    (by decide) (by decide) (by decide) (by decide)

/-! ## Logger status -/

/-- C20: the serial id loses its first digit. On the status response
`$PMTKLOG,456,0,11,31,2,0,0,0,3769,46*48` the decoding part of
`LOCUS_ReadStatus` returns true with `LOCUS_serial = 56`, not 456: the cursor
returned by `next_data` already stands on the first character of the first
field, and the loop starts every field with `response++`, which is meant to
step over the comma in front of the field. The other nine fields are stored as
the claim says. -/
theorem LOCUS_serial_loses_first_digit :
    (LOCUS_ReadStatus decimalTarget (common_init decimalTarget)
        "\n$PMTKLOG,456,0,11,31,2,0,0,0,3769,46*48\r".toList).value = some true ∧
    (LOCUS_ReadStatus decimalTarget (common_init decimalTarget)
        "\n$PMTKLOG,456,0,11,31,2,0,0,0,3769,46*48\r".toList).state.LOCUS_serial = 56 ∧
    (LOCUS_ReadStatus decimalTarget (common_init decimalTarget)
        "\n$PMTKLOG,456,0,11,31,2,0,0,0,3769,46*48\r".toList).state.LOCUS_type = 0 ∧
    (LOCUS_ReadStatus decimalTarget (common_init decimalTarget)
        "\n$PMTKLOG,456,0,11,31,2,0,0,0,3769,46*48\r".toList).state.LOCUS_config = 31 ∧
    (LOCUS_ReadStatus decimalTarget (common_init decimalTarget)
        "\n$PMTKLOG,456,0,11,31,2,0,0,0,3769,46*48\r".toList).state.LOCUS_interval = 2 ∧
    (LOCUS_ReadStatus decimalTarget (common_init decimalTarget)
        "\n$PMTKLOG,456,0,11,31,2,0,0,0,3769,46*48\r".toList).state.LOCUS_status = true ∧
    (LOCUS_ReadStatus decimalTarget (common_init decimalTarget)
        "\n$PMTKLOG,456,0,11,31,2,0,0,0,3769,46*48\r".toList).state.LOCUS_records = 3769 ∧
    (LOCUS_ReadStatus decimalTarget (common_init decimalTarget)
        "\n$PMTKLOG,456,0,11,31,2,0,0,0,3769,46*48\r".toList).state.LOCUS_percent = 46 := by
  decide

/-! ## Idempotence of `parse` -/

theorem runFields_comm {σ : Type} (h : σ → σ) :
    ∀ (us : List (Option (List Char → σ → σ))) (p : List Char) (st : σ),
      CommAll h us → runFields us p (h st) = (runFields us p st).map h := by
  intro us
  induction us with
  | nil => intro p st _; rfl
  | cons u us ih =>
    intro p st hc
    cases hn : next_data p with
    | none => simp only [runFields, hn, Outcome.map]
    | some q =>
      cases u with
      | none =>
        simp only [runFields, hn]
        exact ih q st hc
      | some f =>
        simp only [runFields, hn]
        by_cases hq : deref q ≠ ','
        · simp only [if_pos hq]
          rw [← hc.1 q st]
          exact ih q _ hc.2
        · simp only [if_neg hq]
          exact ih q st hc.2

theorem runFields_preserves {σ α : Type} (proj : σ → α) :
    ∀ (us : List (Option (List Char → σ → σ))) (p : List Char) (st : σ),
      Preserves proj us → proj (runFields us p st).state = proj st := by
  intro us
  induction us with
  | nil => intro p st _; rfl
  | cons u us ih =>
    intro p st hc
    cases hn : next_data p with
    | none => simp only [runFields, hn, Outcome.state]
    | some q =>
      cases u with
      | none =>
        simp only [runFields, hn]
        exact ih q st hc
      | some f =>
        simp only [runFields, hn]
        by_cases hq : deref q ≠ ','
        · simp only [if_pos hq]
          rw [ih q _ hc.2, hc.1 q st]
        · simp only [if_neg hq]
          exact ih q st hc.2

theorem Outcome.map_state {σ : Type} (h : σ → σ) (o : Outcome σ) :
    (o.map h).state = h o.state := by
  cases o <;> rfl

theorem runFields_idem {σ : Type} :
    ∀ (us : List (Option (List Char → σ → σ))) (p : List Char) (st : σ),
      Absorbing us → runFields us p (runFields us p st).state = runFields us p st := by
  intro us
  induction us with
  | nil => intro p st _; rfl
  | cons u us ih =>
    intro p st hc
    cases hn : next_data p with
    | none => simp only [runFields, hn, Outcome.state]
    | some q =>
      cases u with
      | none =>
        simp only [runFields, hn]
        exact ih q st hc
      | some f =>
        simp only [runFields, hn]
        by_cases hq : deref q ≠ ','
        · simp only [if_pos hq]
          have h1 := runFields_comm (f q) us q (f q st) (hc.2.1 q)
          rw [hc.1 q st] at h1
          have h2 : f q (runFields us q (f q st)).state = (runFields us q (f q st)).state := by
            have := congrArg Outcome.state h1
            rw [Outcome.map_state] at this
            exact this.symm
          rw [h2]
          exact ih q _ hc.2.2
        · simp only [if_neg hq]
          exact ih q st hc.2.2

theorem absorbing_ggaSteps {F : Type} (tg : Target F) : Absorbing (ggaSteps tg) := by
  simp only [ggaSteps, Absorbing, CommAll]
  repeat' (first | apply And.intro | intro _ | exact True.intro)

theorem absorbing_rmcSteps {F : Type} (tg : Target F) : Absorbing (rmcSteps tg) := by
  simp only [rmcSteps, Absorbing, CommAll]
  repeat' (first | apply And.intro | intro _ | exact True.intro)

theorem absorbing_gsvSteps {F : Type} : Absorbing (gsvSteps : List (Option (List Char → State F → State F))) := by
  simp only [gsvSteps, Absorbing, CommAll]
  repeat' (first | apply And.intro | intro _ | exact True.intro)

theorem absorbing_pgtopSteps {F : Type} :
    Absorbing (pgtopSteps : List (Option (List Char → State F → State F))) := by
  simp only [pgtopSteps, Absorbing, CommAll]
  repeat' (first | apply And.intro | intro _ | exact True.intro)
  all_goals (split_ifs <;> rfl)

theorem absorbing_gsaSteps {F : Type} (tg : Target F) : Absorbing (gsaSteps tg) := by
  simp only [gsaSteps, List.replicate, List.cons_append, List.nil_append, Absorbing, CommAll]
  repeat' (first | apply And.intro | intro _ | exact True.intro)
  all_goals (split_ifs <;> rfl)
theorem decode_angle_const_or_id (b : List Char) :
    (∀ c c' : Int × Int, decode_angle b c.1 c.2 = decode_angle b c'.1 c'.2) ∨
    (∀ c : Int × Int, decode_angle b c.1 c.2 = (false, c.1, c.2)) := by
  by_cases hl : b.length < 6
  · right
    intro c
    simp only [decode_angle, hl, if_true]
  · left
    intro c c'
    simp only [decode_angle, hl, if_false]

theorem hemisphereBlock_flag (h : List Char) (neg pos : Char) (dm d dm' d' : Int) :
    (hemisphereBlock h neg pos dm d).1 = (hemisphereBlock h neg pos dm' d').1 := by
  unfold hemisphereBlock
  split_ifs <;> rfl

theorem hemisphereBlock_keep (h : List Char) (neg pos : Char) (dm d : Int)
    (hn : deref h ≠ neg) : (hemisphereBlock h neg pos dm d).2 = (dm, d) := by
  unfold hemisphereBlock
  simp only [hn, if_false]
  split_ifs <;> rfl

theorem coordCells_idem (b : List Char) (neg pos : Char) (c : Int × Int)
    (hs : signOnEmpty b neg = false) :
    coordCells b neg pos (coordCells b neg pos c).2.2 = coordCells b neg pos c := by
  by_cases hb : deref b ≠ ','
  · have key : ∀ x : Int × Int, angleBlock b x.1 x.2 = decode_angle b x.1 x.2 := by
      intro x; simp only [angleBlock, if_pos hb]
    rcases decode_angle_const_or_id b with hc | hi
    · have : ∀ x y : Int × Int, coordCells b neg pos x = coordCells b neg pos y := by
        intro x y
        simp only [coordCells, key, hc x y]
      exact this _ _
    · have : ∀ x : Int × Int, coordCells b neg pos x = (false, some b, x) := by
        intro x
        simp only [coordCells, key, hi x, Bool.not_false, if_true]
      rw [this c, this c]
  · have hb' : deref b = ',' := not_not.mp hb
    have key : ∀ x : Int × Int, angleBlock b x.1 x.2 = (true, x.1, x.2) := by
      intro x; simp only [angleBlock, hb, if_false]
    cases hn : next_data b with
    | none =>
      have : ∀ x : Int × Int, coordCells b neg pos x = (false, none, x) := by
        intro x
        simp only [coordCells, key, hn, Bool.not_true, Bool.false_eq_true, if_false]
      rw [this c, this c]
    | some h =>
      have hneg : deref h ≠ neg := by
        intro he
        simp [signOnEmpty, hn, hb', he] at hs
      have : ∀ x : Int × Int, coordCells b neg pos x =
          ((hemisphereBlock h neg pos x.1 x.2).1, some h, x) := by
        intro x
        simp only [coordCells, key, hn, Bool.not_true, Bool.false_eq_true, if_false,
          hemisphereBlock_keep h neg pos x.1 x.2 hneg]
      rw [this c, this]

theorem coordCells_flag (b : List Char) (neg pos : Char) (c c' : Int × Int) :
    (coordCells b neg pos c).1 = (coordCells b neg pos c').1 ∧
    (coordCells b neg pos c).2.1 = (coordCells b neg pos c').2.1 := by
  have hflag : (angleBlock b c.1 c.2).1 = (angleBlock b c'.1 c'.2).1 := by
    unfold angleBlock
    split_ifs
    · rcases decode_angle_const_or_id b with hc | hi
      · rw [hc c c']
      · rw [hi c, hi c']
    · rfl
  unfold coordCells
  simp only [hflag]
  split_ifs
  · exact ⟨rfl, rfl⟩
  · cases next_data b with
    | none => exact ⟨rfl, rfl⟩
    | some h => exact ⟨hemisphereBlock_flag _ _ _ _ _ _ _, rfl⟩

theorem coordCells_cursor (b : List Char) (neg pos : Char) (c : Int × Int) (h : List Char)
    (hf : (coordCells b neg pos c).1 = true) (hc : (coordCells b neg pos c).2.1 = some h) :
    next_data b = some h := by
  by_cases ha : (!(angleBlock b c.1 c.2).1) = true
  · simp only [coordCells, ha, if_true] at hf
    exact absurd hf (by simp)
  · simp only [coordCells, ha, if_false] at hc
    cases hn : next_data b with
    | none => rw [hn] at hc; exact absurd hc (by simp)
    | some h2 => rw [hn] at hc; exact hc

theorem pllCells_idem (p : List Char) (c : (Int × Int) × (Int × Int))
    (hs : ∀ b1, next_data p = some b1 →
      signOnEmpty b1 'S' = false ∧
      ∀ b3, (next_data b1).bind next_data = some b3 → signOnEmpty b3 'W' = false) :
    pllCells p (pllCells p c).2.2 = pllCells p c := by
  cases h1 : next_data p with
  | none => simp only [pllCells, h1]
  | some b1 =>
    obtain ⟨hS, hW⟩ := hs b1 h1
    have e1 := coordCells_idem b1 'S' 'N' c.1 hS
    have hcur := coordCells_cursor b1 'S' 'N' c.1
    generalize hr : coordCells b1 'S' 'N' c.1 = r1 at e1 hcur
    obtain ⟨f1, cur1, k1⟩ := r1
    simp only at e1
    cases f1 with
    | false =>
      have v : pllCells p c = (false, cur1, (k1, c.2)) := by
        simp only [pllCells, h1, hr, Bool.not_false, if_true]
      rw [v]
      simp only [pllCells, h1, e1, Bool.not_false, if_true]
    | true =>
      cases cur1 with
      | none =>
        have v : pllCells p c = (false, none, (k1, c.2)) := by
          simp only [pllCells, h1, hr, Bool.not_true, Bool.false_eq_true, if_false]
        rw [v]
        simp only [pllCells, h1, e1, Bool.not_true, Bool.false_eq_true, if_false]
      | some b2 =>
        have hb2 := hcur b2 rfl rfl
        cases h3 : next_data b2 with
        | none =>
          have v : pllCells p c = (false, none, (k1, c.2)) := by
            simp only [pllCells, h1, hr, h3, Bool.not_true, Bool.false_eq_true, if_false]
          rw [v]
          simp only [pllCells, h1, e1, h3, Bool.not_true, Bool.false_eq_true, if_false]
        | some b3 =>
          have hW3 := hW b3 (by rw [hb2]; exact h3)
          have e2 := coordCells_idem b3 'W' 'E' c.2 hW3
          have v : pllCells p c = ((coordCells b3 'W' 'E' c.2).1, (coordCells b3 'W' 'E' c.2).2.1,
              (k1, (coordCells b3 'W' 'E' c.2).2.2)) := by
            simp only [pllCells, h1, hr, h3, Bool.not_true, Bool.false_eq_true, if_false]
          rw [v]
          simp only [pllCells, h1, e1, h3, e2, Bool.not_true, Bool.false_eq_true, if_false]

theorem parse_latitude_longitude_cells {F : Type} (st : State F) (p : List Char) :
    parse_latitude_longitude st p =
      ((pllCells p (cellsOf st)).1, (pllCells p (cellsOf st)).2.1,
        withCells st (pllCells p (cellsOf st)).2.2) := by
  unfold parse_latitude_longitude pllCells
  cases h1 : next_data p with
  | none => rfl
  | some b1 =>
    simp only [coordCells, cellsOf]
    cases ha : (angleBlock b1 st.latitude_degree_minute st.latitude_degree).1 with
    | false => simp only [Bool.not_false, if_true]; rfl
    | true =>
      simp only [Bool.not_true, Bool.false_eq_true, if_false]
      cases h2 : next_data b1 with
      | none => simp only [Bool.not_false, if_true]; rfl
      | some b2 =>
        simp only []
        cases hh : (hemisphereBlock b2 'S' 'N'
            (angleBlock b1 st.latitude_degree_minute st.latitude_degree).2.1
            (angleBlock b1 st.latitude_degree_minute st.latitude_degree).2.2).1 with
        | false => simp only [Bool.not_false, if_true]; rfl
        | true =>
          simp only [Bool.not_true, Bool.false_eq_true, if_false]
          cases h3 : next_data b2 with
          | none => rfl
          | some b3 =>
            simp only []
            cases ha3 : (angleBlock b3 st.longitude_degree_minute st.longitude_degree).1 with
            | false => simp only [Bool.not_false, if_true]; rfl
            | true =>
              simp only [Bool.not_true, Bool.false_eq_true, if_false]
              cases h4 : next_data b3 with
              | none => rfl
              | some b4 => rfl
theorem parse_GPGGA_steps {F : Type} (tg : Target F) (st : State F) (s : List Char) :
    parse_GPGGA tg st s =
      match next_data s with
      | none => .ret false st
      | some p => latLonThen (fun x => setTime tg x p) (ggaSteps tg) p st := rfl

theorem parse_GPRMC_steps {F : Type} (tg : Target F) (st : State F) (s : List Char) :
    parse_GPRMC tg st s =
      match next_data s with
      | none => .ret false st
      | some p =>
        match next_data p with
        | none => .ret false (setTime tg st p)
        | some q =>
          if deref q = 'A' then
            latLonThen (fun x => { setTime tg x p with fix := true }) (rmcSteps tg) q st
          else if deref q = 'V' then
            latLonThen (fun x => { setTime tg x p with fix := false }) (rmcSteps tg) q st
          else .ret false (setTime tg st p) := by
  unfold parse_GPRMC
  cases h1 : next_data s with
  | none => rfl
  | some p =>
    cases h2 : next_data p with
    | none => simp only [h2]
    | some q =>
      simp only [h2]
      by_cases hA : deref q = 'A'
      · simp only [hA, if_true]; rfl
      · by_cases hV : deref q = 'V'
        · simp only [hV, if_true, if_false, Char.reduceEq]; rfl
        · simp only [hA, hV, if_false]

theorem skipFields_replicate {σ : Type} (us : List (Option (List Char → σ → σ))) :
    ∀ (n : Nat) (p : List Char) (st : σ),
      runFields (List.replicate n none ++ us) p st =
        match skipFields n p with
        | none => .ret false st
        | some q => runFields us q st := by
  intro n
  induction n with
  | zero => intro p st; rfl
  | succ n ih =>
    intro p st
    cases h : next_data p with
    | none => simp only [List.replicate, List.cons_append, runFields, skipFields, h]
    | some q =>
      simp only [List.replicate, List.cons_append, runFields, skipFields, h]
      exact ih q st

theorem skipFields_succ (n : Nat) :
    ∀ p : List Char, skipFields (n + 1) p = (skipFields n p).bind next_data := by
  induction n with
  | zero =>
    intro p
    cases h : next_data p <;> simp [skipFields, h]
  | succ n ih =>
    intro p
    cases h : next_data p with
    | none => simp only [skipFields, h, Option.none_bind]
    | some q =>
      have := ih q
      simp only [skipFields, h] at this ⊢
      exact this

theorem runFields_skip_shape {σ : Type} (f1 f2 f3 f4 f5 : List Char → σ → σ)
    (s : List Char) (st : σ) :
    (match next_data s with
     | none => Outcome.ret false st
     | some p =>
       let st := if deref p ≠ ',' then f1 p st else st
       match next_data p with
       | none => .ret false st
       | some p =>
         let st := if deref p ≠ ',' then f2 p st else st
         match skipFields 13 p with
         | none => .ret false st
         | some p =>
           let st := if deref p ≠ ',' then f3 p st else st
           match next_data p with
           | none => .ret false st
           | some p =>
             let st := if deref p ≠ ',' then f4 p st else st
             match next_data p with
             | none => .ret false st
             | some p =>
               let st := if deref p ≠ ',' then f5 p st else st
               .ret true st) =
      runFields ([some f1, some f2] ++ List.replicate 12 none ++ [some f3, some f4, some f5])
        s st := by
  cases h1 : next_data s with
  | none => simp only [List.cons_append, List.nil_append, runFields, h1]
  | some p =>
    cases h2 : next_data p with
    | none => simp only [List.cons_append, List.nil_append, runFields, h1, h2]
    | some q =>
      have e : runFields ([some f1, some f2] ++ List.replicate 12 none ++ [some f3, some f4, some f5])
          s st = runFields (List.replicate 12 none ++ [some f3, some f4, some f5]) q
            (if deref q ≠ ',' then f2 q (if deref p ≠ ',' then f1 p st else st)
              else (if deref p ≠ ',' then f1 p st else st)) := by
        rw [List.append_assoc]
        simp only [List.cons_append, List.nil_append, runFields, h1, h2]
      rw [e, skipFields_replicate]
      simp only [h2]
      rw [skipFields_succ 12 q]
      cases h3 : skipFields 12 q with
      | none => rfl
      | some r =>
        simp only [Option.some_bind]
        cases h4 : next_data r with
        | none => simp only [runFields, h4]
        | some r1 =>
          simp only [runFields, h4]

theorem parse_GPGSA_steps {F : Type} (tg : Target F) (st : State F) (s : List Char) :
    parse_GPGSA tg st s = runFields (gsaSteps tg) s st := by
  exact runFields_skip_shape
    (fun p st => { st with mode_selection := deref p })
    (fun p st =>
      if atoi p = 2 then { st with mode := .Mode2D }
      else if atoi p = 3 then { st with mode := .Mode3D }
      else { st with mode := .ModeNoFix })
    (fun p st => { st with PDOP := tg.atof p })
    (fun p st => { st with HDOP := tg.atof p })
    (fun p st => { st with VDOP := tg.atof p }) s st
theorem preserves_cells_ggaSteps {F : Type} (tg : Target F) :
    Preserves cellsOf (ggaSteps tg) := by
  simp only [ggaSteps, Preserves]
  repeat' (first | apply And.intro | intro _ | exact True.intro)
  all_goals rfl

theorem preserves_cells_rmcSteps {F : Type} (tg : Target F) :
    Preserves cellsOf (rmcSteps tg) := by
  simp only [rmcSteps, Preserves]
  repeat' (first | apply And.intro | intro _ | exact True.intro)
  all_goals rfl

theorem comm_setTime_ggaSteps {F : Type} (tg : Target F) (p : List Char) :
    CommAll (fun x => setTime tg x p) (ggaSteps tg) := by
  simp only [ggaSteps, CommAll]
  repeat' (first | apply And.intro | intro _ | exact True.intro)
  all_goals rfl

theorem comm_head_rmcSteps {F : Type} (tg : Target F) (p : List Char) (v : Bool) :
    CommAll (fun x => { setTime tg x p with fix := v }) (rmcSteps tg) := by
  simp only [rmcSteps, CommAll]
  repeat' (first | apply And.intro | intro _ | exact True.intro)
  all_goals rfl

theorem latLonThen_idem {F : Type} (head : State F → State F)
    (us : List (Option (List Char → State F → State F))) (p : List Char) (st : State F)
    (h1 : ∀ x, head (head x) = head x)
    (h2 : ∀ x, cellsOf (head x) = cellsOf x)
    (h3 : ∀ x c, head (withCells x c) = withCells (head x) c)
    (hc : CommAll head us) (ha : Absorbing us) (hp : Preserves cellsOf us)
    (hi : ∀ c, pllCells p (pllCells p c).2.2 = pllCells p c) :
    latLonThen head us p (latLonThen head us p st).state = latLonThen head us p st := by
  have hX : head (withCells (head st) (pllCells p (cellsOf st)).2.2) =
      withCells (head st) (pllCells p (cellsOf st)).2.2 := by rw [h3, h1]
  have step : ∀ y, cellsOf y = (pllCells p (cellsOf st)).2.2 → head y = y →
      latLonThen head us p y =
        match (pllCells p (cellsOf st)).2.1 with
        | none => .fault y
        | some q => runFields us q y := by
    intro y hy hh
    have e : pllCells p (cellsOf (head y)) = pllCells p (cellsOf st) := by
      rw [h2, hy, hi]
    have w : withCells (head y) (pllCells p (cellsOf st)).2.2 = y := by
      rw [hh, ← hy]; rfl
    unfold latLonThen
    rw [parse_latitude_longitude_cells, e, w]
    cases (pllCells p (cellsOf st)).2.1 <;> rfl
  have first : latLonThen head us p st =
      match (pllCells p (cellsOf st)).2.1 with
      | none => .fault (withCells (head st) (pllCells p (cellsOf st)).2.2)
      | some q => runFields us q (withCells (head st) (pllCells p (cellsOf st)).2.2) := by
    unfold latLonThen
    rw [parse_latitude_longitude_cells, h2]
    cases (pllCells p (cellsOf st)).2.1 <;> rfl
  rw [first]
  cases hcur : (pllCells p (cellsOf st)).2.1 with
  | none =>
    have := step (withCells (head st) (pllCells p (cellsOf st)).2.2) rfl hX
    rw [hcur] at this
    exact this
  | some q =>
    simp only []
    have hy : cellsOf (runFields us q (withCells (head st) (pllCells p (cellsOf st)).2.2)).state =
        (pllCells p (cellsOf st)).2.2 := by
      rw [runFields_preserves cellsOf us q _ hp]; rfl
    have hh : head (runFields us q (withCells (head st) (pllCells p (cellsOf st)).2.2)).state =
        (runFields us q (withCells (head st) (pllCells p (cellsOf st)).2.2)).state := by
      rw [← Outcome.map_state head, ← runFields_comm head us q _ hc, hX]
    have := step _ hy hh
    rw [hcur] at this
    rw [this]
    exact runFields_idem us q _ ha

/-- States the condition under which the sub-decoder started at `p` does not
negate cells it has not written. -/
theorem pllCells_idem_of_fresh (p : List Char)
    (h : (match next_data p with
          | none => false
          | some b1 =>
            signOnEmpty b1 'S' ||
              (match (next_data b1).bind next_data with
               | none => false
               | some b3 => signOnEmpty b3 'W')) = false) :
    ∀ c, pllCells p (pllCells p c).2.2 = pllCells p c := by
  intro c
  apply pllCells_idem
  intro b1 hb1
  rw [hb1] at h
  simp only [Bool.or_eq_false_iff] at h
  refine ⟨h.1, ?_⟩
  intro b3 hb3
  have h2 := h.2
  rw [hb3] at h2
  exact h2

theorem parse_GPGGA_idem {F : Type} (tg : Target F) (st : State F) (s : List Char)
    (h : ∀ p, next_data s = some p → ∀ c, pllCells p (pllCells p c).2.2 = pllCells p c) :
    parse_GPGGA tg (parse_GPGGA tg st s).state s = parse_GPGGA tg st s := by
  rw [parse_GPGGA_steps tg st s, parse_GPGGA_steps]
  cases h1 : next_data s with
  | none => rfl
  | some p =>
    exact latLonThen_idem _ _ p st (fun _ => rfl) (fun _ => rfl) (fun _ _ => rfl)
      (comm_setTime_ggaSteps tg p) (absorbing_ggaSteps tg) (preserves_cells_ggaSteps tg) (h p h1)

theorem parse_GPRMC_idem {F : Type} (tg : Target F) (st : State F) (s : List Char)
    (h : ∀ p q, next_data s = some p → next_data p = some q →
      ∀ c, pllCells q (pllCells q c).2.2 = pllCells q c) :
    parse_GPRMC tg (parse_GPRMC tg st s).state s = parse_GPRMC tg st s := by
  rw [parse_GPRMC_steps tg st s, parse_GPRMC_steps]
  cases h1 : next_data s with
  | none => rfl
  | some p =>
    dsimp only
    cases h2 : next_data p with
    | none => rfl
    | some q =>
      dsimp only
      by_cases hA : deref q = 'A'
      · simp only [if_pos hA]
        exact latLonThen_idem _ _ q st (fun _ => rfl) (fun _ => rfl) (fun _ _ => rfl)
          (comm_head_rmcSteps tg p true) (absorbing_rmcSteps tg) (preserves_cells_rmcSteps tg)
          (h p q h1 h2)
      · by_cases hV : deref q = 'V'
        · simp only [if_neg hA, if_pos hV]
          exact latLonThen_idem _ _ q st (fun _ => rfl) (fun _ => rfl) (fun _ _ => rfl)
            (comm_head_rmcSteps tg p false) (absorbing_rmcSteps tg) (preserves_cells_rmcSteps tg)
            (h p q h1 h2)
        · simp only [if_neg hA, if_neg hV]
          rfl

theorem dispatch_idem {F : Type} (tg : Target F) (st : State F) (s : List Char)
    (hs : staleSign s = false) :
    dispatch tg (dispatch tg st s).state s = dispatch tg st s := by
  unfold staleSign latLonCursor at hs
  unfold dispatch
  by_cases g1 : (strstr s "$GPGGA".toList).isSome = true
  · simp only [if_pos g1] at hs ⊢
    apply parse_GPGGA_idem
    intro p hp
    rw [hp] at hs
    exact pllCells_idem_of_fresh p hs
  · simp only [if_neg g1] at hs ⊢
    by_cases g2 : (strstr s "$GPRMC".toList).isSome = true
    · simp only [if_pos g2] at hs ⊢
      apply parse_GPRMC_idem
      intro p q hp hq
      rw [hp, Option.some_bind, hq] at hs
      exact pllCells_idem_of_fresh q hs
    · simp only [if_neg g2]
      by_cases g3 : (strstr s "$PGTOP".toList).isSome = true
      · simp only [if_pos g3]
        exact runFields_idem pgtopSteps s st absorbing_pgtopSteps
      · simp only [if_neg g3]
        by_cases g4 : (strstr s "$GPGSV".toList).isSome = true
        · simp only [if_pos g4]
          exact runFields_idem gsvSteps s st absorbing_gsvSteps
        · simp only [if_neg g4]
          by_cases g5 : (strstr s "$GPGSA".toList).isSome = true
          · simp only [if_pos g5]
            rw [parse_GPGSA_steps tg st s, parse_GPGSA_steps]
            exact runFields_idem (gsaSteps tg) s st (absorbing_gsaSteps tg)
          · simp only [if_neg g5]
            rfl
/-- C11 (as stated, refuted): `parse` is not idempotent on every sentence. The
sentence `$GPGGA,123519,,S,,W,1,08,0.9,545.4,M,46.9,M,,*7A` has empty latitude and
longitude fields followed by the hemispheres `S` and `W`. From a state holding
latitude 48.1173 and longitude 11.5166666 degrees, `parse` returns true and leaves
both negated; from that state the same sentence makes `parse` return true again
and negate them back, so the second decode does not leave the state unchanged. -/
theorem parse_twice_negates_back :
    (parse decimalTarget 256
        { common_init decimalTarget with
          latitude_degree_minute := 480703800, latitude_degree := 481173000,
          longitude_degree_minute := 113100000, longitude_degree := 115166666 }
        "\n$GPGGA,123519,,S,,W,1,08,0.9,545.4,M,46.9,M,,*7A\r".toList).map
      (fun o => (o.value, o.state.latitude_degree_minute, o.state.latitude_degree,
        o.state.longitude_degree_minute, o.state.longitude_degree))
      = some (some true, -480703800, -481173000, -113100000, -115166666) ∧
    ((parse decimalTarget 256
        { common_init decimalTarget with
          latitude_degree_minute := 480703800, latitude_degree := 481173000,
          longitude_degree_minute := 113100000, longitude_degree := 115166666 }
        "\n$GPGGA,123519,,S,,W,1,08,0.9,545.4,M,46.9,M,,*7A\r".toList).bind
      (fun o => parse decimalTarget 256 o.state
        "\n$GPGGA,123519,,S,,W,1,08,0.9,545.4,M,46.9,M,,*7A\r".toList)).map
      (fun o => (o.value, o.state.latitude_degree_minute, o.state.latitude_degree,
        o.state.longitude_degree_minute, o.state.longitude_degree))
      = some (some true, 480703800, 481173000, 113100000, 115166666) := by
  decide

/-- C11 (amended): idempotence of `parse` on every sentence that has no empty
latitude field followed by a hemisphere field beginning with `S` and no empty
longitude field followed by one beginning with `W` (in a fix-data or
recommended-minimum sentence; `staleSign`). For every target, fuel, sentence
and state: if `parse` returns true from `st` and produces `st'`, then `parse`
of the same sentence from `st'` returns true and leaves `st'` as it is. -/
theorem parse_idempotent {F : Type} (tg : Target F) (fuel : Nat) (st st' : State F)
    (s : List Char) (hs : staleSign s = false)
    (h : parse tg fuel st s = some (.ret true st')) :
    parse tg fuel st' s = some (.ret true st') := by
  unfold parse at h ⊢
  cases hc : checksumStage tg fuel s with
  | none => rw [hc] at h; exact absurd h (by simp)
  | some c =>
    rw [hc] at h
    cases c with
    | pass =>
      simp only [Option.some.injEq] at h ⊢
      have := dispatch_idem tg st s hs
      rw [h] at this
      exact this
    | reject => simp at h
    | outOfRange => simp at h

set_option maxRecDepth 100000 in
/-- C11 witness: the sample fix-data sentence of the specification (with four
fraction digits in the angle fields), decoded from the initial state and then
again from the state it produced. -/
theorem parse_idempotent_witness :
    staleSign "\n$GPGGA,123519,4807.0380,N,01131.0000,E,1,08,0.9,545.4,M,46.9,M,,*47\r".toList
      = false ∧
    parse decimalTarget 256 (common_init decimalTarget)
        "\n$GPGGA,123519,4807.0380,N,01131.0000,E,1,08,0.9,545.4,M,46.9,M,,*47\r".toList =
      some (.ret true
        { common_init decimalTarget with
          hour := 12, minute := 35, seconds := 19, fix_quality := 1, satellites_used := 8,
          latitude_degree_minute := 480703800, latitude_degree := 481173000,
          longitude_degree_minute := 113100000, longitude_degree := 115166666,
          HDOP := ⟨false, 9, 1⟩, altitude := ⟨false, 5454, 1⟩, geoidheight := ⟨false, 469, 1⟩ }) ∧
    parse decimalTarget 256
        { common_init decimalTarget with
          hour := 12, minute := 35, seconds := 19, fix_quality := 1, satellites_used := 8,
          latitude_degree_minute := 480703800, latitude_degree := 481173000,
          longitude_degree_minute := 113100000, longitude_degree := 115166666,
          HDOP := ⟨false, 9, 1⟩, altitude := ⟨false, 5454, 1⟩, geoidheight := ⟨false, 469, 1⟩ }
        "\n$GPGGA,123519,4807.0380,N,01131.0000,E,1,08,0.9,545.4,M,46.9,M,,*47\r".toList =
      some (.ret true
        { common_init decimalTarget with
          hour := 12, minute := 35, seconds := 19, fix_quality := 1, satellites_used := 8,
          latitude_degree_minute := 480703800, latitude_degree := 481173000,
          longitude_degree_minute := 113100000, longitude_degree := 115166666,
          HDOP := ⟨false, 9, 1⟩, altitude := ⟨false, 5454, 1⟩, geoidheight := ⟨false, 469, 1⟩ }) :=
  ⟨by decide, by decide, parse_idempotent decimalTarget 256 (common_init decimalTarget) _ _ (by decide) (by decide)⟩

/-! ## Exactness and range of the angle decoder -/

/-- The angle decoder on a field `dddmm.mmmm` of digits, whatever follows the field, when
the degrees are at most 180. -/
theorem decode_angle_dddmm (c0 c1 c2 c3 c4 f1 f2 f3 f4 : Char) (r : List Char) (a b : Int)
    (h0 : isdigit c0 = true) (h1 : isdigit c1 = true) (h2 : isdigit c2 = true)
    (h3 : isdigit c3 = true) (h4 : isdigit c4 = true) (g1 : isdigit f1 = true)
    (g2 : isdigit f2 = true) (g3 : isdigit f3 = true) (g4 : isdigit f4 = true)
    (hD : digitsValue 0 [c0, c1, c2] ≤ 180) :
    decode_angle (c0 :: c1 :: c2 :: c3 :: c4 :: '.' :: f1 :: f2 :: f3 :: f4 :: r) a b =
      (true,
       (digitsValue 0 [c0, c1, c2] : Int) * 10000000 +
         10 * (digitsValue 0 [c3, c4, f1, f2, f3, f4] : Int),
       (digitsValue 0 [c0, c1, c2] : Int) * 10000000 +
         50 * (digitsValue 0 [c3, c4, f1, f2, f3, f4] : Int) / 3) ∧
    digitsValue 0 [c3, c4, f1, f2, f3, f4] ≤ 999999 := by
  have hM : digitsValue 0 [c3, c4, f1, f2, f3, f4] ≤ 999999 := by
    rw [isdigit_iff] at h3 h4 g1 g2 g3 g4
    simp only [digitsValue, isdigit_iff, h3, h4, g1, g2, g3, g4, and_self, if_true]
    omega
  refine ⟨?_, hM⟩
  have key := decode_angle_layout5
    (c0 :: c1 :: c2 :: c3 :: c4 :: '.' :: f1 :: f2 :: f3 :: f4 :: r)
    a b (by simp) (by simp [charAt])
    (by
      intro i hi
      interval_cases i <;> simp [charAt, h0, h1, h2, h3, h4])
  have hA : atol (List.take 3
      (c0 :: c1 :: c2 :: c3 :: c4 :: '.' :: f1 :: f2 :: f3 :: f4 :: r)) =
      (digitsValue 0 [c0, c1, c2] : Int) := by
    simp only [List.take_succ_cons, List.take_zero]
    exact atol_of_isdigit _ h0
  have hB : atol (List.take 2 (List.drop 3
        (c0 :: c1 :: c2 :: c3 :: c4 :: '.' :: f1 :: f2 :: f3 :: f4 :: r)) ++
      List.take 4 (List.drop 6
        (c0 :: c1 :: c2 :: c3 :: c4 :: '.' :: f1 :: f2 :: f3 :: f4 :: r))) =
      (digitsValue 0 [c3, c4, f1, f2, f3, f4] : Int) := by
    simp only [List.take_succ_cons, List.take_zero, List.drop_succ_cons, List.drop_zero,
      List.cons_append, List.nil_append]
    exact atol_of_isdigit _ h3
  rw [hA, hB] at key
  exact key (by omega)

/-- C23. For every input `ddmm.mmmm` or `dddmm.mmmm` made of decimal digits
(followed by anything), with degrees `D` at most 180 and minutes below 60, that
is with the six minute digits `M` below 600000: `decode_angle` succeeds, its
degrees-scaled output is the floor of `(D + (M / 10^4) / 60) * 10^7` and its
degrees-minute-scaled output is `D * 10^7 + 10 * M`, and the values the
function computes, `D * 10^7`, `50 * M`, `D * 10^7 + 10 * M` and
`D * 10^7 + 50 * M / 3`, lie between 0 and `2^31 - 1`, so that the 32-bit
arithmetic does not overflow. -/
theorem decode_angle_exact_in_range (deg mm frac r : List Char) (a b : Int)
    (hdeg : deg.length = 2 ∨ deg.length = 3) (hmm : mm.length = 2) (hfrac : frac.length = 4)
    (hdig : ∀ c ∈ deg ++ mm ++ frac, isdigit c = true)
    (hD : digitsValue 0 deg ≤ 180) (hM : digitsValue 0 (mm ++ frac) < 600000) :
    decode_angle (deg ++ mm ++ '.' :: (frac ++ r)) a b =
      (true,
       (digitsValue 0 deg : Int) * 10 ^ 7 + 10 * (digitsValue 0 (mm ++ frac) : Int),
       ⌊((digitsValue 0 deg : ℚ) + (digitsValue 0 (mm ++ frac) : ℚ) / 10 ^ 4 / 60) * 10 ^ 7⌋) ∧
    (0 ≤ (digitsValue 0 deg : Int) * 10 ^ 7 ∧ (digitsValue 0 deg : Int) * 10 ^ 7 < 2 ^ 31) ∧
    (0 ≤ 50 * (digitsValue 0 (mm ++ frac) : Int) ∧
      50 * (digitsValue 0 (mm ++ frac) : Int) < 2 ^ 31) ∧
    (0 ≤ (digitsValue 0 deg : Int) * 10 ^ 7 + 10 * (digitsValue 0 (mm ++ frac) : Int) ∧
      (digitsValue 0 deg : Int) * 10 ^ 7 + 10 * (digitsValue 0 (mm ++ frac) : Int) < 2 ^ 31) ∧
    (0 ≤ (digitsValue 0 deg : Int) * 10 ^ 7 + 50 * (digitsValue 0 (mm ++ frac) : Int) / 3 ∧
      (digitsValue 0 deg : Int) * 10 ^ 7 + 50 * (digitsValue 0 (mm ++ frac) : Int) / 3
        < 2 ^ 31) := by
  have e4 : ((10 : ℚ) ^ 4) = 10000 := by norm_num
  have e7 : (10 : Int) ^ 7 = 10000000 := by norm_num
  have e31 : (2 : Int) ^ 31 = 2147483648 := by norm_num
  rw [e4, floor_degrees, e7, e31]
  refine ⟨?_, by omega, by omega, by omega, by omega⟩
  obtain ⟨m0, m1, rfl⟩ : ∃ m0 m1, mm = [m0, m1] := by
    match mm, hmm with
    | [m0, m1], _ => exact ⟨m0, m1, rfl⟩
  obtain ⟨f1, f2, f3, f4, rfl⟩ : ∃ f1 f2 f3 f4, frac = [f1, f2, f3, f4] := by
    match frac, hfrac with
    | [f1, f2, f3, f4], _ => exact ⟨f1, f2, f3, f4, rfl⟩
  rcases hdeg with h2 | h3
  · obtain ⟨c0, c1, rfl⟩ : ∃ c0 c1, deg = [c0, c1] := by
      match deg, h2 with
      | [c0, c1], _ => exact ⟨c0, c1, rfl⟩
    exact (decode_angle_ddmm c0 c1 m0 m1 f1 f2 f3 f4 r a b
      (hdig _ (by simp)) (hdig _ (by simp)) (hdig _ (by simp)) (hdig _ (by simp))
      (hdig _ (by simp)) (hdig _ (by simp)) (hdig _ (by simp)) (hdig _ (by simp))).1
  · obtain ⟨c0, c1, c2, rfl⟩ : ∃ c0 c1 c2, deg = [c0, c1, c2] := by
      match deg, h3 with
      | [c0, c1, c2], _ => exact ⟨c0, c1, c2, rfl⟩
    exact (decode_angle_dddmm c0 c1 c2 m0 m1 f1 f2 f3 f4 r a b
      (hdig _ (by simp)) (hdig _ (by simp)) (hdig _ (by simp)) (hdig _ (by simp))
      (hdig _ (by simp)) (hdig _ (by simp)) (hdig _ (by simp)) (hdig _ (by simp))
      (hdig _ (by simp)) hD).1

/-- The longitude `01131.0000` followed by its hemisphere, and the largest valid angle
`18000.0000`. -/
theorem decode_angle_exact_in_range_witness :
    (decode_angle "01131.0000,E".toList 0 0).2.2 =
      ⌊(((11 : ℕ) : ℚ) + ((310000 : ℕ) : ℚ) / 10 ^ 4 / 60) * 10 ^ 7⌋ ∧
    (decode_angle "18000.0000".toList 0 0).2.2 =
      ⌊(((180 : ℕ) : ℚ) + ((0 : ℕ) : ℚ) / 10 ^ 4 / 60) * 10 ^ 7⌋ := by
  have h1 := (decode_angle_exact_in_range "011".toList "31".toList "0000".toList ",E".toList 0 0
    (by decide) (by decide) (by decide) (by decide) (by decide) (by decide)).1
  have h2 := (decode_angle_exact_in_range "180".toList "00".toList "0000".toList [] 0 0
    (by decide) (by decide) (by decide) (by decide) (by decide) (by decide)).1
  have d1 : digitsValue 0 "011".toList = 11 := by decide
  have m1 : digitsValue 0 ("31".toList ++ "0000".toList) = 310000 := by decide
  have d2 : digitsValue 0 "180".toList = 180 := by decide
  have m2 : digitsValue 0 ("00".toList ++ "0000".toList) = 0 := by decide
  rw [d1, m1] at h1
  rw [d2, m2] at h2
  exact ⟨congrArg (fun t => t.2.2) h1, congrArg (fun t => t.2.2) h2⟩

/-! ## Field positions of the fix-mode decoder -/

theorem runFields_none {σ : Type} (us : List (Option (List Char → σ → σ)))
    (f g r : List Char) (st : σ) (hf : IsField f) (hg : IsField g) :
    runFields (none :: us) (f ++ ',' :: (g ++ ',' :: r)) st =
      runFields us (g ++ ',' :: r) st := by
  simp only [runFields, next_data_fields f g r hf hg]

theorem runFields_some {σ : Type} (h : List Char → σ → σ)
    (us : List (Option (List Char → σ → σ)))
    (f g r : List Char) (st : σ) (hf : IsField f) (hg : IsField g) :
    runFields (some h :: us) (f ++ ',' :: (g ++ ',' :: r)) st =
      runFields us (g ++ ',' :: r)
        (if deref (g ++ ',' :: r) ≠ ',' then h (g ++ ',' :: r) st else st) := by
  simp only [runFields, next_data_fields f g r hf hg]

theorem runFields_some_last {σ : Type} (h : List Char → σ → σ)
    (us : List (Option (List Char → σ → σ)))
    (f : List Char) (c : Char) (r : List Char) (st : σ) (hf : IsField f) (hc : c ≠ nul) :
    runFields (some h :: us) (f ++ ',' :: c :: r) st =
      runFields us (c :: r) (if deref (c :: r) ≠ ',' then h (c :: r) st else st) := by
  simp only [runFields, next_data_field f c r hf.1 hc]

set_option maxRecDepth 100000 in
/-- C22 as stated fails. The sentence below has eleven satellite fields
between the fix mode and the three DOP fields `1.7`, `1.0`, `1.3` (its checksum
`18` is right). `parse_GPGSA` returns false; it has stored 1.0, the 15th field
after the identifier, as PDOP and 1.3, the 16th, as HDOP, and has left VDOP as
it was, because it steps over twelve satellite fields. -/
theorem parse_GPGSA_eleven_satellite_fields :
    (parse_GPGSA decimalTarget (common_init decimalTarget)
        "\n$GPGSA,A,3,19,28,14,18,27,22,31,39,,,,1.7,1.0,1.3*18\r".toList).value = some false ∧
    (parse_GPGSA decimalTarget (common_init decimalTarget)
        "\n$GPGSA,A,3,19,28,14,18,27,22,31,39,,,,1.7,1.0,1.3*18\r".toList).state.PDOP
      = ⟨false, 10, 1⟩ ∧
    (parse_GPGSA decimalTarget (common_init decimalTarget)
        "\n$GPGSA,A,3,19,28,14,18,27,22,31,39,,,,1.7,1.0,1.3*18\r".toList).state.HDOP
      = ⟨false, 13, 1⟩ ∧
    (parse_GPGSA decimalTarget (common_init decimalTarget)
        "\n$GPGSA,A,3,19,28,14,18,27,22,31,39,,,,1.7,1.0,1.3*18\r".toList).state.VDOP
      = ⟨false, 0, 0⟩ ∧
    decimalTarget.atof "1.7,1.0,1.3*18\r".toList = ⟨false, 17, 1⟩ ∧
    checksumStage decimalTarget 256
        "\n$GPGSA,A,3,19,28,14,18,27,22,31,39,,,,1.7,1.0,1.3*18\r".toList = some .pass := by
  decide

/-- C22, amended. For every fix-mode sentence made of an identifier, a
mode-selection field, a fix-mode field, twelve satellite fields and three
non-empty DOP fields (the last one followed by anything but a comma):
`parse_GPGSA` returns true, and PDOP, HDOP and VDOP are `atof` at the 15th, 16th
and 17th field after the identifier, that is at the three fields that follow
the twelve satellite fields. -/
theorem parse_GPGSA_field_positions {F : Type} (tg : Target F) (st : State F)
    (ident sel fixmode pdop hdop tail : List Char) (prns : List (List Char))
    (hident : IsField ident) (hsel : IsField sel) (hfix : IsField fixmode)
    (hlen : prns.length = 12) (hprns : ∀ f ∈ prns, IsField f)
    (hpdop : IsField pdop) (hpne : pdop ≠ []) (hhdop : IsField hdop) (hhne : hdop ≠ [])
    (htail1 : deref tail ≠ ',') (htail2 : deref tail ≠ nul) :
    ∃ st' : State F,
      parse_GPGSA tg st (joinFields (ident :: sel :: fixmode :: (prns ++ [pdop, hdop, tail])))
        = .ret true st' ∧
      st'.PDOP = tg.atof (joinFields [pdop, hdop, tail]) ∧
      st'.HDOP = tg.atof (joinFields [hdop, tail]) ∧
      st'.VDOP = tg.atof tail := by
  obtain ⟨p1, p2, p3, p4, p5, p6, p7, p8, p9, p10, p11, p12, rfl⟩ :
      ∃ p1 p2 p3 p4 p5 p6 p7 p8 p9 p10 p11 p12,
        prns = [p1, p2, p3, p4, p5, p6, p7, p8, p9, p10, p11, p12] := by
    match prns, hlen with
    | [p1, p2, p3, p4, p5, p6, p7, p8, p9, p10, p11, p12], _ =>
      exact ⟨p1, p2, p3, p4, p5, p6, p7, p8, p9, p10, p11, p12, rfl⟩
  simp only [List.mem_cons, List.mem_singleton, List.not_mem_nil, or_false, forall_eq_or_imp,
    forall_eq] at hprns
  obtain ⟨h1, h2, h3, h4, h5, h6, h7, h8, h9, h10, h11, h12⟩ := hprns
  obtain ⟨t0, tr, rfl⟩ : ∃ t0 tr, tail = t0 :: tr := by
    cases tail with
    | nil => exact absurd rfl htail2
    | cons t0 tr => exact ⟨t0, tr, rfl⟩
  have ht0 : t0 ≠ nul := htail2
  rw [parse_GPGSA_steps]
  simp only [gsaSteps, List.replicate, List.cons_append, List.nil_append, joinFields]
  rw [runFields_some _ _ _ _ _ _ hident hsel]
  generalize (if deref (sel ++ _) ≠ ',' then _ else st) = st1
  rw [runFields_some _ _ _ _ _ _ hsel hfix]
  generalize (if deref (fixmode ++ _) ≠ ',' then _ else st1) = st2
  rw [runFields_none _ _ _ _ _ hfix h1, runFields_none _ _ _ _ _ h1 h2,
    runFields_none _ _ _ _ _ h2 h3, runFields_none _ _ _ _ _ h3 h4,
    runFields_none _ _ _ _ _ h4 h5, runFields_none _ _ _ _ _ h5 h6,
    runFields_none _ _ _ _ _ h6 h7, runFields_none _ _ _ _ _ h7 h8,
    runFields_none _ _ _ _ _ h8 h9, runFields_none _ _ _ _ _ h9 h10,
    runFields_none _ _ _ _ _ h10 h11, runFields_none _ _ _ _ _ h11 h12,
    runFields_some _ _ _ _ _ _ h12 hpdop,
    if_pos (deref_field_ne_comma _ hpdop hpne),
    runFields_some _ _ _ _ _ _ hpdop hhdop,
    if_pos (deref_field_ne_comma _ hhdop hhne),
    runFields_some_last _ _ _ _ _ _ hhdop ht0, if_pos htail1]
  exact ⟨_, rfl, rfl, rfl, rfl⟩

set_option maxRecDepth 100000 in
/-- The sample sentence of the source, with its twelve satellite fields: the three DOP
values are 1.7, 1.0 and 1.3. -/
theorem parse_GPGSA_field_positions_witness :
    ∃ st' : State Dec,
      parse_GPGSA decimalTarget (common_init decimalTarget)
        (joinFields ("\n$GPGSA".toList :: "A".toList :: "3".toList ::
          (["19".toList, "28".toList, "14".toList, "18".toList, "27".toList, "22".toList,
            "31".toList, "39".toList, [], [], [], []] ++
           ["1.7".toList, "1.0".toList, "1.3*34\r".toList]))) = .ret true st' ∧
      st'.PDOP = decimalTarget.atof (joinFields ["1.7".toList, "1.0".toList, "1.3*34\r".toList]) ∧
      st'.HDOP = decimalTarget.atof (joinFields ["1.0".toList, "1.3*34\r".toList]) ∧
      st'.VDOP = decimalTarget.atof "1.3*34\r".toList :=
  parse_GPGSA_field_positions decimalTarget (common_init decimalTarget)
    "\n$GPGSA".toList "A".toList "3".toList "1.7".toList "1.0".toList "1.3*34\r".toList
    ["19".toList, "28".toList, "14".toList, "18".toList, "27".toList, "22".toList,
      "31".toList, "39".toList, [], [], [], []]
    (by decide) (by decide) (by decide) (by decide) (by decide) (by decide) (by decide)
    (by decide) (by decide) (by decide) (by decide)

/-! ## Mode field of the logger status -/

theorem digitsValue_ge (ds : List Char) : ∀ acc : Nat, acc ≤ digitsValue acc ds := by
  induction ds with
  | nil => intro acc; exact Nat.le_refl _
  | cons c cs ih =>
    intro acc
    unfold digitsValue
    split_ifs
    · exact Nat.le_trans (by omega) (ih _)
    · exact Nat.le_refl _

/-- The inner loop of the logger-status decoder stops at the comma that ends a field. -/
theorem locusField_stop {F : Type} (tg : Target F) (f r : List Char) (hf : IsLocusField f) :
    ∀ acc : Nat, (locusField tg acc (f ++ ',' :: r)).2 = ',' :: r := by
  induction f with
  | nil =>
    intro acc
    simp [locusField]
  | cons c cs ih =>
    intro acc
    have hc := hf c (List.mem_cons_self _ _)
    simp only [List.cons_append, locusField]
    rw [if_pos hc]
    exact ih (fun d hd => hf d (List.mem_cons_of_mem _ hd)) _

/-- On a field of digits whose value fits 16 bits the inner loop accumulates that value. -/
theorem locusField_digits {F : Type} (tg : Target F) (ds r : List Char)
    (hds : ∀ c ∈ ds, isdigit c = true) :
    ∀ acc : Nat, digitsValue acc ds < 65536 →
      locusField tg acc (ds ++ ',' :: r) = (digitsValue acc ds, ',' :: r) := by
  induction ds with
  | nil =>
    intro acc _
    simp [locusField, digitsValue]
  | cons c cs ih =>
    intro acc hv
    have hc : isdigit c = true := hds c (List.mem_cons_self _ _)
    have hne : c ≠ ',' ∧ c ≠ '*' ∧ c ≠ nul :=
      ⟨ne_of_isdigit hc (by decide), ne_of_isdigit hc (by decide), ne_of_isdigit hc (by decide)⟩
    simp only [digitsValue, hc, if_true] at hv
    have hge := digitsValue_ge cs (10 * acc + (c.toNat - 48))
    simp only [List.cons_append, locusField, digitsValue, hc, if_true]
    rw [if_pos hne]
    have e : (acc * 10 % 65536 + (c.toNat - 48)) % 65536 = 10 * acc + (c.toNat - 48) := by
      omega
    rw [e]
    exact ih (fun d hd => hds d (List.mem_cons_of_mem _ hd)) _ hv

/-- The outer loop of the logger-status decoder writes no element below its index. -/
theorem locusLoop_frame {F : Type} (tg : Target F) (k : Nat) :
    ∀ (n i : Nat) (response : List Char) (parsed : List Nat), k < i →
      (locusLoop tg n i response parsed).getD k 0 = parsed.getD k 0 := by
  intro n
  induction n with
  | zero => intro i response parsed _; rfl
  | succ n ih =>
    intro i response parsed hk
    unfold locusLoop
    split_ifs
    · rfl
    · simp only []
      rw [ih (i + 1) _ _ (by omega)]
      simp only [List.getD_eq_getElem?_getD]
      rw [List.getElem?_set_ne (by omega)]

/-- The element `parsed[2]` after the loop, on a response whose first field is not empty:
it is what the inner loop accumulates on the third field. -/
theorem locusLoop_third {F : Type} (tg : Target F) (a : Char) (f1 f2 f3 rest : List Char)
    (ha : a ≠ '*' ∧ a ≠ nul) (hf1 : IsLocusField f1) (hf2 : IsLocusField f2)
    (v : Nat) (hv : locusField tg 0 (f3 ++ ',' :: rest) = (v, ',' :: rest)) :
    (locusLoop tg 10 0 (a :: (f1 ++ ',' :: (f2 ++ ',' :: (f3 ++ ',' :: rest))))
      (List.replicate 10 65535)).getD 2 0 = v := by
  have s1 := locusField_stop tg f1 (f2 ++ ',' :: (f3 ++ ',' :: rest)) hf1 0
  have s2 := locusField_stop tg f2 (f3 ++ ',' :: rest) hf2 0
  have d0 : ¬ (deref (a :: (f1 ++ ',' :: (f2 ++ ',' :: (f3 ++ ',' :: rest)))) = nul ∨
      deref (a :: (f1 ++ ',' :: (f2 ++ ',' :: (f3 ++ ',' :: rest)))) = '*') := by
    simp only [deref, List.headD_cons]
    exact fun h => h.elim ha.2 ha.1
  have d1 : ∀ x : List Char, ¬ (deref (',' :: x) = nul ∨ deref (',' :: x) = '*') := by
    intro x
    simp only [deref, List.headD_cons]
    decide
  rw [locusLoop, if_neg d0]
  simp only [List.tail_cons]
  rw [s1, locusLoop, if_neg (d1 _)]
  simp only [List.tail_cons]
  rw [s2, locusLoop, if_neg (d1 _)]
  simp only [List.tail_cons]
  rw [hv, locusLoop_frame tg 2 _ _ _ _ (by omega)]
  simp [List.getD_eq_getElem?_getD, List.replicate]
/-- The member `LOCUS_mode` in terms of `parsed[2]`, on a response whose first field is not
empty. -/
theorem LOCUS_mode_of_third {F : Type} (tg : Target F) (st : State F)
    (pre f1 f2 f3 rest : List Char) (hpre : ',' ∉ pre)
    (hf1 : IsLocusField f1) (hne : f1 ≠ []) (hf2 : IsLocusField f2)
    (v : Nat) (hv : locusField tg 0 (f3 ++ ',' :: rest) = (v, ',' :: rest)) :
    LOCUS_ReadStatus tg st (pre ++ ',' :: (f1 ++ ',' :: (f2 ++ ',' :: (f3 ++ ',' :: rest)))) =
      .ret true (LOCUS_ReadStatus tg st
        (pre ++ ',' :: (f1 ++ ',' :: (f2 ++ ',' :: (f3 ++ ',' :: rest))))).state ∧
    (LOCUS_ReadStatus tg st
        (pre ++ ',' :: (f1 ++ ',' :: (f2 ++ ',' :: (f3 ++ ',' :: rest))))).state.LOCUS_mode =
      if isalpha v then (v + 65536 - 97 + 10) % 65536 else v := by
  cases f1 with
  | nil => exact absurd rfl hne
  | cons a f1 =>
    have ha := hf1 a (List.mem_cons_self _ _)
    have hf1' : IsLocusField f1 := fun d hd => hf1 d (List.mem_cons_of_mem _ hd)
    have hn : next_data (pre ++ ',' :: (a :: f1 ++ ',' :: (f2 ++ ',' :: (f3 ++ ',' :: rest)))) =
        some (a :: (f1 ++ ',' :: (f2 ++ ',' :: (f3 ++ ',' :: rest)))) :=
      next_data_field pre a _ hpre ha.2.2
    have h3 := locusLoop_third tg a f1 f2 f3 rest ⟨ha.2.1, ha.2.2⟩ hf1' hf2 v hv
    unfold LOCUS_ReadStatus
    rw [hn]
    simp only [Outcome.state, h3, and_self]

set_option maxRecDepth 100000 in
/-- C21 as stated fails. In the first response the third field is the digit
string `97`, whose value is the character code of the letter `a`: the decoder
sets `LOCUS_mode` to 10, not to 97. In the second response the first field is
empty: the decoder reads the fields one place further on, and `LOCUS_mode` is
31, the value of the fourth field, not 11. Both checksums are right. -/
theorem LOCUS_mode_digits_taken_as_letter :
    (LOCUS_ReadStatus decimalTarget (common_init decimalTarget)
        "\n$PMTKLOG,456,0,97,31,2,0,0,0,3769,46*46\r".toList).value = some true ∧
    (LOCUS_ReadStatus decimalTarget (common_init decimalTarget)
        "\n$PMTKLOG,456,0,97,31,2,0,0,0,3769,46*46\r".toList).state.LOCUS_mode = 10 ∧
    (LOCUS_ReadStatus decimalTarget (common_init decimalTarget)
        "\n$PMTKLOG,,0,11,31,2,0,0,0,3769,46*7F\r".toList).value = some true ∧
    (LOCUS_ReadStatus decimalTarget (common_init decimalTarget)
        "\n$PMTKLOG,,0,11,31,2,0,0,0,3769,46*7F\r".toList).state.LOCUS_mode = 31 ∧
    checksumStage decimalTarget 256
        "\n$PMTKLOG,456,0,97,31,2,0,0,0,3769,46*46\r".toList = some .pass ∧
    checksumStage decimalTarget 256
        "\n$PMTKLOG,,0,11,31,2,0,0,0,3769,46*7F\r".toList = some .pass := by
  decide

/-- C21, amended. For every status response `pre,f1,f2,f3,rest` whose first
field is not empty (`pre` is the identifier; the fields hold no comma, `*` or
NUL): the decoding part of `LOCUS_ReadStatus` returns true; if the third field
is a non-empty string of decimal digits with value `v < 65536` and `v` is not
the character code of a letter, `LOCUS_mode` is set to `v`; if the third field
is a single lowercase letter `c`, `LOCUS_mode` is set to `10 + (c - 'a')`. -/
theorem LOCUS_mode_field {F : Type} (tg : Target F) (st : State F)
    (pre f1 f2 f3 rest : List Char) (hpre : ',' ∉ pre)
    (hf1 : IsLocusField f1) (hne : f1 ≠ []) (hf2 : IsLocusField f2) :
    (LOCUS_ReadStatus tg st
        (pre ++ ',' :: (f1 ++ ',' :: (f2 ++ ',' :: (f3 ++ ',' :: rest))))).value = some true ∧
    (IsDigitField f3 → digitsValue 0 f3 < 65536 → isalpha (digitsValue 0 f3) = false →
      (LOCUS_ReadStatus tg st
        (pre ++ ',' :: (f1 ++ ',' :: (f2 ++ ',' :: (f3 ++ ',' :: rest))))).state.LOCUS_mode =
        digitsValue 0 f3) ∧
    (∀ c : Char, f3 = [c] → 97 ≤ c.toNat → c.toNat ≤ 122 →
      (LOCUS_ReadStatus tg st
        (pre ++ ',' :: (f1 ++ ',' :: (f2 ++ ',' :: (f3 ++ ',' :: rest))))).state.LOCUS_mode =
        10 + (c.toNat - 97)) := by
  refine ⟨?_, ?_, ?_⟩
  · cases f1 with
    | nil => exact absurd rfl hne
    | cons a f1 =>
      have ha := hf1 a (List.mem_cons_self _ _)
      unfold LOCUS_ReadStatus
      rw [List.cons_append, next_data_field pre a _ hpre ha.2.2]
      rfl
  · intro hd hv ha
    have key := (LOCUS_mode_of_third tg st pre f1 f2 f3 rest hpre hf1 hne hf2 _
      (locusField_digits tg f3 rest hd.2 0 hv)).2
    rw [key, ha]
    simp
  · intro c hc h97 h122
    subst hc
    have hdig : isdigit c = false := by
      simp only [isdigit, Bool.and_eq_false_iff, decide_eq_false_iff_not]
      right; omega
    have hne3 : c ≠ ',' ∧ c ≠ '*' ∧ c ≠ nul := by
      refine ⟨?_, ?_, ?_⟩ <;> rintro rfl <;> revert h97 <;> decide
    have hfield : locusField tg 0 ([c] ++ ',' :: rest) = (c.toNat, ',' :: rest) := by
      simp only [List.cons_append, List.nil_append, locusField]
      rw [if_pos hne3, if_neg (by decide)]
      simp only [hdig, Bool.false_eq_true, if_false, charU16_of_lt tg c (by omega)]
    have key := (LOCUS_mode_of_third tg st pre f1 f2 [c] rest hpre hf1 hne hf2 _ hfield).2
    rw [key]
    have hal : isalpha c.toNat = true := by
      simp only [isalpha, Bool.or_eq_true, Bool.and_eq_true, decide_eq_true_eq]
      right; omega
    rw [hal, if_pos rfl]
    omega

set_option maxRecDepth 100000 in
/-- The sample response, with mode `11`, and the same response with the letter `b` as its
mode: both give `LOCUS_mode = 11`. -/
theorem LOCUS_mode_field_witness :
    (LOCUS_ReadStatus decimalTarget (common_init decimalTarget)
        "\n$PMTKLOG,456,0,11,31,2,0,0,0,3769,46*48\r".toList).state.LOCUS_mode = 11 ∧
    (LOCUS_ReadStatus decimalTarget (common_init decimalTarget)
        "\n$PMTKLOG,456,0,b,31,2,0,0,0,3769,46*2A\r".toList).state.LOCUS_mode = 11 :=
  ⟨(LOCUS_mode_field decimalTarget (common_init decimalTarget) "\n$PMTKLOG".toList
      "456".toList "0".toList "11".toList "31,2,0,0,0,3769,46*48\r".toList
      (by decide) (by decide) (by decide) (by decide)).2.1 (by decide) (by decide) (by decide),
   (LOCUS_mode_field decimalTarget (common_init decimalTarget) "\n$PMTKLOG".toList
      "456".toList "0".toList "b".toList "31,2,0,0,0,3769,46*2A\r".toList
      (by decide) (by decide) (by decide) (by decide)).2.2 'b' rfl (by decide) (by decide)⟩

/-! ## The two variants of the latitude/longitude sub-decoder -/

/-- The two latitude hemisphere blocks on the same letter: same flag, same degrees cell; the
enhanced block leaves the degrees-minute cell as it was unless the letter is
`S`, and then negates it. -/
theorem hemisphereBlock_variants_lat (buf : List Char) (dm d : Int) (letter : Char) :
    (Adafruit_GPS.hemisphereBlock buf 'S' 'N' 'S' d letter).1 =
      (hemisphereBlock buf 'S' 'N' dm d).1 ∧
    (Adafruit_GPS.hemisphereBlock buf 'S' 'N' 'S' d letter).2.1 =
      (hemisphereBlock buf 'S' 'N' dm d).2.2 ∧
    ((hemisphereBlock buf 'S' 'N' dm d).2.1 = dm ∨
      (hemisphereBlock buf 'S' 'N' dm d).2.1 = wrap32 (-dm)) ∧
    (deref buf ≠ 'S' → (hemisphereBlock buf 'S' 'N' dm d).2.1 = dm) := by
  unfold Adafruit_GPS.hemisphereBlock hemisphereBlock
  generalize deref buf = x
  by_cases hc : x = ','
  · subst hc; simp
  · by_cases hn : x = 'S'
    · subst hn; simp
    · by_cases hp : x = 'N'
      · subst hp; simp
      · simp [hc, hn, hp]

/-- The two longitude hemisphere blocks on the same letter, as for the latitude, with `W` the
negating letter. -/
theorem hemisphereBlock_variants_lon (buf : List Char) (dm d : Int) (letter : Char) :
    (Adafruit_GPS.hemisphereBlock buf 'W' 'W' 'E' d letter).1 =
      (hemisphereBlock buf 'W' 'E' dm d).1 ∧
    (Adafruit_GPS.hemisphereBlock buf 'W' 'W' 'E' d letter).2.1 =
      (hemisphereBlock buf 'W' 'E' dm d).2.2 ∧
    ((hemisphereBlock buf 'W' 'E' dm d).2.1 = dm ∨
      (hemisphereBlock buf 'W' 'E' dm d).2.1 = wrap32 (-dm)) ∧
    (deref buf ≠ 'W' → (hemisphereBlock buf 'W' 'E' dm d).2.1 = dm) := by
  unfold Adafruit_GPS.hemisphereBlock hemisphereBlock
  generalize deref buf = x
  by_cases hc : x = ','
  · subst hc; simp
  · by_cases hn : x = 'W'
    · subst hn; simp
    · by_cases hp : x = 'E'
      · subst hp; simp
      · simp [hc, hn, hp]

/-- C24 as stated fails. On the cursor `123519,4807.0380,S,01131.0000,W,1`
the baseline sub-decoder leaves the degrees-minute-scaled latitude 480703800
and longitude 113100000, the enhanced one -480703800 and -113100000: the
enhanced variant negates both cells of a coordinate for `S` and `W`, the
baseline only the degrees-scaled one. -/
theorem variants_differ_on_south_west :
    (Adafruit_GPS.parse_latitude_longitude
        (Adafruit_GPS.coordinatesOf (common_init decimalTarget) nul nul)
        "123519,4807.0380,S,01131.0000,W,1".toList).2.2.latitude_degree_minute = 480703800 ∧
    (parse_latitude_longitude (common_init decimalTarget)
        "123519,4807.0380,S,01131.0000,W,1".toList).2.2.latitude_degree_minute = -480703800 ∧
    (Adafruit_GPS.parse_latitude_longitude
        (Adafruit_GPS.coordinatesOf (common_init decimalTarget) nul nul)
        "123519,4807.0380,S,01131.0000,W,1".toList).2.2.longitude_degree_minute = 113100000 ∧
    (parse_latitude_longitude (common_init decimalTarget)
        "123519,4807.0380,S,01131.0000,W,1".toList).2.2.longitude_degree_minute = -113100000 := by
  decide

/-- C24, amended. For every cursor string and every prior state (the baseline
members holding the same four cells), the baseline and the enhanced
sub-decoder leave the same cursor, the same degrees-scaled latitude and the
same degrees-scaled longitude. The degrees-minute-scaled output of the enhanced
variant is that of the baseline or its 32-bit negation, and it is that of the
baseline whenever the hemisphere field of the coordinate (the second field
after the cursor for the latitude, the fourth for the longitude) does not begin
with `S`, respectively `W`. The baseline returns false exactly where the
enhanced variant does, and otherwise reaches its end without a `return`. -/
theorem lat_lon_variants_agree {F : Type} (st : State F) (lat lon : Char)
    (buffer : List Char) :
    (Adafruit_GPS.parse_latitude_longitude (Adafruit_GPS.coordinatesOf st lat lon) buffer).2.1 =
      (parse_latitude_longitude st buffer).2.1 ∧
    (Adafruit_GPS.parse_latitude_longitude
        (Adafruit_GPS.coordinatesOf st lat lon) buffer).2.2.latitude_degree =
      (parse_latitude_longitude st buffer).2.2.latitude_degree ∧
    (Adafruit_GPS.parse_latitude_longitude
        (Adafruit_GPS.coordinatesOf st lat lon) buffer).2.2.longitude_degree =
      (parse_latitude_longitude st buffer).2.2.longitude_degree ∧
    ((parse_latitude_longitude st buffer).2.2.latitude_degree_minute =
        (Adafruit_GPS.parse_latitude_longitude
          (Adafruit_GPS.coordinatesOf st lat lon) buffer).2.2.latitude_degree_minute ∨
      (parse_latitude_longitude st buffer).2.2.latitude_degree_minute =
        wrap32 (-(Adafruit_GPS.parse_latitude_longitude
          (Adafruit_GPS.coordinatesOf st lat lon) buffer).2.2.latitude_degree_minute)) ∧
    ((parse_latitude_longitude st buffer).2.2.longitude_degree_minute =
        (Adafruit_GPS.parse_latitude_longitude
          (Adafruit_GPS.coordinatesOf st lat lon) buffer).2.2.longitude_degree_minute ∨
      (parse_latitude_longitude st buffer).2.2.longitude_degree_minute =
        wrap32 (-(Adafruit_GPS.parse_latitude_longitude
          (Adafruit_GPS.coordinatesOf st lat lon) buffer).2.2.longitude_degree_minute)) ∧
    ((skipFields 2 buffer).map deref ≠ some 'S' →
      (parse_latitude_longitude st buffer).2.2.latitude_degree_minute =
        (Adafruit_GPS.parse_latitude_longitude
          (Adafruit_GPS.coordinatesOf st lat lon) buffer).2.2.latitude_degree_minute) ∧
    ((skipFields 4 buffer).map deref ≠ some 'W' →
      (parse_latitude_longitude st buffer).2.2.longitude_degree_minute =
        (Adafruit_GPS.parse_latitude_longitude
          (Adafruit_GPS.coordinatesOf st lat lon) buffer).2.2.longitude_degree_minute) ∧
    (Adafruit_GPS.parse_latitude_longitude (Adafruit_GPS.coordinatesOf st lat lon) buffer).1 =
      (if (parse_latitude_longitude st buffer).1 then none else some false) := by
  generalize hB :
    Adafruit_GPS.parse_latitude_longitude (Adafruit_GPS.coordinatesOf st lat lon) buffer = B
  generalize hE : parse_latitude_longitude st buffer = E
  unfold Adafruit_GPS.parse_latitude_longitude Adafruit_GPS.coordinatesOf at hB
  unfold parse_latitude_longitude at hE
  cases h1 : next_data buffer with
  | none =>
    rw [h1] at hB hE
    simp only at hB hE
    subst hB hE
    simp
  | some b1 =>
    rw [h1] at hB hE
    simp only at hB hE
    generalize angleBlock b1 st.latitude_degree_minute st.latitude_degree = A at hB hE
    obtain ⟨fa, adm, ad⟩ := A
    cases fa with
    | false =>
      simp only [Bool.not_false, if_true] at hB hE
      subst hB hE
      simp
    | true =>
      simp only [Bool.not_true, Bool.false_eq_true, if_false] at hB hE
      cases h2 : next_data b1 with
      | none =>
        rw [h2] at hB hE
        simp only at hB hE
        subst hB hE
        simp
      | some b2 =>
        rw [h2] at hB hE
        simp only at hB hE
        obtain ⟨e1, e2, e3, e4⟩ := hemisphereBlock_variants_lat b2 adm ad lat
        generalize hemisphereBlock b2 'S' 'N' adm ad = H at e1 e2 e3 e4 hE
        generalize Adafruit_GPS.hemisphereBlock b2 'S' 'N' 'S' ad lat = HB at e1 e2 hB
        obtain ⟨fh, hdm, hd⟩ := H
        obtain ⟨fb, bd, bl⟩ := HB
        simp only at e1 e2 e3 e4
        subst e1 e2
        have e5 : (skipFields 2 buffer).map deref ≠ some 'S' → hdm = adm := by
          intro h
          apply e4
          intro hS
          apply h
          simp only [skipFields, h1, h2, Option.map_some', hS]
        cases fb with
        | false =>
          simp only [Bool.not_false, if_true] at hB hE
          subst hB hE
          exact ⟨rfl, rfl, rfl, e3, Or.inl rfl, e5, fun _ => rfl, rfl⟩
        | true =>
          simp only [Bool.not_true, Bool.false_eq_true, if_false] at hB hE
          cases h3 : next_data b2 with
          | none =>
            rw [h3] at hB hE
            simp only at hB hE
            subst hB hE
            exact ⟨rfl, rfl, rfl, e3, Or.inl rfl, e5, fun _ => rfl, rfl⟩
          | some b3 =>
            rw [h3] at hB hE
            simp only at hB hE
            generalize angleBlock b3 st.longitude_degree_minute st.longitude_degree = A3
              at hB hE
            obtain ⟨fa3, odm, od⟩ := A3
            cases fa3 with
            | false =>
              simp only [Bool.not_false, if_true] at hB hE
              subst hB hE
              exact ⟨rfl, rfl, rfl, e3, Or.inl rfl, e5, fun _ => rfl, rfl⟩
            | true =>
              simp only [Bool.not_true, Bool.false_eq_true, if_false] at hB hE
              cases h4 : next_data b3 with
              | none =>
                rw [h4] at hB hE
                simp only at hB hE
                subst hB hE
                exact ⟨rfl, rfl, rfl, e3, Or.inl rfl, e5, fun _ => rfl, rfl⟩
              | some b4 =>
                rw [h4] at hB hE
                simp only at hB hE
                obtain ⟨g1, g2, g3, g4⟩ := hemisphereBlock_variants_lon b4 odm od lon
                generalize hemisphereBlock b4 'W' 'E' odm od = H4 at g1 g2 g3 g4 hE
                generalize Adafruit_GPS.hemisphereBlock b4 'W' 'W' 'E' od lon = HB4 at g1 g2 hB
                obtain ⟨fh4, hdm4, hd4⟩ := H4
                obtain ⟨fb4, bd4, bl4⟩ := HB4
                simp only at g1 g2 g3 g4
                subst g1 g2
                have g5 : (skipFields 4 buffer).map deref ≠ some 'W' → hdm4 = odm := by
                  intro h
                  apply g4
                  intro hW
                  apply h
                  simp only [skipFields, h1, h2, h3, h4, Option.map_some', hW]
                cases fb4 with
                | false =>
                  simp only [Bool.not_false, if_true] at hB
                  subst hB hE
                  exact ⟨rfl, rfl, rfl, e3, g3, e5, g5, rfl⟩
                | true =>
                  simp only [Bool.not_true, Bool.false_eq_true, if_false] at hB
                  subst hB hE
                  exact ⟨rfl, rfl, rfl, e3, g3, e5, g5, rfl⟩

/-- On a northern and eastern position the two variants leave the same degrees-minute-scaled
cells. -/
theorem lat_lon_variants_agree_witness :
    (parse_latitude_longitude (common_init decimalTarget)
        "123519,4807.0380,N,01131.0000,E,1".toList).2.2.latitude_degree_minute =
      (Adafruit_GPS.parse_latitude_longitude
        (Adafruit_GPS.coordinatesOf (common_init decimalTarget) nul nul)
        "123519,4807.0380,N,01131.0000,E,1".toList).2.2.latitude_degree_minute ∧
    (parse_latitude_longitude (common_init decimalTarget)
        "123519,4807.0380,N,01131.0000,E,1".toList).2.2.longitude_degree_minute =
      (Adafruit_GPS.parse_latitude_longitude
        (Adafruit_GPS.coordinatesOf (common_init decimalTarget) nul nul)
        "123519,4807.0380,N,01131.0000,E,1".toList).2.2.longitude_degree_minute :=
  ⟨(lat_lon_variants_agree (common_init decimalTarget) nul nul
      "123519,4807.0380,N,01131.0000,E,1".toList).2.2.2.2.2.1 (by decide),
   (lat_lon_variants_agree (common_init decimalTarget) nul nul
      "123519,4807.0380,N,01131.0000,E,1".toList).2.2.2.2.2.2.1 (by decide)⟩

end MTK3339
